import Mathlib

/-! The f32 AVX2 LPGEMM micro-kernels (6x16m, 6x8m, 6x4m, 6x2m, 6x1m)

Shallow embedding of `kernels/zen/lpgemm/f32f32f32/lpgemm_m_kernel_f32_avx2.c`.

* Scalars live in an arbitrary linearly ordered commutative ring `α`
  (exact arithmetic; `_mm256_fmadd_ps a b c` is `a * b + c`).
* A `float*` is an offset into a flat memory `Mem α = Nat → α`; the three
  operands A, B, C live in three separate memories (they do not alias).
* A vector register is a map from lane index to value.
* The `for` loops are structural recursions, so every kernel is total; the only
  way a kernel can fail is a call through a `NULL` entry of its M-fringe table,
  which is modelled by `none`.
-/

namespace Lpgemm

/-- Flat element-addressed memory. -/
abbrev Mem (α : Type) := Nat → α

/-- A SIMD register, lane index to value. -/
abbrev Vec (α : Type) := Nat → α

section Intrinsics

variable {α : Type} [Zero α] [Add α] [Mul α] [Max α] [Min α] [LT α] [DecidableEq α]
  [DecidableRel ((· < ·) : α → α → Prop)]

/-- Read `n` consecutive elements starting at `p`; the remaining lanes are zero. -/
def load_lanes (n : Nat) (mem : Mem α) (p : Nat) : Vec α :=
  fun l => if l < n then mem (p + l) else 0

/-- Write lanes `0..n-1` of `v` to `p..p+n-1`. -/
def store_lanes (n : Nat) (mem : Mem α) (p : Nat) (v : Vec α) : Mem α :=
  fun x => if p ≤ x ∧ x < p + n then v (x - p) else mem x

/-- The intrinsic `_mm256_loadu_ps`: eight floats. -/
def _mm256_loadu_ps (mem : Mem α) (p : Nat) : Vec α := load_lanes 8 mem p

/-- The intrinsic `_mm_loadu_ps`: four floats. -/
def _mm_loadu_ps (mem : Mem α) (p : Nat) : Vec α := load_lanes 4 mem p

/-- The intrinsic `_mm_load_sd` on a `float*` cast to `double*`: two floats, upper lanes zeroed. -/
def _mm_load_sd (mem : Mem α) (p : Nat) : Vec α := load_lanes 2 mem p

/-- The intrinsic `_mm_load_ss`: one float, upper lanes zeroed. -/
def _mm_load_ss (mem : Mem α) (p : Nat) : Vec α := load_lanes 1 mem p

/-- The intrinsics `_mm256_broadcast_ss` and `_mm_broadcast_ss`: one float to every lane. -/
def _mm256_broadcast_ss (mem : Mem α) (p : Nat) : Vec α := fun _ => mem p

/-- The intrinsics `_mm256_set1_ps` and `_mm_set1_ps`. -/
def _mm256_set1_ps (x : α) : Vec α := fun _ => x

/-- The intrinsics `_mm256_setzero_ps` and `_mm_setzero_ps`. -/
def _mm256_setzero_ps : Vec α := fun _ => 0

/-- The intrinsics `_mm256_fmadd_ps` and `_mm_fmadd_ps`, exact: `a * b + c` per lane. -/
def _mm256_fmadd_ps (a b c : Vec α) : Vec α := fun l => a l * b l + c l

/-- The intrinsics `_mm256_mul_ps` and `_mm_mul_ps`. -/
def _mm256_mul_ps (a b : Vec α) : Vec α := fun l => a l * b l

/-- The intrinsics `_mm256_add_ps` and `_mm_add_ps`. -/
def _mm256_add_ps (a b : Vec α) : Vec α := fun l => a l + b l

/-- The intrinsics `_mm256_max_ps` and `_mm_max_ps`. -/
def _mm256_max_ps (a b : Vec α) : Vec α := fun l => max (a l) (b l)

/-- The intrinsics `_mm256_min_ps` and `_mm_min_ps`. -/
def _mm256_min_ps (a b : Vec α) : Vec α := fun l => min (a l) (b l)

/-- The intrinsic `_mm256_storeu_ps`: eight floats. -/
def _mm256_storeu_ps (mem : Mem α) (p : Nat) (v : Vec α) : Mem α := store_lanes 8 mem p v

/-- The intrinsic `_mm_storeu_ps`: four floats. -/
def _mm_storeu_ps (mem : Mem α) (p : Nat) (v : Vec α) : Mem α := store_lanes 4 mem p v

/-- The intrinsic `_mm_store_sd` on a `float*` cast to `double*`: the low two floats. -/
def _mm_store_sd (mem : Mem α) (p : Nat) (v : Vec α) : Mem α := store_lanes 2 mem p v

/-- The intrinsic `_mm_store_ss`: the low float. -/
def _mm_store_ss (mem : Mem α) (p : Nat) (v : Vec α) : Mem α := store_lanes 1 mem p v

/-- Modelled from the spec: the macro `RELU_SCALE_OP_F32S_AVX2` / `RELU_SCALE_OP_F32S_SSE`
of `lpgemm_kernel_macros_f32_avx2.h` (not among the sources): "for negative elements,
multiplies by a caller-supplied scale factor instead of zeroing". -/
def RELU_SCALE_OP_F32S (reg scale zero : Vec α) : Vec α :=
  fun l => if reg l < zero l then reg l * scale l else reg l

/-- Modelled from the spec: the macro `CLIP_F32S_AVX2` / `CLIP_F32S_SSE` (not among the
sources): "clamps every element into a caller-supplied `[min, max]` range". -/
def CLIP_F32S (reg lo hi : Vec α) : Vec α :=
  _mm256_min_ps (_mm256_max_ps reg lo) hi

/-- Modelled from the spec: the macros `F32_C_BNZ_8`, `F32_C_BNZ_4`, `F32_C_BNZ_2`,
`F32_C_BNZ_1` (not among the sources): "load the existing output tile, scale by `beta`,
and add", at the width `n` of the macro. -/
def F32_C_BNZ (n : Nat) (C : Mem α) (cbuf : Nat) (beta acc : Vec α) : Vec α :=
  _mm256_fmadd_ps (load_lanes n C cbuf) beta acc

/-- A counted `for (m = 0; m < n; m++)` loop: the body sees the counter and the state. -/
def for_loop {σ : Type} (body : Nat → σ → σ) : Nat → σ → σ
  | 0, s => s
  | n + 1, s => body n (for_loop body n s)

end Intrinsics

/-! ## Post-op sequence and cursor -/

/-- Modelled from the spec: the post-op kinds (`lpgemm_post_ops.h` is not among the
sources), in the order in which the kernels list their labels. -/
inductive LPGEMM_POST_OP_CODE
  | POST_OPS_DISABLE
  | POST_OPS_BIAS
  | POST_OPS_RELU
  | POST_OPS_RELU_SCALE
  | POST_OPS_GELU_TANH
  | POST_OPS_GELU_ERF
  | POST_OPS_CLIP
  deriving DecidableEq, Repr

namespace LPGEMM_POST_OP_CODE

/-- The integer value of the kind, used as index into `post_ops_labels`. -/
def toNat : LPGEMM_POST_OP_CODE → Nat
  | POST_OPS_DISABLE => 0
  | POST_OPS_BIAS => 1
  | POST_OPS_RELU => 2
  | POST_OPS_RELU_SCALE => 3
  | POST_OPS_GELU_TANH => 4
  | POST_OPS_GELU_ERF => 5
  | POST_OPS_CLIP => 6

end LPGEMM_POST_OP_CODE

/-- One node of the post-op list. The `next` link is the tail of the Lean list that holds
the node. `op_args2` is an untyped pointer that the handlers read either as a `char`
(bias layout flag) or as a `float` (relu scale, clip lower bound): both views are kept. -/
structure lpgemm_post_op (α : Type) where
  op_code : LPGEMM_POST_OP_CODE
  op_args1 : Nat → α
  op_args2_char : Char
  op_args2_f32 : α
  op_args3_f32 : α

/-- The post-op cursor, a struct passed by value (`post_ops_attr.post_op_c_i`). -/
structure lpgemm_post_op_attr where
  post_op_c_i : Nat
  post_op_c_j : Nat
  deriving DecidableEq, Repr

/-- The labels of the computed-goto table; the argument is the tile width of the kernel
that owns the label (`POST_OPS_BIAS_6x16F` is `BIAS 16`). -/
inductive Label
  | DISABLE (w : Nat)
  | BIAS (w : Nat)
  | RELU (w : Nat)
  | RELU_SCALE (w : Nat)
  | GELU_TANH (w : Nat)
  | GELU_ERF (w : Nat)
  | CLIP (w : Nat)
  deriving DecidableEq, Repr

/-- The table `static void* post_ops_labels[]` of the kernel of tile width `w`. -/
def post_ops_labels (w : Nat) : List Label :=
  [ Label.DISABLE w,
    Label.BIAS w,
    Label.RELU w,
    Label.RELU_SCALE w,
    Label.GELU_TANH w,
    Label.GELU_ERF w,
    Label.CLIP w ]

/-- The jump target `post_ops_labels[op_code]`. -/
def jump_target (w : Nat) (k : LPGEMM_POST_OP_CODE) : Label :=
  (post_ops_labels w).get ⟨k.toNat, by
    show k.toNat < 7
    cases k <;> decide⟩

/-! ## Arguments, calls and results -/

/-- The parameter list of `LPGEMM_N_FRINGE_KERN` (the one with which the main kernel calls
`lpgemm_rowvar_f32f32f32of32_6x8m`): pointers are offsets into the operand memories. -/
structure NArgs (α : Type) where
  m0 : Nat
  k0 : Nat
  a : Nat
  rs_a : Nat
  cs_a : Nat
  ps_a : Nat
  b : Nat
  rs_b : Nat
  cs_b : Nat
  c : Nat
  rs_c : Nat
  alpha : α
  beta : α
  post_ops_list : List (lpgemm_post_op α)
  post_ops_attr : lpgemm_post_op_attr

/-- The parameter list of `LPGEMM_MAIN_KERN`: that of the N-fringe kernels plus `n0`
and `cs_c`. -/
structure MainArgs (α : Type) extends NArgs α where
  n0 : Nat
  cs_c : Nat

/-- The parameter list of an M-fringe kernel (`lpgemm_m_fringe_f32_ker_ft`), as passed
at the call `ker_fp( k0, ai, rs_a, cs_a, bj, rs_b, cs_b, cij, rs_c, alpha, beta, ... )`. -/
structure MArgs (α : Type) where
  k0 : Nat
  a : Nat
  rs_a : Nat
  cs_a : Nat
  b : Nat
  rs_b : Nat
  cs_b : Nat
  c : Nat
  rs_c : Nat
  alpha : α
  beta : α
  post_ops_list : List (lpgemm_post_op α)
  post_ops_attr : lpgemm_post_op_attr

/-- The name of an M-fringe kernel, `lpgemm_rowvar_f32f32f32of32_{rows}x{cols}`. -/
structure FringeName where
  rows : Nat
  cols : Nat
  deriving DecidableEq, Repr

/-- The name of an N-fringe kernel, `lpgemm_rowvar_f32f32f32of32_6x{cols}m`. -/
structure NFringeName where
  cols : Nat
  deriving DecidableEq, Repr

/-- A call made by the body of a kernel. -/
inductive Call (α : Type)
  | n_fringe (ker : NFringeName) (args : NArgs α)
  | m_fringe (ker : FringeName) (args : MArgs α)

/-- What a kernel leaves behind: the C memory, its local copy of the cursor at return,
and the calls its own body made, in order. -/
structure KernelResult (α : Type) where
  c : Mem α
  post_ops_attr : lpgemm_post_op_attr
  calls : List (Call α)

/-- The code of this repository that the kernels use and that is not among the sources:
the GELU approximations (elementwise functions of the AVX2 and of the SSE variants of
the `GELU_TANH_F32S_*` and `GELU_ERF_F32S_*` definitions) and the M-fringe kernels
`lpgemm_rowvar_f32f32f32of32_{r}x{w}`, each a transformer of the C memory. -/
structure Externals (α : Type) where
  gelu_tanh_avx2 : α → α
  gelu_erf_avx2 : α → α
  gelu_tanh_sse : α → α
  gelu_erf_sse : α → α
  m_fringe : FringeName → MArgs α → Mem α → Mem α → Mem α → Mem α

/-- The table `lpgemm_m_fringe_f32_ker_ft ker_fps[6]` of the kernel of tile width `w`:
`NULL` and then the 1- to 5-row kernels of that width. -/
def ker_fps (w : Nat) : List (Option FringeName) :=
  [ none,
    some ⟨1, w⟩,
    some ⟨2, w⟩,
    some ⟨3, w⟩,
    some ⟨4, w⟩,
    some ⟨5, w⟩ ]

section Kernels

variable {α : Type} [Zero α] [Add α] [Mul α] [Max α] [Min α] [LT α] [DecidableEq α]
  [DecidableRel ((· < ·) : α → α → Prop)]

/-- The tail of every kernel, `consider_edge_cases:` — when `m_left` is not zero, the
entry `ker_fps[m_left]` is called with the advanced A and C pointers and the kernel
returns; a call through the `NULL` entry is `none`. `attr` is the kernel's local cursor
after the row-group loop. -/
def consider_edge_cases (ext : Externals α) (w : Nat) (A B : Mem α) (p : NArgs α)
    (C : Mem α) (attr : lpgemm_post_op_attr) : Option (KernelResult α) :=
  let m_iter := p.m0 / 6
  let m_left := p.m0 % 6
  if m_left ≠ 0 then
    let i_edge := p.m0 - m_left
    let cij := p.c + i_edge * p.rs_c
    let ai := p.a + m_iter * p.ps_a
    let bj := p.b
    let ker_fp := (ker_fps w).get ⟨m_left, by
      show p.m0 % 6 < 6
      exact Nat.mod_lt _ (by decide)⟩
    match ker_fp with
    | none => none
    | some ker =>
      let args : MArgs α :=
        { k0 := p.k0, a := ai, rs_a := p.rs_a, cs_a := p.cs_a,
          b := bj, rs_b := p.rs_b, cs_b := p.cs_b, c := cij, rs_c := p.rs_c,
          alpha := p.alpha, beta := p.beta,
          post_ops_list := p.post_ops_list, post_ops_attr := attr }
      some { c := ext.m_fringe ker args A B C, post_ops_attr := attr,
             calls := [Call.m_fringe ker args] }
  else
    some { c := C, post_ops_attr := attr, calls := [] }

/-! ### The main kernel, `lpgemm_rowvar_f32f32f32of32_6x16m` -/

/-- The twelve accumulator registers of the 6x16 tile: row `i` of the tile is
`ymm(4+2i)` (columns 0-7) and `ymm(5+2i)` (columns 8-15). -/
structure Acc6x16 (α : Type) where
  ymm4 : Vec α
  ymm5 : Vec α
  ymm6 : Vec α
  ymm7 : Vec α
  ymm8 : Vec α
  ymm9 : Vec α
  ymm10 : Vec α
  ymm11 : Vec α
  ymm12 : Vec α
  ymm13 : Vec α
  ymm14 : Vec α
  ymm15 : Vec α

/-- Apply one register operation to each of the twelve accumulators, in register
order (the handlers repeat one statement per register). -/
def Acc6x16.map (f : Vec α → Vec α) (r : Acc6x16 α) : Acc6x16 α :=
  { ymm4 := f r.ymm4, ymm5 := f r.ymm5, ymm6 := f r.ymm6, ymm7 := f r.ymm7,
    ymm8 := f r.ymm8, ymm9 := f r.ymm9, ymm10 := f r.ymm10, ymm11 := f r.ymm11,
    ymm12 := f r.ymm12, ymm13 := f r.ymm13, ymm14 := f r.ymm14, ymm15 := f r.ymm15 }

/-- The state of the `k` loop: the two moving pointers and the accumulators. -/
structure KState16 (α : Type) where
  abuf : Nat
  bbuf : Nat
  acc : Acc6x16 α

/-- One iteration of the `k` loop of the 6x16 kernel. -/
def k_body_6x16 (A B : Mem α) (rs_a cs_a rs_b : Nat) (s : KState16 α) : KState16 α :=
  let ymm0 := _mm256_loadu_ps B s.bbuf
  let ymm1 := _mm256_loadu_ps B (s.bbuf + 8)
  let bbuf := s.bbuf + rs_b
  let ymm2 := _mm256_broadcast_ss A (s.abuf + 0 * rs_a)
  let ymm3 := _mm256_broadcast_ss A (s.abuf + 1 * rs_a)
  let ymm4 := _mm256_fmadd_ps ymm0 ymm2 s.acc.ymm4
  let ymm5 := _mm256_fmadd_ps ymm1 ymm2 s.acc.ymm5
  let ymm6 := _mm256_fmadd_ps ymm0 ymm3 s.acc.ymm6
  let ymm7 := _mm256_fmadd_ps ymm1 ymm3 s.acc.ymm7
  let ymm2 := _mm256_broadcast_ss A (s.abuf + 2 * rs_a)
  let ymm3 := _mm256_broadcast_ss A (s.abuf + 3 * rs_a)
  let ymm8 := _mm256_fmadd_ps ymm0 ymm2 s.acc.ymm8
  let ymm9 := _mm256_fmadd_ps ymm1 ymm2 s.acc.ymm9
  let ymm10 := _mm256_fmadd_ps ymm0 ymm3 s.acc.ymm10
  let ymm11 := _mm256_fmadd_ps ymm1 ymm3 s.acc.ymm11
  let ymm2 := _mm256_broadcast_ss A (s.abuf + 4 * rs_a)
  let ymm3 := _mm256_broadcast_ss A (s.abuf + 5 * rs_a)
  let abuf := s.abuf + cs_a
  let ymm12 := _mm256_fmadd_ps ymm0 ymm2 s.acc.ymm12
  let ymm13 := _mm256_fmadd_ps ymm1 ymm2 s.acc.ymm13
  let ymm14 := _mm256_fmadd_ps ymm0 ymm3 s.acc.ymm14
  let ymm15 := _mm256_fmadd_ps ymm1 ymm3 s.acc.ymm15
  { abuf := abuf, bbuf := bbuf,
    acc := { ymm4 := ymm4, ymm5 := ymm5, ymm6 := ymm6, ymm7 := ymm7,
             ymm8 := ymm8, ymm9 := ymm9, ymm10 := ymm10, ymm11 := ymm11,
             ymm12 := ymm12, ymm13 := ymm13, ymm14 := ymm14, ymm15 := ymm15 } }

/-- Modelled from the spec: `ALPHA_MUL_ACC_YMM_4_REG` (not among the sources), "scale
accumulators by `alpha`", here for the three groups of four registers. -/
def alpha_mul_6x16 (alpha : α) (r : Acc6x16 α) : Acc6x16 α :=
  let ymm0 := _mm256_set1_ps alpha
  r.map (fun v => _mm256_mul_ps v ymm0)

/-- The `beta != 0` block of the 6x16 kernel: twelve `F32_C_BNZ_8`, two per row. -/
def beta_6x16 (C : Mem α) (cbuf rs_c : Nat) (beta : α) (r : Acc6x16 α) : Acc6x16 α :=
  let _cbuf := cbuf
  let ymm3 := _mm256_set1_ps beta
  let ymm4 := F32_C_BNZ 8 C _cbuf ymm3 r.ymm4
  let ymm5 := F32_C_BNZ 8 C (_cbuf + 8) ymm3 r.ymm5
  let _cbuf := _cbuf + rs_c
  let ymm6 := F32_C_BNZ 8 C _cbuf ymm3 r.ymm6
  let ymm7 := F32_C_BNZ 8 C (_cbuf + 8) ymm3 r.ymm7
  let _cbuf := _cbuf + rs_c
  let ymm8 := F32_C_BNZ 8 C _cbuf ymm3 r.ymm8
  let ymm9 := F32_C_BNZ 8 C (_cbuf + 8) ymm3 r.ymm9
  let _cbuf := _cbuf + rs_c
  let ymm10 := F32_C_BNZ 8 C _cbuf ymm3 r.ymm10
  let ymm11 := F32_C_BNZ 8 C (_cbuf + 8) ymm3 r.ymm11
  let _cbuf := _cbuf + rs_c
  let ymm12 := F32_C_BNZ 8 C _cbuf ymm3 r.ymm12
  let ymm13 := F32_C_BNZ 8 C (_cbuf + 8) ymm3 r.ymm13
  let _cbuf := _cbuf + rs_c
  let ymm14 := F32_C_BNZ 8 C _cbuf ymm3 r.ymm14
  let ymm15 := F32_C_BNZ 8 C (_cbuf + 8) ymm3 r.ymm15
  { ymm4 := ymm4, ymm5 := ymm5, ymm6 := ymm6, ymm7 := ymm7,
    ymm8 := ymm8, ymm9 := ymm9, ymm10 := ymm10, ymm11 := ymm11,
    ymm12 := ymm12, ymm13 := ymm13, ymm14 := ymm14, ymm15 := ymm15 }

/-- The handler at label `POST_OPS_BIAS_6x16F`. -/
def POST_OPS_BIAS_6x16F (node : lpgemm_post_op α) (post_ops_attr : lpgemm_post_op_attr)
    (r : Acc6x16 α) : Acc6x16 α :=
  if node.op_args2_char = 'r' ∨ node.op_args2_char = 'R' then
    let ymm0 := _mm256_loadu_ps node.op_args1 (post_ops_attr.post_op_c_j + 0 * 8)
    let ymm1 := _mm256_loadu_ps node.op_args1 (post_ops_attr.post_op_c_j + 1 * 8)
    { ymm4 := _mm256_add_ps r.ymm4 ymm0, ymm5 := _mm256_add_ps r.ymm5 ymm1,
      ymm6 := _mm256_add_ps r.ymm6 ymm0, ymm7 := _mm256_add_ps r.ymm7 ymm1,
      ymm8 := _mm256_add_ps r.ymm8 ymm0, ymm9 := _mm256_add_ps r.ymm9 ymm1,
      ymm10 := _mm256_add_ps r.ymm10 ymm0, ymm11 := _mm256_add_ps r.ymm11 ymm1,
      ymm12 := _mm256_add_ps r.ymm12 ymm0, ymm13 := _mm256_add_ps r.ymm13 ymm1,
      ymm14 := _mm256_add_ps r.ymm14 ymm0, ymm15 := _mm256_add_ps r.ymm15 ymm1 }
  else
    let ymm0 := _mm256_broadcast_ss node.op_args1 (post_ops_attr.post_op_c_i + 0)
    let ymm1 := _mm256_broadcast_ss node.op_args1 (post_ops_attr.post_op_c_i + 1)
    let ymm2 := _mm256_broadcast_ss node.op_args1 (post_ops_attr.post_op_c_i + 2)
    let ymm3 := _mm256_broadcast_ss node.op_args1 (post_ops_attr.post_op_c_i + 3)
    let ymm4 := _mm256_add_ps r.ymm4 ymm0
    let ymm5 := _mm256_add_ps r.ymm5 ymm0
    let ymm6 := _mm256_add_ps r.ymm6 ymm1
    let ymm7 := _mm256_add_ps r.ymm7 ymm1
    let ymm8 := _mm256_add_ps r.ymm8 ymm2
    let ymm9 := _mm256_add_ps r.ymm9 ymm2
    let ymm10 := _mm256_add_ps r.ymm10 ymm3
    let ymm11 := _mm256_add_ps r.ymm11 ymm3
    let ymm0 := _mm256_broadcast_ss node.op_args1 (post_ops_attr.post_op_c_i + 4)
    let ymm1 := _mm256_broadcast_ss node.op_args1 (post_ops_attr.post_op_c_i + 5)
    { ymm4 := ymm4, ymm5 := ymm5, ymm6 := ymm6, ymm7 := ymm7,
      ymm8 := ymm8, ymm9 := ymm9, ymm10 := ymm10, ymm11 := ymm11,
      ymm12 := _mm256_add_ps r.ymm12 ymm0, ymm13 := _mm256_add_ps r.ymm13 ymm0,
      ymm14 := _mm256_add_ps r.ymm14 ymm1, ymm15 := _mm256_add_ps r.ymm15 ymm1 }

/-- The handler at label `POST_OPS_RELU_6x16F`. -/
def POST_OPS_RELU_6x16F (r : Acc6x16 α) : Acc6x16 α :=
  let ymm0 : Vec α := _mm256_setzero_ps
  r.map (fun v => _mm256_max_ps v ymm0)

/-- The handler at label `POST_OPS_RELU_SCALE_6x16F`. -/
def POST_OPS_RELU_SCALE_6x16F (node : lpgemm_post_op α) (r : Acc6x16 α) : Acc6x16 α :=
  let ymm0 := _mm256_set1_ps node.op_args2_f32
  let ymm1 : Vec α := _mm256_setzero_ps
  r.map (fun v => RELU_SCALE_OP_F32S v ymm0 ymm1)

/-- The handler at label `POST_OPS_GELU_TANH_6x16F`. -/
def POST_OPS_GELU_TANH_6x16F (ext : Externals α) (r : Acc6x16 α) : Acc6x16 α :=
  r.map (fun v l => ext.gelu_tanh_avx2 (v l))

/-- The handler at label `POST_OPS_GELU_ERF_6x16F`. -/
def POST_OPS_GELU_ERF_6x16F (ext : Externals α) (r : Acc6x16 α) : Acc6x16 α :=
  r.map (fun v l => ext.gelu_erf_avx2 (v l))

/-- The handler at label `POST_OPS_CLIP_6x16F`. -/
def POST_OPS_CLIP_6x16F (node : lpgemm_post_op α) (r : Acc6x16 α) : Acc6x16 α :=
  let ymm0 := _mm256_set1_ps node.op_args2_f32
  let ymm1 := _mm256_set1_ps node.op_args3_f32
  r.map (fun v => CLIP_F32S v ymm0 ymm1)

/-- The post-op stage of the 6x16 kernel as the state machine of the computed gotos.
Modelled from the spec: the jumps `POST_OP_LABEL_LASTK_SAFE_JUMP` and
`POST_OP_LABEL_LASTK_SAFE_JUMP_WITH_NEXT_PTR` (not among the sources) — the kind of the
current node selects the label through `post_ops_labels`, each handler then moves to the
next node, and the sentinel kind or the end of the list leads to the store. -/
def post_ops_6x16 (ext : Externals α) (post_ops_attr : lpgemm_post_op_attr) :
    List (lpgemm_post_op α) → Acc6x16 α → Acc6x16 α
  | [], r => r
  | node :: next, r =>
    match jump_target 16 node.op_code with
    | Label.DISABLE _ => r
    | Label.BIAS _ =>
      post_ops_6x16 ext post_ops_attr next (POST_OPS_BIAS_6x16F node post_ops_attr r)
    | Label.RELU _ => post_ops_6x16 ext post_ops_attr next (POST_OPS_RELU_6x16F r)
    | Label.RELU_SCALE _ =>
      post_ops_6x16 ext post_ops_attr next (POST_OPS_RELU_SCALE_6x16F node r)
    | Label.GELU_TANH _ =>
      post_ops_6x16 ext post_ops_attr next (POST_OPS_GELU_TANH_6x16F ext r)
    | Label.GELU_ERF _ =>
      post_ops_6x16 ext post_ops_attr next (POST_OPS_GELU_ERF_6x16F ext r)
    | Label.CLIP _ => post_ops_6x16 ext post_ops_attr next (POST_OPS_CLIP_6x16F node r)

/-- The twelve stores at `POST_OPS_6x16F_DISABLE`. -/
def store_6x16 (C : Mem α) (cbuf rs_c : Nat) (r : Acc6x16 α) : Mem α :=
  let C := _mm256_storeu_ps C cbuf r.ymm4
  let C := _mm256_storeu_ps C (cbuf + 8) r.ymm5
  let cbuf := cbuf + rs_c
  let C := _mm256_storeu_ps C cbuf r.ymm6
  let C := _mm256_storeu_ps C (cbuf + 8) r.ymm7
  let cbuf := cbuf + rs_c
  let C := _mm256_storeu_ps C cbuf r.ymm8
  let C := _mm256_storeu_ps C (cbuf + 8) r.ymm9
  let cbuf := cbuf + rs_c
  let C := _mm256_storeu_ps C cbuf r.ymm10
  let C := _mm256_storeu_ps C (cbuf + 8) r.ymm11
  let cbuf := cbuf + rs_c
  let C := _mm256_storeu_ps C cbuf r.ymm12
  let C := _mm256_storeu_ps C (cbuf + 8) r.ymm13
  let cbuf := cbuf + rs_c
  let C := _mm256_storeu_ps C cbuf r.ymm14
  _mm256_storeu_ps C (cbuf + 8) r.ymm15

/-- Modelled from the spec: the three `ZERO_ACC_YMM_4_REG` (not among the sources),
"zero `MR×NR` register accumulators". -/
def zero_acc_6x16 : Acc6x16 α :=
  let zero : Vec α := _mm256_setzero_ps
  { ymm4 := zero, ymm5 := zero, ymm6 := zero, ymm7 := zero,
    ymm8 := zero, ymm9 := zero, ymm10 := zero, ymm11 := zero,
    ymm12 := zero, ymm13 := zero, ymm14 := zero, ymm15 := zero }

/-- The accumulators of row group `m` after the `k` loop (zeroing included). -/
def k_loop_6x16 (A B : Mem α) (p : NArgs α) (m : Nat) : Acc6x16 α :=
  let acc : Acc6x16 α := zero_acc_6x16
  let abuf := p.a + m * p.ps_a
  let bbuf := p.b
  (for_loop (fun _ s => k_body_6x16 A B p.rs_a p.cs_a p.rs_b s) p.k0
    { abuf := abuf, bbuf := bbuf, acc := acc }).acc

/-- The accumulators of row group `m` after the alpha and beta scaling. -/
def scaled_6x16 (A B : Mem α) (p : NArgs α) (m : Nat) (C : Mem α) : Acc6x16 α :=
  let cbuf := p.c + m * 6 * p.rs_c
  let acc := alpha_mul_6x16 p.alpha (k_loop_6x16 A B p m)
  if p.beta ≠ 0 then beta_6x16 C cbuf p.rs_c p.beta acc else acc

/-- The body of the `m` loop of the 6x16 kernel: one row group, from zeroing the
accumulators to the stores and `post_ops_attr.post_op_c_i += MR`. -/
def row_group_6x16 (ext : Externals α) (A B : Mem α) (p : NArgs α) (m : Nat)
    (st : Mem α × lpgemm_post_op_attr) : Mem α × lpgemm_post_op_attr :=
  let C := st.1
  let post_ops_attr := st.2
  let cbuf := p.c + m * 6 * p.rs_c
  let acc := scaled_6x16 A B p m C
  let acc := post_ops_6x16 ext post_ops_attr p.post_ops_list acc
  let C := store_6x16 C cbuf p.rs_c acc
  (C, { post_ops_attr with post_op_c_i := post_ops_attr.post_op_c_i + 6 })

/-! ### The N-fringe kernels `lpgemm_rowvar_f32f32f32of32_6x8m`, `_6x4m`, `_6x2m`, `_6x1m`

The four functions are the same text up to the register file and the width of the loads
and stores; they are embedded as one definition with the widths as parameters. -/

/-- What distinguishes the four N-fringe kernels.
* `nr`: the tile width. B is loaded, C is loaded (`F32_C_BNZ_{nr}`) and stored with the
  intrinsic of that many floats: `_mm256_loadu_ps`/`_mm256_storeu_ps` (8),
  `_mm_loadu_ps`/`_mm_storeu_ps` (4), `_mm_load_sd`/`_mm_store_sd` (2),
  `_mm_load_ss`/`_mm_store_ss` (1).
* `vl`: the number of floats of the bias load of the `'r'` branch, `_mm256_loadu_ps` in
  the 6x8 kernel and `_mm_loadu_ps` in the 6x4, 6x2 and 6x1 kernels.
* `avx2`: whether the GELU handlers are the AVX2 ones (6x8) or the SSE ones. -/
structure NFringeCfg where
  nr : Nat
  vl : Nat
  avx2 : Bool
  deriving DecidableEq, Repr

/-- Widths of `lpgemm_rowvar_f32f32f32of32_6x8m`. -/
def cfg_6x8 : NFringeCfg := { nr := 8, vl := 8, avx2 := true }

/-- Widths of `lpgemm_rowvar_f32f32f32of32_6x4m`. -/
def cfg_6x4 : NFringeCfg := { nr := 4, vl := 4, avx2 := false }

/-- Widths of `lpgemm_rowvar_f32f32f32of32_6x2m`. -/
def cfg_6x2 : NFringeCfg := { nr := 2, vl := 4, avx2 := false }

/-- Widths of `lpgemm_rowvar_f32f32f32of32_6x1m`. -/
def cfg_6x1 : NFringeCfg := { nr := 1, vl := 4, avx2 := false }

/-- The six accumulator registers of an N-fringe kernel, one per tile row:
`ymm4, ymm6, ymm8, ymm10, ymm12, ymm14` in the 6x8 kernel and `xmm4 .. xmm9` in the
6x4, 6x2 and 6x1 kernels. The scratch registers that the 6x8 kernel zeroes and scales
without using (`ymm13`, `ymm15`) and those of the other three (`xmm0 .. xmm3`) carry no
value to the stores and are left out. -/
structure Acc6 (α : Type) where
  r0 : Vec α
  r1 : Vec α
  r2 : Vec α
  r3 : Vec α
  r4 : Vec α
  r5 : Vec α

/-- Apply one register operation to each of the six accumulators. -/
def Acc6.map (f : Vec α → Vec α) (r : Acc6 α) : Acc6 α :=
  { r0 := f r.r0, r1 := f r.r1, r2 := f r.r2, r3 := f r.r3, r4 := f r.r4, r5 := f r.r5 }

/-- The state of the `k` loop of an N-fringe kernel. -/
structure KState6 (α : Type) where
  abuf : Nat
  bbuf : Nat
  acc : Acc6 α

/-- One iteration of the `k` loop of an N-fringe kernel, in the statement order of the
6x4, 6x2 and 6x1 kernels (three broadcasts, three fused multiply-adds, twice); the 6x8
kernel does the same six broadcasts and six fused multiply-adds two at a time, with
`ymm2`, `ymm3` as the broadcast registers. -/
def k_body_6xN (cfg : NFringeCfg) (A B : Mem α) (rs_a cs_a rs_b : Nat) (s : KState6 α) :
    KState6 α :=
  let xmm0 := load_lanes cfg.nr B s.bbuf
  let bbuf := s.bbuf + rs_b
  let xmm1 := _mm256_broadcast_ss A (s.abuf + 0 * rs_a)
  let xmm2 := _mm256_broadcast_ss A (s.abuf + 1 * rs_a)
  let xmm3 := _mm256_broadcast_ss A (s.abuf + 2 * rs_a)
  let xmm4 := _mm256_fmadd_ps xmm0 xmm1 s.acc.r0
  let xmm5 := _mm256_fmadd_ps xmm0 xmm2 s.acc.r1
  let xmm6 := _mm256_fmadd_ps xmm0 xmm3 s.acc.r2
  let xmm1 := _mm256_broadcast_ss A (s.abuf + 3 * rs_a)
  let xmm2 := _mm256_broadcast_ss A (s.abuf + 4 * rs_a)
  let xmm3 := _mm256_broadcast_ss A (s.abuf + 5 * rs_a)
  let abuf := s.abuf + cs_a
  let xmm7 := _mm256_fmadd_ps xmm0 xmm1 s.acc.r3
  let xmm8 := _mm256_fmadd_ps xmm0 xmm2 s.acc.r4
  let xmm9 := _mm256_fmadd_ps xmm0 xmm3 s.acc.r5
  { abuf := abuf, bbuf := bbuf,
    acc := { r0 := xmm4, r1 := xmm5, r2 := xmm6, r3 := xmm7, r4 := xmm8, r5 := xmm9 } }

/-- Modelled from the spec: `ALPHA_MUL_ACC_YMM_4_REG` / `ALPHA_MUL_ACC_XMM_4_REG` (not
among the sources), "scale accumulators by `alpha`". -/
def alpha_mul_6xN (alpha : α) (r : Acc6 α) : Acc6 α :=
  let xmm0 := _mm256_set1_ps alpha
  r.map (fun v => _mm256_mul_ps v xmm0)

/-- The `beta != 0` block of an N-fringe kernel: six `F32_C_BNZ_{nr}`, one per row. -/
def beta_6xN (cfg : NFringeCfg) (C : Mem α) (cbuf rs_c : Nat) (beta : α) (r : Acc6 α) :
    Acc6 α :=
  let _cbuf := cbuf
  let xmm3 := _mm256_set1_ps beta
  let xmm4 := F32_C_BNZ cfg.nr C _cbuf xmm3 r.r0
  let _cbuf := _cbuf + rs_c
  let xmm5 := F32_C_BNZ cfg.nr C _cbuf xmm3 r.r1
  let _cbuf := _cbuf + rs_c
  let xmm6 := F32_C_BNZ cfg.nr C _cbuf xmm3 r.r2
  let _cbuf := _cbuf + rs_c
  let xmm7 := F32_C_BNZ cfg.nr C _cbuf xmm3 r.r3
  let _cbuf := _cbuf + rs_c
  let xmm8 := F32_C_BNZ cfg.nr C _cbuf xmm3 r.r4
  let _cbuf := _cbuf + rs_c
  let xmm9 := F32_C_BNZ cfg.nr C _cbuf xmm3 r.r5
  { r0 := xmm4, r1 := xmm5, r2 := xmm6, r3 := xmm7, r4 := xmm8, r5 := xmm9 }

/-- The handlers at `POST_OPS_BIAS_6x8F`, `_6x4F`, `_6x2F`, `_6x1F`. -/
def POST_OPS_BIAS_6xNF (cfg : NFringeCfg) (node : lpgemm_post_op α)
    (post_ops_attr : lpgemm_post_op_attr) (r : Acc6 α) : Acc6 α :=
  if node.op_args2_char = 'r' ∨ node.op_args2_char = 'R' then
    let xmm0 := load_lanes cfg.vl node.op_args1 (post_ops_attr.post_op_c_j + 0 * 8)
    r.map (fun v => _mm256_add_ps v xmm0)
  else
    let xmm0 := _mm256_broadcast_ss node.op_args1 (post_ops_attr.post_op_c_i + 0)
    let xmm1 := _mm256_broadcast_ss node.op_args1 (post_ops_attr.post_op_c_i + 1)
    let xmm2 := _mm256_broadcast_ss node.op_args1 (post_ops_attr.post_op_c_i + 2)
    let xmm3 := _mm256_broadcast_ss node.op_args1 (post_ops_attr.post_op_c_i + 3)
    let xmm4 := _mm256_add_ps r.r0 xmm0
    let xmm5 := _mm256_add_ps r.r1 xmm1
    let xmm6 := _mm256_add_ps r.r2 xmm2
    let xmm7 := _mm256_add_ps r.r3 xmm3
    let xmm0 := _mm256_broadcast_ss node.op_args1 (post_ops_attr.post_op_c_i + 4)
    let xmm1 := _mm256_broadcast_ss node.op_args1 (post_ops_attr.post_op_c_i + 5)
    let xmm8 := _mm256_add_ps r.r4 xmm0
    let xmm9 := _mm256_add_ps r.r5 xmm1
    { r0 := xmm4, r1 := xmm5, r2 := xmm6, r3 := xmm7, r4 := xmm8, r5 := xmm9 }

/-- The handlers at `POST_OPS_RELU_6x8F`, `_6x4F`, `_6x2F`, `_6x1F`. -/
def POST_OPS_RELU_6xNF (r : Acc6 α) : Acc6 α :=
  let xmm0 : Vec α := _mm256_setzero_ps
  r.map (fun v => _mm256_max_ps v xmm0)

/-- The handlers at `POST_OPS_RELU_SCALE_6x8F`, `_6x4F`, `_6x2F`, `_6x1F`. -/
def POST_OPS_RELU_SCALE_6xNF (node : lpgemm_post_op α) (r : Acc6 α) : Acc6 α :=
  let xmm0 := _mm256_set1_ps node.op_args2_f32
  let xmm1 : Vec α := _mm256_setzero_ps
  r.map (fun v => RELU_SCALE_OP_F32S v xmm0 xmm1)

/-- The handlers at `POST_OPS_GELU_TANH_6x8F`, `_6x4F`, `_6x2F`, `_6x1F`. -/
def POST_OPS_GELU_TANH_6xNF (cfg : NFringeCfg) (ext : Externals α) (r : Acc6 α) : Acc6 α :=
  r.map (fun v l => if cfg.avx2 then ext.gelu_tanh_avx2 (v l) else ext.gelu_tanh_sse (v l))

/-- The handlers at `POST_OPS_GELU_ERF_6x8F`, `_6x4F`, `_6x2F`, `_6x1F`. -/
def POST_OPS_GELU_ERF_6xNF (cfg : NFringeCfg) (ext : Externals α) (r : Acc6 α) : Acc6 α :=
  r.map (fun v l => if cfg.avx2 then ext.gelu_erf_avx2 (v l) else ext.gelu_erf_sse (v l))

/-- The handlers at `POST_OPS_CLIP_6x8F`, `_6x4F`, `_6x2F`, `_6x1F`. -/
def POST_OPS_CLIP_6xNF (node : lpgemm_post_op α) (r : Acc6 α) : Acc6 α :=
  let xmm0 := _mm256_set1_ps node.op_args2_f32
  let xmm1 := _mm256_set1_ps node.op_args3_f32
  r.map (fun v => CLIP_F32S v xmm0 xmm1)

/-- The post-op stage of an N-fringe kernel as the state machine of the computed gotos
(see `post_ops_6x16` for the jumps). -/
def post_ops_6xN (cfg : NFringeCfg) (ext : Externals α)
    (post_ops_attr : lpgemm_post_op_attr) : List (lpgemm_post_op α) → Acc6 α → Acc6 α
  | [], r => r
  | node :: next, r =>
    match jump_target cfg.nr node.op_code with
    | Label.DISABLE _ => r
    | Label.BIAS _ =>
      post_ops_6xN cfg ext post_ops_attr next (POST_OPS_BIAS_6xNF cfg node post_ops_attr r)
    | Label.RELU _ => post_ops_6xN cfg ext post_ops_attr next (POST_OPS_RELU_6xNF r)
    | Label.RELU_SCALE _ =>
      post_ops_6xN cfg ext post_ops_attr next (POST_OPS_RELU_SCALE_6xNF node r)
    | Label.GELU_TANH _ =>
      post_ops_6xN cfg ext post_ops_attr next (POST_OPS_GELU_TANH_6xNF cfg ext r)
    | Label.GELU_ERF _ =>
      post_ops_6xN cfg ext post_ops_attr next (POST_OPS_GELU_ERF_6xNF cfg ext r)
    | Label.CLIP _ => post_ops_6xN cfg ext post_ops_attr next (POST_OPS_CLIP_6xNF node r)

/-- The six stores at `POST_OPS_6x8F_DISABLE`, `_6x4F_`, `_6x2F_`, `_6x1F_`. -/
def store_6xN (cfg : NFringeCfg) (C : Mem α) (cbuf rs_c : Nat) (r : Acc6 α) : Mem α :=
  let C := store_lanes cfg.nr C cbuf r.r0
  let cbuf := cbuf + rs_c
  let C := store_lanes cfg.nr C cbuf r.r1
  let cbuf := cbuf + rs_c
  let C := store_lanes cfg.nr C cbuf r.r2
  let cbuf := cbuf + rs_c
  let C := store_lanes cfg.nr C cbuf r.r3
  let cbuf := cbuf + rs_c
  let C := store_lanes cfg.nr C cbuf r.r4
  let cbuf := cbuf + rs_c
  store_lanes cfg.nr C cbuf r.r5

/-- Modelled from the spec: the two `ZERO_ACC_YMM_4_REG` / `ZERO_ACC_XMM_4_REG` (not
among the sources), "zero `MR×NR` register accumulators". -/
def zero_acc_6xN : Acc6 α :=
  let zero : Vec α := _mm256_setzero_ps
  { r0 := zero, r1 := zero, r2 := zero, r3 := zero, r4 := zero, r5 := zero }

/-- The accumulators of row group `m` of an N-fringe kernel after the `k` loop. -/
def k_loop_6xN (cfg : NFringeCfg) (A B : Mem α) (p : NArgs α) (m : Nat) : Acc6 α :=
  let acc : Acc6 α := zero_acc_6xN
  let abuf := p.a + m * p.ps_a
  let bbuf := p.b
  (for_loop (fun _ s => k_body_6xN cfg A B p.rs_a p.cs_a p.rs_b s) p.k0
    { abuf := abuf, bbuf := bbuf, acc := acc }).acc

/-- The accumulators of row group `m` after the alpha and beta scaling. -/
def scaled_6xN (cfg : NFringeCfg) (A B : Mem α) (p : NArgs α) (m : Nat) (C : Mem α) :
    Acc6 α :=
  let cbuf := p.c + m * 6 * p.rs_c
  let acc := alpha_mul_6xN p.alpha (k_loop_6xN cfg A B p m)
  if p.beta ≠ 0 then beta_6xN cfg C cbuf p.rs_c p.beta acc else acc

/-- The body of the `m` loop of an N-fringe kernel. -/
def row_group_6xN (cfg : NFringeCfg) (ext : Externals α) (A B : Mem α) (p : NArgs α)
    (m : Nat) (st : Mem α × lpgemm_post_op_attr) : Mem α × lpgemm_post_op_attr :=
  let C := st.1
  let post_ops_attr := st.2
  let cbuf := p.c + m * 6 * p.rs_c
  let acc := scaled_6xN cfg A B p m C
  let acc := post_ops_6xN cfg ext post_ops_attr p.post_ops_list acc
  let C := store_6xN cfg C cbuf p.rs_c acc
  (C, { post_ops_attr with post_op_c_i := post_ops_attr.post_op_c_i + 6 })

/-- An N-fringe kernel: the `m` loop over the `m0 / 6` row groups (no iteration when
`m_iter == 0`), then `consider_edge_cases`. -/
def lpgemm_rowvar_6xNm (cfg : NFringeCfg) (ext : Externals α) (A B : Mem α) (p : NArgs α)
    (C : Mem α) : Option (KernelResult α) :=
  let m_iter := p.m0 / 6
  let st := for_loop (row_group_6xN cfg ext A B p) m_iter (C, p.post_ops_attr)
  consider_edge_cases ext cfg.nr A B p st.1 st.2

/-- The kernel `lpgemm_rowvar_f32f32f32of32_6x8m`. -/
def lpgemm_rowvar_f32f32f32of32_6x8m (ext : Externals α) (A B : Mem α) (p : NArgs α)
    (C : Mem α) : Option (KernelResult α) :=
  lpgemm_rowvar_6xNm cfg_6x8 ext A B p C

/-- The kernel `lpgemm_rowvar_f32f32f32of32_6x4m`. -/
def lpgemm_rowvar_f32f32f32of32_6x4m (ext : Externals α) (A B : Mem α) (p : NArgs α)
    (C : Mem α) : Option (KernelResult α) :=
  lpgemm_rowvar_6xNm cfg_6x4 ext A B p C

/-- The kernel `lpgemm_rowvar_f32f32f32of32_6x2m`. -/
def lpgemm_rowvar_f32f32f32of32_6x2m (ext : Externals α) (A B : Mem α) (p : NArgs α)
    (C : Mem α) : Option (KernelResult α) :=
  lpgemm_rowvar_6xNm cfg_6x2 ext A B p C

/-- The kernel `lpgemm_rowvar_f32f32f32of32_6x1m`. -/
def lpgemm_rowvar_f32f32f32of32_6x1m (ext : Externals α) (A B : Mem α) (p : NArgs α)
    (C : Mem α) : Option (KernelResult α) :=
  lpgemm_rowvar_6xNm cfg_6x1 ext A B p C

/-! ### The main kernel: N-fringe chain and full-width path -/

/-- The local variables of the `if ( n_left )` block of the main kernel. -/
structure NChain (α : Type) where
  C : Mem α
  cij : Nat
  bj : Nat
  n_left : Nat
  post_ops_attr : lpgemm_post_op_attr
  calls : List (Call α)

/-- The arguments with which the `if ( n_left )` block calls an N-fringe kernel. -/
def n_fringe_args (p : MainArgs α) (s : NChain α) : NArgs α :=
  { m0 := p.m0, k0 := p.k0,
    a := p.a, rs_a := p.rs_a, cs_a := p.cs_a, ps_a := p.ps_a,
    b := s.bj, rs_b := p.rs_b, cs_b := p.cs_b,
    c := s.cij, rs_c := p.rs_c,
    alpha := p.alpha, beta := p.beta,
    post_ops_list := p.post_ops_list, post_ops_attr := s.post_ops_attr }

/-- One of the blocks `if ( 8 <= n_left )`, `if ( 4 <= n_left )`, `if ( 2 <= n_left )`,
once its condition holds: the call of the kernel `ker`, whose name is `name`, then
`cij += nr_cur*cs_c; bj += nr_cur*cs_b; n_left -= nr_cur;
post_ops_attr.post_op_c_j += nr_cur`. -/
def n_fringe_block (name : NFringeName)
    (ker : NArgs α → Mem α → Option (KernelResult α)) (nr_cur : Nat)
    (p : MainArgs α) (s : NChain α) : Option (NChain α) :=
  match ker (n_fringe_args p s) s.C with
  | none => none
  | some res =>
    some { C := res.c,
           cij := s.cij + nr_cur * p.cs_c,
           bj := s.bj + nr_cur * p.cs_b,
           n_left := s.n_left - nr_cur,
           post_ops_attr :=
             { s.post_ops_attr with post_op_c_j := s.post_ops_attr.post_op_c_j + nr_cur },
           calls := s.calls ++ [Call.n_fringe name (n_fringe_args p s)] }

/-- The block `if ( 1 == n_left )`, once its condition holds: the call only. -/
def n_fringe_last (name : NFringeName)
    (ker : NArgs α → Mem α → Option (KernelResult α)) (p : MainArgs α)
    (s : NChain α) : Option (NChain α) :=
  match ker (n_fringe_args p s) s.C with
  | none => none
  | some res =>
    some { s with C := res.c, calls := s.calls ++ [Call.n_fringe name (n_fringe_args p s)] }

/-- The local variables on entry to the block `if ( n_left )`: `cij = c`, `bj = b`
(and `ai = a`, which never changes). -/
def n_fringe_init (p : MainArgs α) (C : Mem α) (n_left : Nat) : NChain α :=
  { C := C, cij := p.c, bj := p.b, n_left := n_left,
    post_ops_attr := p.post_ops_attr, calls := [] }

/-- The block `if ( n_left ) { ... return; }` of the main kernel. -/
def n_fringe_chain (ext : Externals α) (A B : Mem α) (p : MainArgs α) (C : Mem α)
    (n_left : Nat) : Option (NChain α) :=
  let s : NChain α := n_fringe_init p C n_left
  (if 8 ≤ s.n_left then
      n_fringe_block ⟨8⟩ (lpgemm_rowvar_f32f32f32of32_6x8m ext A B) 8 p s
    else some s).bind fun s =>
  (if 4 ≤ s.n_left then
      n_fringe_block ⟨4⟩ (lpgemm_rowvar_f32f32f32of32_6x4m ext A B) 4 p s
    else some s).bind fun s =>
  (if 2 ≤ s.n_left then
      n_fringe_block ⟨2⟩ (lpgemm_rowvar_f32f32f32of32_6x2m ext A B) 2 p s
    else some s).bind fun s =>
  (if 1 = s.n_left then
      n_fringe_last ⟨1⟩ (lpgemm_rowvar_f32f32f32of32_6x1m ext A B) p s
    else some s)

/-- The main kernel `lpgemm_rowvar_f32f32f32of32_6x16m`. -/
def lpgemm_rowvar_f32f32f32of32_6x16m (ext : Externals α) (A B : Mem α) (p : MainArgs α)
    (C : Mem α) : Option (KernelResult α) :=
  let n_left := p.n0 % 16
  if n_left ≠ 0 then
    (n_fringe_chain ext A B p C n_left).map fun s =>
      { c := s.C, post_ops_attr := s.post_ops_attr, calls := s.calls }
  else
    let m_iter := p.m0 / 6
    let st := for_loop (row_group_6x16 ext A B p.toNArgs) m_iter (C, p.post_ops_attr)
    consider_edge_cases ext 16 A B p.toNArgs st.1 st.2

/-- The arguments of the M-fringe call of a kernel called with `p`: the A pointer
advanced by `(m0/6)*ps_a`, the C pointer by `(m0 - m0%6)*rs_c`, the cursor row index
by `6*(m0/6)`. -/
def m_fringe_args (p : NArgs α) : MArgs α :=
  { k0 := p.k0,
    a := p.a + (p.m0 / 6) * p.ps_a, rs_a := p.rs_a, cs_a := p.cs_a,
    b := p.b, rs_b := p.rs_b, cs_b := p.cs_b,
    c := p.c + (p.m0 - p.m0 % 6) * p.rs_c, rs_c := p.rs_c,
    alpha := p.alpha, beta := p.beta,
    post_ops_list := p.post_ops_list,
    post_ops_attr :=
      { post_op_c_i := p.post_ops_attr.post_op_c_i + 6 * (p.m0 / 6),
        post_op_c_j := p.post_ops_attr.post_op_c_j } }

/-- A transformer of the C memory that never uses the old contents: whatever two
initial memories it is run on, every element either ends with the same value in both
runs or is left as it was in both. -/
def Oblivious (F : Mem α → Mem α) : Prop :=
  ∀ C1 C2 x, F C1 x = F C2 x ∨ (F C1 x = C1 x ∧ F C2 x = C2 x)

/-- A step of the N-fringe chain that always returns, whose effect on the C memory never
uses the old contents and whose other local variables do not depend on C. -/
def ObliviousStep (f : NChain α → Option (NChain α)) : Prop :=
  ∀ s : NChain α, ∃ (F : Mem α → Mem α) (t : NChain α), Oblivious F
    ∧ ∀ C, f { s with C := C } = some { t with C := F C }

/-- A run of a kernel, as a function of the initial C memory, that returns and never
uses the old contents of C: in two runs from two initial memories every element
either ends with the same value in both or is left as it was in both. -/
def IgnoresOldC (run : Mem α → Option (KernelResult α)) : Prop :=
  ∀ C1 C2, ∃ r1 r2, run C1 = some r1 ∧ run C2 = some r2
    ∧ ∀ x, r1.c x = r2.c x ∨ (r1.c x = C1 x ∧ r2.c x = C2 x)

/-! ### The post-op sequence in the memory that holds C

The kernels get the post-op sequence by reference: the bias vector, the scale and the
two bounds are floats that the handlers load through `op_args1`, `op_args2` and
`op_args3`. The definitions below run the kernels on one float memory that holds the
output tile and these buffers, so that a buffer may overlap the tile, and the handlers
of a row group load from the memory as that row group finds it. The node records
(kind and pointers) and the layout flag of a bias node are not floats: no float store
modifies them, and they are values here. -/

/-- A post-op node as the caller lays it out: the kind, and the argument pointers as
addresses in the float memory. In a bias node `op_args2` points to a `char`, the layout
flag, which is the field `op_args2_char`. -/
structure lpgemm_post_op_ptr where
  op_code : LPGEMM_POST_OP_CODE
  op_args1 : Nat
  op_args2 : Nat
  op_args2_char : Char
  op_args3 : Nat

/-- The addresses of the floats that the handler of the kind of a node loads through the
pointers of the node: `POST_OPS_BIAS_*` loads entries of the vector at `op_args1`
(any address from `op_args1` on counts, the node holds no length), `POST_OPS_RELU_SCALE_*`
loads `*( float* )op_args2`, `POST_OPS_CLIP_*` loads `*( float* )op_args2` and
`*( float* )op_args3`; the handlers of the other kinds load nothing. -/
def lpgemm_post_op_ptr.reads (node : lpgemm_post_op_ptr) (x : Nat) : Prop :=
  match node.op_code with
  | LPGEMM_POST_OP_CODE.POST_OPS_BIAS => node.op_args1 ≤ x
  | LPGEMM_POST_OP_CODE.POST_OPS_RELU_SCALE => x = node.op_args2
  | LPGEMM_POST_OP_CODE.POST_OPS_CLIP => x = node.op_args2 ∨ x = node.op_args3
  | _ => False

instance (node : lpgemm_post_op_ptr) (x : Nat) : Decidable (node.reads x) := by
  unfold lpgemm_post_op_ptr.reads
  split <;> infer_instance

/-- What the handler of the kind of a node loads through the pointers of the node when
the float memory is `M`: `*( ( float* )op_args1 + x )` in a bias node,
`*( float* )op_args2` in a relu-scale or clip node, `*( float* )op_args3` in a clip
node. A pointer that this handler does not dereference (it may be null) is not
dereferenced here either: that field is 0. -/
def lpgemm_post_op_ptr.deref (M : Mem α) (node : lpgemm_post_op_ptr) : lpgemm_post_op α :=
  { op_code := node.op_code,
    op_args1 := fun x =>
      if node.op_code = LPGEMM_POST_OP_CODE.POST_OPS_BIAS then M (node.op_args1 + x) else 0,
    op_args2_char := node.op_args2_char,
    op_args2_f32 :=
      if node.op_code = LPGEMM_POST_OP_CODE.POST_OPS_RELU_SCALE
          ∨ node.op_code = LPGEMM_POST_OP_CODE.POST_OPS_CLIP then M node.op_args2 else 0,
    op_args3_f32 :=
      if node.op_code = LPGEMM_POST_OP_CODE.POST_OPS_CLIP then M node.op_args3 else 0 }

/-- The floats that the nodes point to lie outside the set of addresses `W`. -/
def NodesOutside (W : Nat → Prop) (nodes : List lpgemm_post_op_ptr) : Prop :=
  ∀ node ∈ nodes, ∀ x, node.reads x → ¬ W x

/-- The arguments `p` with, for post-op sequence, the nodes `nodes` as they read in the
memory `M` (the field `post_ops_list` of `p` itself is not used). -/
def NArgs.read_nodes (p : NArgs α) (nodes : List lpgemm_post_op_ptr) (M : Mem α) :
    NArgs α :=
  { p with post_ops_list := nodes.map (lpgemm_post_op_ptr.deref M) }

/-- The arguments `p` of the main kernel with, for post-op sequence, the nodes `nodes` as
they read in the memory `M`. -/
def MainArgs.read_nodes (p : MainArgs α) (nodes : List lpgemm_post_op_ptr) (M : Mem α) :
    MainArgs α :=
  { p with post_ops_list := nodes.map (lpgemm_post_op_ptr.deref M) }

/-- The body of the `m` loop of the 6x16 kernel when the buffers of the nodes lie in the
memory that holds C: the handlers load from the memory on entry to the row group (the
stores of a row group come after its post-op stage). -/
def row_group_6x16_shared (ext : Externals α) (A B : Mem α) (p : NArgs α)
    (nodes : List lpgemm_post_op_ptr) (m : Nat) (st : Mem α × lpgemm_post_op_attr) :
    Mem α × lpgemm_post_op_attr :=
  row_group_6x16 ext A B (p.read_nodes nodes st.1) m st

/-- The body of the `m` loop of an N-fringe kernel when the buffers of the nodes lie in
the memory that holds C. -/
def row_group_6xN_shared (cfg : NFringeCfg) (ext : Externals α) (A B : Mem α)
    (p : NArgs α) (nodes : List lpgemm_post_op_ptr) (m : Nat)
    (st : Mem α × lpgemm_post_op_attr) : Mem α × lpgemm_post_op_attr :=
  row_group_6xN cfg ext A B (p.read_nodes nodes st.1) m st

/-- An N-fringe kernel when the buffers of the nodes lie in the memory that holds C: the
`m` loop, then `consider_edge_cases`, where the M-fringe kernel finds the buffers as the
loop left them. -/
def lpgemm_rowvar_6xNm_shared (cfg : NFringeCfg) (ext : Externals α) (A B : Mem α)
    (p : NArgs α) (nodes : List lpgemm_post_op_ptr) (M : Mem α) :
    Option (KernelResult α) :=
  let m_iter := p.m0 / 6
  let st := for_loop (row_group_6xN_shared cfg ext A B p nodes) m_iter (M, p.post_ops_attr)
  consider_edge_cases ext cfg.nr A B (p.read_nodes nodes st.1) st.1 st.2

/-- The block `if ( n_left ) { ... return; }` of the main kernel when the buffers of the
nodes lie in the memory that holds C. -/
def n_fringe_chain_shared (ext : Externals α) (A B : Mem α) (p : MainArgs α)
    (nodes : List lpgemm_post_op_ptr) (M : Mem α) (n_left : Nat) : Option (NChain α) :=
  let s : NChain α := n_fringe_init p M n_left
  (if 8 ≤ s.n_left then
      n_fringe_block ⟨8⟩
        (fun q M' => lpgemm_rowvar_6xNm_shared cfg_6x8 ext A B q nodes M') 8 p s
    else some s).bind fun s =>
  (if 4 ≤ s.n_left then
      n_fringe_block ⟨4⟩
        (fun q M' => lpgemm_rowvar_6xNm_shared cfg_6x4 ext A B q nodes M') 4 p s
    else some s).bind fun s =>
  (if 2 ≤ s.n_left then
      n_fringe_block ⟨2⟩
        (fun q M' => lpgemm_rowvar_6xNm_shared cfg_6x2 ext A B q nodes M') 2 p s
    else some s).bind fun s =>
  (if 1 = s.n_left then
      n_fringe_last ⟨1⟩
        (fun q M' => lpgemm_rowvar_6xNm_shared cfg_6x1 ext A B q nodes M') p s
    else some s)

/-- The main kernel when the buffers of the nodes lie in the memory that holds C. -/
def lpgemm_rowvar_6x16m_shared (ext : Externals α) (A B : Mem α) (p : MainArgs α)
    (nodes : List lpgemm_post_op_ptr) (M : Mem α) : Option (KernelResult α) :=
  let n_left := p.n0 % 16
  if n_left ≠ 0 then
    (n_fringe_chain_shared ext A B p nodes M n_left).map fun s =>
      { c := s.C, post_ops_attr := s.post_ops_attr, calls := s.calls }
  else
    let m_iter := p.m0 / 6
    let st := for_loop (row_group_6x16_shared ext A B p.toNArgs nodes) m_iter
      (M, p.post_ops_attr)
    consider_edge_cases ext 16 A B (p.toNArgs.read_nodes nodes st.1) st.1 st.2

/-- The addresses of the tile of `rows` x `w` elements at `c` with row stride `rs_c`. -/
def in_tile (c rs_c rows w x : Nat) : Prop :=
  ∃ i, i < rows ∧ ∃ j, j < w ∧ x = c + i * rs_c + j

instance (c rs_c rows w x : Nat) : Decidable (in_tile c rs_c rows w x) := by
  unfold in_tile
  infer_instance

/-- What is assumed of the M-fringe kernels, which are not among the sources: the
kernel of `rows` x `cols` elements leaves every element outside its tile at `c` as it
was. -/
def MFringeFrame (ext : Externals α) : Prop :=
  ∀ (ker : FringeName) (args : MArgs α) (A B M : Mem α) (x : Nat),
    ¬ in_tile args.c args.rs_c ker.rows ker.cols x → ext.m_fringe ker args A B M x = M x

end Kernels

section Reference

variable {α : Type} [LinearOrderedCommRing α]

/-! ### Reference values -/

/-- Row `i` of the accumulators of the 6x16 tile, as one 16-lane row. -/
def Acc6x16.row (r : Acc6x16 α) (i : Nat) : Vec α :=
  fun j =>
    match i with
    | 0 => if j < 8 then r.ymm4 j else r.ymm5 (j - 8)
    | 1 => if j < 8 then r.ymm6 j else r.ymm7 (j - 8)
    | 2 => if j < 8 then r.ymm8 j else r.ymm9 (j - 8)
    | 3 => if j < 8 then r.ymm10 j else r.ymm11 (j - 8)
    | 4 => if j < 8 then r.ymm12 j else r.ymm13 (j - 8)
    | _ => if j < 8 then r.ymm14 j else r.ymm15 (j - 8)

/-- Row `i` of the accumulators of an N-fringe tile. -/
def Acc6.row (r : Acc6 α) (i : Nat) : Vec α :=
  match i with
  | 0 => r.r0
  | 1 => r.r1
  | 2 => r.r2
  | 3 => r.r3
  | 4 => r.r4
  | _ => r.r5

/-- The element `A[i,k]` of the packed A panel: row `i` lies in row group `i / 6`. -/
def A_elt (A : Mem α) (p : NArgs α) (i k : Nat) : α :=
  A (p.a + (i / 6) * p.ps_a + (i % 6) * p.rs_a + k * p.cs_a)

/-- The element `B[k,j]` of the B panel. -/
def B_elt (B : Mem α) (p : NArgs α) (k j : Nat) : α :=
  B (p.b + k * p.rs_b + j)

/-- The address of `C[i,j]`. -/
def C_addr (p : NArgs α) (i j : Nat) : Nat :=
  p.c + i * p.rs_c + j

/-- The reference value `alpha * sum_{k<k0} A[i,k]*B[k,j] + beta * C_old[i,j]`. -/
def gemm_ref (A B : Mem α) (p : NArgs α) (C_old : Mem α) (i j : Nat) : α :=
  p.alpha * (∑ k ∈ Finset.range p.k0, A_elt A p i k * B_elt B p k j)
    + p.beta * C_old (C_addr p i j)

/-! ### The post-op pipeline as the spec words it -/

/-- The nodes that take effect: those in front of the first node of the sentinel kind. -/
def effective_ops (l : List (lpgemm_post_op α)) : List (lpgemm_post_op α) :=
  l.takeWhile (fun node => decide (node.op_code ≠ LPGEMM_POST_OP_CODE.POST_OPS_DISABLE))

/-- The handler of the 6x16 kernel for the kind of `node`. -/
def handler_6x16 (ext : Externals α) (post_ops_attr : lpgemm_post_op_attr)
    (node : lpgemm_post_op α) (r : Acc6x16 α) : Acc6x16 α :=
  match node.op_code with
  | LPGEMM_POST_OP_CODE.POST_OPS_DISABLE => r
  | LPGEMM_POST_OP_CODE.POST_OPS_BIAS => POST_OPS_BIAS_6x16F node post_ops_attr r
  | LPGEMM_POST_OP_CODE.POST_OPS_RELU => POST_OPS_RELU_6x16F r
  | LPGEMM_POST_OP_CODE.POST_OPS_RELU_SCALE => POST_OPS_RELU_SCALE_6x16F node r
  | LPGEMM_POST_OP_CODE.POST_OPS_GELU_TANH => POST_OPS_GELU_TANH_6x16F ext r
  | LPGEMM_POST_OP_CODE.POST_OPS_GELU_ERF => POST_OPS_GELU_ERF_6x16F ext r
  | LPGEMM_POST_OP_CODE.POST_OPS_CLIP => POST_OPS_CLIP_6x16F node r

/-- The handler of an N-fringe kernel for the kind of `node`. -/
def handler_6xN (cfg : NFringeCfg) (ext : Externals α)
    (post_ops_attr : lpgemm_post_op_attr) (node : lpgemm_post_op α) (r : Acc6 α) : Acc6 α :=
  match node.op_code with
  | LPGEMM_POST_OP_CODE.POST_OPS_DISABLE => r
  | LPGEMM_POST_OP_CODE.POST_OPS_BIAS => POST_OPS_BIAS_6xNF cfg node post_ops_attr r
  | LPGEMM_POST_OP_CODE.POST_OPS_RELU => POST_OPS_RELU_6xNF r
  | LPGEMM_POST_OP_CODE.POST_OPS_RELU_SCALE => POST_OPS_RELU_SCALE_6xNF node r
  | LPGEMM_POST_OP_CODE.POST_OPS_GELU_TANH => POST_OPS_GELU_TANH_6xNF cfg ext r
  | LPGEMM_POST_OP_CODE.POST_OPS_GELU_ERF => POST_OPS_GELU_ERF_6xNF cfg ext r
  | LPGEMM_POST_OP_CODE.POST_OPS_CLIP => POST_OPS_CLIP_6xNF node r

/-- The pipeline in the words of the spec, for the 6x16 tile: the handlers of the nodes,
one after another in sequence order, each on the output of the one before, up to the
sentinel. -/
def pipeline_6x16 (ext : Externals α) (post_ops_attr : lpgemm_post_op_attr)
    (l : List (lpgemm_post_op α)) (r : Acc6x16 α) : Acc6x16 α :=
  (effective_ops l).foldl (fun acc node => handler_6x16 ext post_ops_attr node acc) r

/-- The pipeline in the words of the spec, for an N-fringe tile. -/
def pipeline_6xN (cfg : NFringeCfg) (ext : Externals α)
    (post_ops_attr : lpgemm_post_op_attr) (l : List (lpgemm_post_op α)) (r : Acc6 α) :
    Acc6 α :=
  (effective_ops l).foldl (fun acc node => handler_6xN cfg ext post_ops_attr node acc) r

/-- What one node does to the element of tile row `i` and tile column `j`; `gt` and `ge`
are the two GELU approximations of the kernel. -/
def elem_post_op (gt ge : α → α) (post_ops_attr : lpgemm_post_op_attr) (i j : Nat)
    (node : lpgemm_post_op α) (x : α) : α :=
  match node.op_code with
  | LPGEMM_POST_OP_CODE.POST_OPS_DISABLE => x
  | LPGEMM_POST_OP_CODE.POST_OPS_BIAS =>
    if node.op_args2_char = 'r' ∨ node.op_args2_char = 'R' then
      x + node.op_args1 (post_ops_attr.post_op_c_j + j)
    else
      x + node.op_args1 (post_ops_attr.post_op_c_i + i)
  | LPGEMM_POST_OP_CODE.POST_OPS_RELU => max x 0
  | LPGEMM_POST_OP_CODE.POST_OPS_RELU_SCALE => if x < 0 then x * node.op_args2_f32 else x
  | LPGEMM_POST_OP_CODE.POST_OPS_GELU_TANH => gt x
  | LPGEMM_POST_OP_CODE.POST_OPS_GELU_ERF => ge x
  | LPGEMM_POST_OP_CODE.POST_OPS_CLIP => min (max x node.op_args2_f32) node.op_args3_f32

/-- What the whole sequence does to the element of tile row `i` and tile column `j`. -/
def elem_post_ops (gt ge : α → α) (post_ops_attr : lpgemm_post_op_attr) (i j : Nat)
    (l : List (lpgemm_post_op α)) (x : α) : α :=
  (effective_ops l).foldl (fun y node => elem_post_op gt ge post_ops_attr i j node y) x

/-- The GELU-tanh approximation of an N-fringe kernel. -/
def NFringeCfg.gelu_tanh (cfg : NFringeCfg) (ext : Externals α) : α → α :=
  fun x => if cfg.avx2 then ext.gelu_tanh_avx2 x else ext.gelu_tanh_sse x

/-- The GELU-erf approximation of an N-fringe kernel. -/
def NFringeCfg.gelu_erf (cfg : NFringeCfg) (ext : Externals α) : α → α :=
  fun x => if cfg.avx2 then ext.gelu_erf_avx2 x else ext.gelu_erf_sse x

/-- The value a kernel stores at row `R` and column `j` of its tile: the post-op
sequence, with the cursor row index of the row group of `R`, applied to the reference
value. `gt` and `ge` are the GELU approximations of the kernel. -/
def out_val (gt ge : α → α) (A B : Mem α) (p : NArgs α) (C_old : Mem α) (R j : Nat) : α :=
  elem_post_ops gt ge
    { post_op_c_i := p.post_ops_attr.post_op_c_i + 6 * (R / 6),
      post_op_c_j := p.post_ops_attr.post_op_c_j }
    (R % 6) j p.post_ops_list (gemm_ref A B p C_old R j)

/-- The N-fringe kernel (given by its widths) that the chain of the main kernel uses for
column `J` of a tile of `n < 16` columns: the chunks are the binary digits of `n`,
largest first. -/
def chunk_of (n J : Nat) : NFringeCfg :=
  if 8 ≤ n ∧ J < 8 then cfg_6x8
  else if 4 ≤ n % 8 ∧ J % 8 < 4 then cfg_6x4
  else if 2 ≤ n % 4 ∧ J % 4 < 2 then cfg_6x2
  else cfg_6x1

/-- The value the N-fringe chain stores at row `R` and column `J` of a tile of `n0`
columns. -/
def chain_out_val (ext : Externals α) (A B : Mem α) (p : MainArgs α) (C_old : Mem α)
    (n0 R J : Nat) : α :=
  out_val ((chunk_of n0 J).gelu_tanh ext) ((chunk_of n0 J).gelu_erf ext) A B p.toNArgs
    C_old R J

/-- The C memory once the chain has consumed the first `off` columns: these columns hold
the output values and nothing else has changed. -/
def ChainMem (ext : Externals α) (A B : Mem α) (p : MainArgs α) (C_old : Mem α)
    (n0 off : Nat) (C : Mem α) : Prop :=
  (∀ R, R < p.m0 → ∀ J, J < off →
      C (C_addr p.toNArgs R J) = chain_out_val ext A B p C_old n0 R J)
  ∧ (∀ x, (∀ R, R < p.m0 → ∀ J, J < off → x ≠ C_addr p.toNArgs R J) → C x = C_old x)

/-- The local variables of the chain once it has consumed the first `off` columns. -/
def ChainPtr (p : MainArgs α) (n0 off : Nat) (s : NChain α) : Prop :=
  s.cij = p.c + off * p.cs_c ∧ s.bj = p.b + off * p.cs_b ∧ s.n_left = n0 - off
  ∧ s.post_ops_attr
      = { post_op_c_i := p.post_ops_attr.post_op_c_i,
          post_op_c_j := p.post_ops_attr.post_op_c_j + off }

/-! ### The N-fringe chain as the spec words it -/

/-- The widths of the binary expansion of `n`, largest first. -/
def binary_widths (n : Nat) : List Nat :=
  [8, 4, 2, 1].filter (fun w => decide (n / w % 2 = 1))

/-- The call of the chunk of width `w` once `s` columns have been consumed: the C
pointer advanced by `s*cs_c`, the B pointer by `s*cs_b`, the cursor column index by
`s`, everything else as the main kernel received it. -/
def chain_call (p : MainArgs α) (s w : Nat) : Call α :=
  Call.n_fringe ⟨w⟩
    { m0 := p.m0, k0 := p.k0,
      a := p.a, rs_a := p.rs_a, cs_a := p.cs_a, ps_a := p.ps_a,
      b := p.b + s * p.cs_b, rs_b := p.rs_b, cs_b := p.cs_b,
      c := p.c + s * p.cs_c, rs_c := p.rs_c,
      alpha := p.alpha, beta := p.beta,
      post_ops_list := p.post_ops_list,
      post_ops_attr :=
        { post_op_c_i := p.post_ops_attr.post_op_c_i,
          post_op_c_j := p.post_ops_attr.post_op_c_j + s } }

/-- The calls of the chunks of widths `ws`, the first one at column offset `s`. -/
def chain_calls (p : MainArgs α) : Nat → List Nat → List (Call α)
  | _, [] => []
  | s, w :: ws => chain_call p s w :: chain_calls p (s + w) ws

/-- The chunks of the N-fringe chain, as pairs of column offset and width, for the
widths `ws` and the first chunk at offset `s`. -/
def chain_chunks : Nat → List Nat → List (Nat × Nat)
  | _, [] => []
  | s, w :: ws => (s, w) :: chain_chunks (s + w) ws

/-- The addresses of the output tile of a call of the main kernel: `m0` rows of 16
elements when `n0` is a multiple of 16, and otherwise, for each chunk of the chain
(offset `s`, width `w`), `m0` rows of `w` elements at `c + s*cs_c`. -/
def tile_6x16m (p : MainArgs α) (x : Nat) : Prop :=
  if p.n0 % 16 = 0 then in_tile p.c p.rs_c p.m0 16 x
  else ∃ sw ∈ chain_chunks 0 (binary_widths (p.n0 % 16)),
    in_tile (p.c + sw.1 * p.cs_c) p.rs_c p.m0 sw.2 x

/-- The local variables of the chain on the shared memory once it has consumed the first
`off` of `n` columns, and the memory outside the set `W`. -/
def SharedChainInv (p : MainArgs α) (W : Nat → Prop) (M : Mem α) (n off : Nat)
    (s : NChain α) : Prop :=
  s.cij = p.c + off * p.cs_c ∧ s.n_left = n - off
  ∧ s.post_ops_attr
      = { post_op_c_i := p.post_ops_attr.post_op_c_i,
          post_op_c_j := p.post_ops_attr.post_op_c_j + off }
  ∧ ∀ x, ¬ W x → s.C x = M x

/-- The M-fringe calls among the calls of a kernel body, in order. -/
def m_fringe_calls : List (Call α) → List (FringeName × MArgs α)
  | [] => []
  | Call.m_fringe ker args :: cs => (ker, args) :: m_fringe_calls cs
  | Call.n_fringe _ _ :: cs => m_fringe_calls cs

/-- The post-op sequence a callee is handed (`post_ops_list` at the call site). -/
def Call.post_ops_list : Call α → List (lpgemm_post_op α)
  | Call.n_fringe _ args => args.post_ops_list
  | Call.m_fringe _ args => args.post_ops_list

/-- The cursor a callee is handed (`post_ops_attr` at the call site, copied by value). -/
def Call.post_ops_attr : Call α → lpgemm_post_op_attr
  | Call.n_fringe _ args => args.post_ops_attr
  | Call.m_fringe _ args => args.post_ops_attr

/-! ### Blocking the reduction as the spec words it -/

/-- The arguments of the first of two calls that split the reduction: the first `k1`
steps, with the caller's `alpha` and `beta`. -/
def k_block_first (p : MainArgs α) (k1 : Nat) : MainArgs α :=
  { p with k0 := k1 }

/-- The arguments of the second of two calls that split the reduction: the remaining
`k2` steps (the A panel advanced by `k1` columns, the B panel by `k1` rows), with the
caller's `alpha` and `beta = 1`. -/
def k_block_second (p : MainArgs α) (k1 k2 : Nat) : MainArgs α :=
  { p with k0 := k2, a := p.a + k1 * p.cs_a, b := p.b + k1 * p.rs_b, beta := 1 }

/-- The arguments of the single call over all `k1 + k2` steps. -/
def k_block_whole (p : MainArgs α) (k1 k2 : Nat) : MainArgs α :=
  { p with k0 := k1 + k2 }

/-! ### What a kernel stores itself, and what a bias handler reads -/

/-- The C memory after the row-group loop of the 6x16 kernel, before
`consider_edge_cases`: the effect of the kernel's own stores. -/
def own_stores_6x16 (ext : Externals α) (A B : Mem α) (p : NArgs α) (C : Mem α) : Mem α :=
  (for_loop (row_group_6x16 ext A B p) (p.m0 / 6) (C, p.post_ops_attr)).1

/-- The C memory after the row-group loop of an N-fringe kernel, before
`consider_edge_cases`: the effect of the kernel's own stores. -/
def own_stores_6xN (cfg : NFringeCfg) (ext : Externals α) (A B : Mem α) (p : NArgs α)
    (C : Mem α) : Mem α :=
  (for_loop (row_group_6xN cfg ext A B p) (p.m0 / 6) (C, p.post_ops_attr)).1

/-- The addresses that a load of `n` consecutive elements at `p` reads (`load_lanes`). -/
def load_lanes_reads (n p : Nat) : List Nat :=
  (List.range n).map (fun l => p + l)

/-- The entries of the bias vector that the `'r'` branch of `POST_OPS_BIAS_6x16F` reads:
two `_mm256_loadu_ps`, at `post_op_c_j + 0*8` and at `post_op_c_j + 1*8`. -/
def bias_reads_6x16 (post_ops_attr : lpgemm_post_op_attr) : List Nat :=
  load_lanes_reads 8 (post_ops_attr.post_op_c_j + 0 * 8)
    ++ load_lanes_reads 8 (post_ops_attr.post_op_c_j + 1 * 8)

/-- The entries of the bias vector that the `'r'` branch of `POST_OPS_BIAS_6x8F`, `_6x4F`,
`_6x2F`, `_6x1F` reads: one load of `vl` floats at `post_op_c_j + 0*8`. -/
def bias_reads_6xN (cfg : NFringeCfg) (post_ops_attr : lpgemm_post_op_attr) : List Nat :=
  load_lanes_reads cfg.vl (post_ops_attr.post_op_c_j + 0 * 8)

end Reference

/-! ## The kernel registry, `lpgemm_func_map.h` -/

/-- The identifiers of `AOCL_OPERATION_TYPE` that the kernel maps list. -/
inductive AOCL_OPERATION_TYPE
  | U8S8S16OS16
  | U8S8S32OS32
  | F32F32F32OF32
  | BF16BF16F32OF32
  | S8S8S32OS32
  | S8S8S16OS16
  deriving DecidableEq, Repr

/-- The ISA tiers for which `lpgemm_func_map.h` defines a map. -/
inductive ISA_TIER
  | AVX512_VNNI_BF16
  | AVX512_VNNI
  | AVX512
  | AVX2
  deriving DecidableEq, Repr

/-- The kernels named as `FUNC_PTR` in the `KMACRO` lines. -/
inductive KernelFn
  | lpgemm_rowvar_u8s8s16o16_6x32
  | lpgemm_rowvar_u8s8s32o32_6x64
  | lpgemm_rowvar_f32f32f32of32_avx512_6x64m
  | lpgemm_rowvar_bf16bf16f32of32_6x64
  | lpgemm_rowvar_s8s8s32os32_6x64
  | lpgemm_rowvar_s8s8s16o16_6x32
  | lpgemm_rowvar_f32f32f32of32_6x16m
  deriving DecidableEq, Repr

/-- The map `LPGEMM_KERN_FUNC_MAP_AVX512_VNNI_BF16`, one pair per `KMACRO(ID, FUNC_PTR)`
line; `none` is `NULL`. -/
def LPGEMM_KERN_FUNC_MAP_AVX512_VNNI_BF16 :
    List (AOCL_OPERATION_TYPE × Option KernelFn) :=
  [ (AOCL_OPERATION_TYPE.U8S8S16OS16, some KernelFn.lpgemm_rowvar_u8s8s16o16_6x32),
    (AOCL_OPERATION_TYPE.U8S8S32OS32, some KernelFn.lpgemm_rowvar_u8s8s32o32_6x64),
    (AOCL_OPERATION_TYPE.F32F32F32OF32,
      some KernelFn.lpgemm_rowvar_f32f32f32of32_avx512_6x64m),
    (AOCL_OPERATION_TYPE.BF16BF16F32OF32, some KernelFn.lpgemm_rowvar_bf16bf16f32of32_6x64),
    (AOCL_OPERATION_TYPE.S8S8S32OS32, some KernelFn.lpgemm_rowvar_s8s8s32os32_6x64),
    (AOCL_OPERATION_TYPE.S8S8S16OS16, some KernelFn.lpgemm_rowvar_s8s8s16o16_6x32) ]

/-- The map `LPGEMM_KERN_FUNC_MAP_AVX512_VNNI`. -/
def LPGEMM_KERN_FUNC_MAP_AVX512_VNNI :
    List (AOCL_OPERATION_TYPE × Option KernelFn) :=
  [ (AOCL_OPERATION_TYPE.U8S8S16OS16, some KernelFn.lpgemm_rowvar_u8s8s16o16_6x32),
    (AOCL_OPERATION_TYPE.U8S8S32OS32, some KernelFn.lpgemm_rowvar_u8s8s32o32_6x64),
    (AOCL_OPERATION_TYPE.F32F32F32OF32,
      some KernelFn.lpgemm_rowvar_f32f32f32of32_avx512_6x64m),
    (AOCL_OPERATION_TYPE.BF16BF16F32OF32, some KernelFn.lpgemm_rowvar_bf16bf16f32of32_6x64),
    (AOCL_OPERATION_TYPE.S8S8S32OS32, some KernelFn.lpgemm_rowvar_s8s8s32os32_6x64),
    (AOCL_OPERATION_TYPE.S8S8S16OS16, some KernelFn.lpgemm_rowvar_s8s8s16o16_6x32) ]

/-- The map `LPGEMM_KERN_FUNC_MAP_AVX512`. -/
def LPGEMM_KERN_FUNC_MAP_AVX512 :
    List (AOCL_OPERATION_TYPE × Option KernelFn) :=
  [ (AOCL_OPERATION_TYPE.U8S8S16OS16, some KernelFn.lpgemm_rowvar_u8s8s16o16_6x32),
    (AOCL_OPERATION_TYPE.U8S8S32OS32, some KernelFn.lpgemm_rowvar_u8s8s32o32_6x64),
    (AOCL_OPERATION_TYPE.F32F32F32OF32,
      some KernelFn.lpgemm_rowvar_f32f32f32of32_avx512_6x64m),
    (AOCL_OPERATION_TYPE.BF16BF16F32OF32, some KernelFn.lpgemm_rowvar_bf16bf16f32of32_6x64),
    (AOCL_OPERATION_TYPE.S8S8S32OS32, some KernelFn.lpgemm_rowvar_s8s8s32os32_6x64),
    (AOCL_OPERATION_TYPE.S8S8S16OS16, some KernelFn.lpgemm_rowvar_s8s8s16o16_6x32) ]

/-- The map `LPGEMM_KERN_FUNC_MAP_AVX2`. -/
def LPGEMM_KERN_FUNC_MAP_AVX2 :
    List (AOCL_OPERATION_TYPE × Option KernelFn) :=
  [ (AOCL_OPERATION_TYPE.U8S8S16OS16, some KernelFn.lpgemm_rowvar_u8s8s16o16_6x32),
    (AOCL_OPERATION_TYPE.U8S8S32OS32, none),
    (AOCL_OPERATION_TYPE.F32F32F32OF32, some KernelFn.lpgemm_rowvar_f32f32f32of32_6x16m),
    (AOCL_OPERATION_TYPE.BF16BF16F32OF32, none),
    (AOCL_OPERATION_TYPE.S8S8S32OS32, none),
    (AOCL_OPERATION_TYPE.S8S8S16OS16, some KernelFn.lpgemm_rowvar_s8s8s16o16_6x32) ]

/-- The kernel map of a tier. -/
def LPGEMM_KERN_FUNC_MAP : ISA_TIER → List (AOCL_OPERATION_TYPE × Option KernelFn)
  | ISA_TIER.AVX512_VNNI_BF16 => LPGEMM_KERN_FUNC_MAP_AVX512_VNNI_BF16
  | ISA_TIER.AVX512_VNNI => LPGEMM_KERN_FUNC_MAP_AVX512_VNNI
  | ISA_TIER.AVX512 => LPGEMM_KERN_FUNC_MAP_AVX512
  | ISA_TIER.AVX2 => LPGEMM_KERN_FUNC_MAP_AVX2

/-- Modelled from the spec: the expansion of `KMACRO` (in `lpgemm_config.c`, not among
the sources), "bind a specialized micro-kernel function handle": the handle of the
operation `op` on a tier is the `FUNC_PTR` of the line of the tier's map whose `ID` is
`op`; an operation without a line has no handle. -/
def kern_fun_ptr (tier : ISA_TIER) (op : AOCL_OPERATION_TYPE) : Option KernelFn :=
  ((LPGEMM_KERN_FUNC_MAP tier).lookup op).join

/-- The pack-A routines named as `FUNC_PTR` in the `PAMACRO` lines. -/
inductive PackAFn
  | packa_k64_u8s8s32o32
  | packa_k64_s8s8s32os32
  deriving DecidableEq, Repr

/-- The pack-B routines named as `FUNC_PTR` in the `PBMACRO` lines. -/
inductive PackBFn
  | packb_nr32_u8s8s16o16
  | packb_nr64_u8s8s32o32
  | packb_nr64_bf16bf16f32of32
  | packb_nr64_s8s8s32os32
  | packb_nr32_s8s8s16o16
  deriving DecidableEq, Repr

/-- The maps `LPGEMM_PACKA_FUNC_MAP_AVX512_VNNI_BF16`, `LPGEMM_PACKA_FUNC_MAP_AVX512_VNNI`
and `LPGEMM_PACKA_FUNC_MAP_AVX512`, which are the same text. -/
def LPGEMM_PACKA_FUNC_MAP_AVX512 : List (AOCL_OPERATION_TYPE × Option PackAFn) :=
  [ (AOCL_OPERATION_TYPE.U8S8S16OS16, none),
    (AOCL_OPERATION_TYPE.U8S8S32OS32, some PackAFn.packa_k64_u8s8s32o32),
    (AOCL_OPERATION_TYPE.BF16BF16F32OF32, none),
    (AOCL_OPERATION_TYPE.S8S8S32OS32, some PackAFn.packa_k64_s8s8s32os32),
    (AOCL_OPERATION_TYPE.S8S8S16OS16, none) ]

/-- The map `LPGEMM_PACKA_FUNC_MAP_AVX2`. -/
def LPGEMM_PACKA_FUNC_MAP_AVX2 : List (AOCL_OPERATION_TYPE × Option PackAFn) :=
  [ (AOCL_OPERATION_TYPE.U8S8S16OS16, none),
    (AOCL_OPERATION_TYPE.U8S8S32OS32, none),
    (AOCL_OPERATION_TYPE.BF16BF16F32OF32, none),
    (AOCL_OPERATION_TYPE.S8S8S32OS32, none),
    (AOCL_OPERATION_TYPE.S8S8S16OS16, none) ]

/-- The pack-A map of a tier. -/
def LPGEMM_PACKA_FUNC_MAP : ISA_TIER → List (AOCL_OPERATION_TYPE × Option PackAFn)
  | ISA_TIER.AVX512_VNNI_BF16 => LPGEMM_PACKA_FUNC_MAP_AVX512
  | ISA_TIER.AVX512_VNNI => LPGEMM_PACKA_FUNC_MAP_AVX512
  | ISA_TIER.AVX512 => LPGEMM_PACKA_FUNC_MAP_AVX512
  | ISA_TIER.AVX2 => LPGEMM_PACKA_FUNC_MAP_AVX2

/-- The maps `LPGEMM_PACKB_FUNC_MAP_AVX512_VNNI_BF16`, `LPGEMM_PACKB_FUNC_MAP_AVX512_VNNI`
and `LPGEMM_PACKB_FUNC_MAP_AVX512`, which are the same text. -/
def LPGEMM_PACKB_FUNC_MAP_AVX512 : List (AOCL_OPERATION_TYPE × Option PackBFn) :=
  [ (AOCL_OPERATION_TYPE.U8S8S16OS16, some PackBFn.packb_nr32_u8s8s16o16),
    (AOCL_OPERATION_TYPE.U8S8S32OS32, some PackBFn.packb_nr64_u8s8s32o32),
    (AOCL_OPERATION_TYPE.BF16BF16F32OF32, some PackBFn.packb_nr64_bf16bf16f32of32),
    (AOCL_OPERATION_TYPE.S8S8S32OS32, some PackBFn.packb_nr64_s8s8s32os32),
    (AOCL_OPERATION_TYPE.S8S8S16OS16, some PackBFn.packb_nr32_s8s8s16o16) ]

/-- The map `LPGEMM_PACKB_FUNC_MAP_AVX2`. -/
def LPGEMM_PACKB_FUNC_MAP_AVX2 : List (AOCL_OPERATION_TYPE × Option PackBFn) :=
  [ (AOCL_OPERATION_TYPE.U8S8S16OS16, some PackBFn.packb_nr32_u8s8s16o16),
    (AOCL_OPERATION_TYPE.U8S8S32OS32, none),
    (AOCL_OPERATION_TYPE.BF16BF16F32OF32, none),
    (AOCL_OPERATION_TYPE.S8S8S32OS32, none),
    (AOCL_OPERATION_TYPE.S8S8S16OS16, some PackBFn.packb_nr32_s8s8s16o16) ]

/-- The pack-B map of a tier. -/
def LPGEMM_PACKB_FUNC_MAP : ISA_TIER → List (AOCL_OPERATION_TYPE × Option PackBFn)
  | ISA_TIER.AVX512_VNNI_BF16 => LPGEMM_PACKB_FUNC_MAP_AVX512
  | ISA_TIER.AVX512_VNNI => LPGEMM_PACKB_FUNC_MAP_AVX512
  | ISA_TIER.AVX512 => LPGEMM_PACKB_FUNC_MAP_AVX512
  | ISA_TIER.AVX2 => LPGEMM_PACKB_FUNC_MAP_AVX2

/-- Modelled from the spec: the expansion of `PAMACRO` (in `lpgemm_config.c`, not among
the sources), as for `kern_fun_ptr`: the pack-A handle of the operation on the tier. -/
def packa_fun_ptr (tier : ISA_TIER) (op : AOCL_OPERATION_TYPE) : Option PackAFn :=
  ((LPGEMM_PACKA_FUNC_MAP tier).lookup op).join

/-- Modelled from the spec: the expansion of `PBMACRO` (in `lpgemm_config.c`, not among
the sources), as for `kern_fun_ptr`: the pack-B handle of the operation on the tier. -/
def packb_fun_ptr (tier : ISA_TIER) (op : AOCL_OPERATION_TYPE) : Option PackBFn :=
  ((LPGEMM_PACKB_FUNC_MAP tier).lookup op).join

/-- The operation types for which the pack maps have a line. -/
def pack_operation_types : List AOCL_OPERATION_TYPE :=
  [ AOCL_OPERATION_TYPE.U8S8S16OS16, AOCL_OPERATION_TYPE.U8S8S32OS32,
    AOCL_OPERATION_TYPE.BF16BF16F32OF32, AOCL_OPERATION_TYPE.S8S8S32OS32,
    AOCL_OPERATION_TYPE.S8S8S16OS16 ]

/-! ## The her2 front ends, `bli_her2_var_oapi.c` -/

/-- The functions that `GENFRONT( her2, varname )` defines. -/
inductive Her2Var
  | her2_unb_var1
  | her2_unb_var2
  | her2_unb_var3
  | her2_unb_var4
  | her2_unf_var1
  | her2_unf_var4
  deriving DecidableEq, Repr

/-- The part of `blis.h` that `GENFRONT` uses and that is not among the sources: the
accessors of `obj_t` and the query `PASTEMAC(varname,_qfp)` of the typed function.
Enumerations (`num_t`, `uplo_t`, `conj_t`) and pointers are natural numbers, `dim_t` and
`inc_t` are integers. -/
structure Her2Api (obj_t : Type) where
  bli_obj_dt : obj_t → Nat
  bli_obj_uplo : obj_t → Nat
  bli_obj_conj_status : obj_t → Nat
  bli_obj_length : obj_t → Int
  bli_obj_buffer_at_off : obj_t → Nat
  bli_obj_vector_inc : obj_t → Int
  bli_obj_row_stride : obj_t → Int
  bli_obj_col_stride : obj_t → Int
  bli_obj_buffer_for_1x1 : Nat → obj_t → Nat
  qfp : Her2Var → Nat → Nat

/-- The call `f( uplo, conjx, conjy, conjh, m, buf_alpha, buf_x, incx, buf_y, incy, buf_c,
rs_c, cs_c, cntx )` that a front end makes: the function and the arguments in the order
of the call. -/
structure Her2TypedCall where
  f : Nat
  uplo : Nat
  conjx : Nat
  conjy : Nat
  conjh : Nat
  m : Int
  buf_alpha : Nat
  buf_x : Nat
  incx : Int
  buf_y : Nat
  incy : Int
  buf_c : Nat
  rs_c : Int
  cs_c : Int
  cntx : Nat
  deriving DecidableEq, Repr

/-- The body that `GENFRONT( her2, varname )` gives to `bli_her2_..._var..`: the local
variables in the order of the text, then the call of the typed function
(`bli_init_once()`, which comes first, initialises the library once and takes no
argument). -/
def GENFRONT {obj_t : Type} (api : Her2Api obj_t) (varname : Her2Var)
    (conjh : Nat) (alpha _alpha_conj x y c : obj_t) (cntx _cntl : Nat) : Her2TypedCall :=
  let dt := api.bli_obj_dt c
  let uplo := api.bli_obj_uplo c
  let conjx := api.bli_obj_conj_status x
  let conjy := api.bli_obj_conj_status y
  let m := api.bli_obj_length c
  let buf_x := api.bli_obj_buffer_at_off x
  let incx := api.bli_obj_vector_inc x
  let buf_y := api.bli_obj_buffer_at_off y
  let incy := api.bli_obj_vector_inc y
  let buf_c := api.bli_obj_buffer_at_off c
  let rs_c := api.bli_obj_row_stride c
  let cs_c := api.bli_obj_col_stride c
  let buf_alpha := api.bli_obj_buffer_for_1x1 dt alpha
  let f := api.qfp varname dt
  { f := f, uplo := uplo, conjx := conjx, conjy := conjy, conjh := conjh, m := m,
    buf_alpha := buf_alpha, buf_x := buf_x, incx := incx, buf_y := buf_y, incy := incy,
    buf_c := buf_c, rs_c := rs_c, cs_c := cs_c, cntx := cntx }

/-! ## The benchmark driver, `bench_gemm.c` -/

/-- The values of `num_t` that the driver uses. -/
inductive num_t
  | BLIS_FLOAT
  | BLIS_DOUBLE
  | BLIS_SCOMPLEX
  | BLIS_DCOMPLEX
  deriving DecidableEq, Repr

/-- The values of `trans_t` that the driver uses. -/
inductive trans_t
  | BLIS_NO_TRANSPOSE
  | BLIS_TRANSPOSE
  | BLIS_CONJ_TRANSPOSE
  deriving DecidableEq, Repr

/-- The objects of `main`. -/
inductive BenchObj
  | a
  | b
  | c
  | c_save
  | alpha
  | beta
  deriving DecidableEq, Repr

/-- The seventeen fields of one input line, as the `fscanf` of the `while` condition
reads them; `R` is the type of the four `double` fields. -/
structure BenchLine (R : Type) where
  tmp : String
  dt_ch : Char
  m : Int
  n : Int
  k : Int
  lda : Int
  ldb : Int
  ldc : Int
  rs_a : Int
  rs_b : Int
  rs_c : Int
  transA_c : Char
  transB_c : Char
  alpha_r : R
  alpha_i : R
  beta_r : R
  beta_i : R
  deriving DecidableEq

/-- What an iteration of the `while` loop does that can be seen from outside: the
messages, the library calls and the row written to the output file. `gemm` is the GEMM
call of the build (`bli_gemm`, or the `?gemm_` / `cblas_?gemm` of the data type). -/
inductive BenchEvent (R : Type)
  | printf_invalid_data_type (dt_ch : Char)
  | printf_invalid_transA
  | printf_invalid_transB
  | printf_invalid_storage_scheme
  | printf_no_row_storage
  | bli_obj_create (obj : BenchObj) (dt : num_t) (m n rs cs : Int)
  | bli_randm (obj : BenchObj)
  | bli_obj_set_conjtrans (trans : trans_t) (obj : BenchObj)
  | bli_setsc (re im : R) (obj : BenchObj)
  | bli_copym (src dst : BenchObj)
  | gemm (dt : num_t) (transa transb : trans_t)
  | printf_result (p_inc : Nat) (m n k : Int)
  | fprintf_row (line : BenchLine R)
  | fflush
  | bli_obj_free (obj : BenchObj)
  deriving DecidableEq

/-- The chain `if (dt_ch == 'D' || dt_ch == 'd') dt = BLIS_DOUBLE; else if ...`; `none` is
the final `else`. -/
def bench_dt (dt_ch : Char) : Option num_t :=
  if dt_ch = 'D' ∨ dt_ch = 'd' then some num_t.BLIS_DOUBLE
  else if dt_ch = 'Z' ∨ dt_ch = 'z' then some num_t.BLIS_DCOMPLEX
  else if dt_ch = 'S' ∨ dt_ch = 's' then some num_t.BLIS_FLOAT
  else if dt_ch = 'C' ∨ dt_ch = 'c' then some num_t.BLIS_SCOMPLEX
  else none

/-- The chain `if (transA_c == 'n' || transA_c == 'N') transa = BLIS_NO_TRANSPOSE;
else if ...` and the same chain for `transB_c`; `none` is the final `else`. -/
def bench_trans (trans_c : Char) : Option trans_t :=
  if trans_c = 'n' ∨ trans_c = 'N' then some trans_t.BLIS_NO_TRANSPOSE
  else if trans_c = 't' ∨ trans_c = 'T' then some trans_t.BLIS_TRANSPOSE
  else if trans_c = 'c' ∨ trans_c = 'C' then some trans_t.BLIS_CONJ_TRANSPOSE
  else none

/-- Modelled from the spec: `bli_set_dims_with_trans` of `blis.h` (not among the
sources), the dimensions of an operand "after trans": swapped unless the operand is
not transposed. -/
def bli_set_dims_with_trans (trans : trans_t) (m n : Int) : Int × Int :=
  match trans with
  | trans_t.BLIS_NO_TRANSPOSE => (m, n)
  | _ => (n, m)

/-- The part of the loop body after the objects exist: the check of the column stride
of `c` (compiled in unless `CBLAS` is defined), the initialisation, `n_repeats` timed
GEMM calls, the result line, the row of the output file and the frees. -/
def bench_run_gemm {R : Type} (cblas : Bool) (n_repeats p_inc : Nat) (l : BenchLine R)
    (dt : num_t) (transa transb : trans_t) (cs_c : Int) : List (BenchEvent R) × Nat :=
  if cblas = false ∧ cs_c = 1 then
    ([BenchEvent.printf_no_row_storage], p_inc)
  else
    let init : List (BenchEvent R) :=
      [ BenchEvent.bli_randm BenchObj.a, BenchEvent.bli_randm BenchObj.b,
        BenchEvent.bli_randm BenchObj.c,
        BenchEvent.bli_obj_set_conjtrans transa BenchObj.a,
        BenchEvent.bli_obj_set_conjtrans transb BenchObj.b,
        BenchEvent.bli_setsc l.alpha_r l.alpha_i BenchObj.alpha,
        BenchEvent.bli_setsc l.beta_r l.beta_i BenchObj.beta,
        BenchEvent.bli_copym BenchObj.c BenchObj.c_save ]
    let loop : List (BenchEvent R) :=
      for_loop (fun _ es => es ++
        [ BenchEvent.bli_copym BenchObj.c_save BenchObj.c,
          BenchEvent.gemm dt transa transb ]) n_repeats []
    let p_inc := p_inc + 1
    let report : List (BenchEvent R) :=
      [ BenchEvent.printf_result p_inc l.m l.n l.k,
        BenchEvent.fprintf_row l,
        BenchEvent.fflush,
        BenchEvent.bli_obj_free BenchObj.alpha, BenchEvent.bli_obj_free BenchObj.beta,
        BenchEvent.bli_obj_free BenchObj.a, BenchEvent.bli_obj_free BenchObj.b,
        BenchEvent.bli_obj_free BenchObj.c, BenchEvent.bli_obj_free BenchObj.c_save ]
    (init ++ loop ++ report, p_inc)

/-- The body of the `while` loop of `main` for one input line: the events of the
iteration and the value of `p_inc` after it. `cblas` says whether `CBLAS` is defined,
`stor_scheme` is the variable of that name (`main` sets it to `'C'`) and `n_repeats` is
`N_REPEAT`. A `continue` ends the iteration with the events so far. -/
def bench_line {R : Type} (cblas : Bool) (stor_scheme : Char) (n_repeats p_inc : Nat)
    (l : BenchLine R) : List (BenchEvent R) × Nat :=
  match bench_dt l.dt_ch with
  | none => ([BenchEvent.printf_invalid_data_type l.dt_ch], p_inc)
  | some dt =>
    match bench_trans l.transA_c with
    | none => ([BenchEvent.printf_invalid_transA], p_inc)
    | some transa =>
      match bench_trans l.transB_c with
      | none => ([BenchEvent.printf_invalid_transB], p_inc)
      | some transb =>
        let scalars : List (BenchEvent R) :=
          [ BenchEvent.bli_obj_create BenchObj.alpha dt 1 1 0 0,
            BenchEvent.bli_obj_create BenchObj.beta dt 1 1 0 0 ]
        if stor_scheme = 'C' ∨ stor_scheme = 'c' then
          let da := bli_set_dims_with_trans transa l.m l.k
          let db := bli_set_dims_with_trans transb l.k l.n
          let objs : List (BenchEvent R) :=
            [ BenchEvent.bli_obj_create BenchObj.a dt da.1 da.2 1 l.lda,
              BenchEvent.bli_obj_create BenchObj.b dt db.1 db.2 1 l.ldb,
              BenchEvent.bli_obj_create BenchObj.c dt l.m l.n 1 l.ldc,
              BenchEvent.bli_obj_create BenchObj.c_save dt l.m l.n 1 l.ldc ]
          let rest := bench_run_gemm cblas n_repeats p_inc l dt transa transb l.ldc
          (scalars ++ objs ++ rest.1, rest.2)
        else if stor_scheme = 'r' ∨ stor_scheme = 'R' then
          if l.k > l.lda ∨ l.n > l.ldb ∨ l.n > l.ldc then
            (scalars, p_inc)
          else
            let da := bli_set_dims_with_trans transa l.m l.k
            let db := bli_set_dims_with_trans transb l.k l.n
            let objs : List (BenchEvent R) :=
              [ BenchEvent.bli_obj_create BenchObj.a dt da.1 da.2 l.lda 1,
                BenchEvent.bli_obj_create BenchObj.b dt db.1 db.2 l.ldb 1,
                BenchEvent.bli_obj_create BenchObj.c dt l.m l.n l.ldc 1,
                BenchEvent.bli_obj_create BenchObj.c_save dt l.m l.n l.ldc 1 ]
            let rest := bench_run_gemm cblas n_repeats p_inc l dt transa transb 1
            (scalars ++ objs ++ rest.1, rest.2)
        else
          (scalars ++ [BenchEvent.printf_invalid_storage_scheme], p_inc)

/-- The value `stor_scheme = 'C'` that `main` sets in front of the loop. -/
def stor_scheme : Char := 'C'

/-- Whether an event creates an object. -/
def BenchEvent.is_create {R : Type} : BenchEvent R → Bool
  | BenchEvent.bli_obj_create _ _ _ _ _ _ => true
  | _ => false

/-- Whether an event is the GEMM call. -/
def BenchEvent.is_gemm {R : Type} : BenchEvent R → Bool
  | BenchEvent.gemm _ _ _ => true
  | _ => false

/-- Whether an event writes a row to the output file. -/
def BenchEvent.is_row {R : Type} : BenchEvent R → Bool
  | BenchEvent.fprintf_row _ => true
  | _ => false

/-! ### Concrete inputs over the integers -/

/-- Stand-ins for the code that is not among the sources: identity for the GELU
approximations, M-fringe kernels that leave C alone. -/
def ext_example : Externals ℤ :=
  { gelu_tanh_avx2 := fun x => x, gelu_erf_avx2 := fun x => x,
    gelu_tanh_sse := fun x => x, gelu_erf_sse := fun x => x,
    m_fringe := fun _ _ _ _ C => C }

/-- An A panel. -/
def A_example : Mem ℤ := fun x => (x : ℤ) - 3

/-- A B panel. -/
def B_example : Mem ℤ := fun x => 2 * (x : ℤ) - 5

/-- An output buffer. -/
def C_example : Mem ℤ := fun x => 7 - (x : ℤ)

/-- Arguments of the main kernel for an `m0 x n0` tile with reduction length `k0`: a
packed A panel (`rs_a = 1`, `cs_a = 6`, `ps_a = 6*k0`), row-major B and C of row
stride 16. -/
def args_example (m0 n0 k0 : Nat) (alpha beta : ℤ) (l : List (lpgemm_post_op ℤ))
    (c_i c_j : Nat) : MainArgs ℤ :=
  { m0 := m0, k0 := k0,
    a := 0, rs_a := 1, cs_a := 6, ps_a := 6 * k0,
    b := 0, rs_b := 16, cs_b := 1,
    c := 0, rs_c := 16,
    alpha := alpha, beta := beta,
    post_ops_list := l,
    post_ops_attr := { post_op_c_i := c_i, post_op_c_j := c_j },
    n0 := n0, cs_c := 1 }

/-- An all-ones panel. -/
def ones_example : Mem ℤ := fun _ => 1

/-- A bias node whose vector is `-2` everywhere, with layout flag `flag`. -/
def bias_node_example (flag : Char) : lpgemm_post_op ℤ :=
  { op_code := LPGEMM_POST_OP_CODE.POST_OPS_BIAS,
    op_args1 := fun _ => -2,
    op_args2_char := flag, op_args2_f32 := 0, op_args3_f32 := 0 }

/-- A bias node whose vector is `100 + 10*x` at index `x`, with layout flag `flag`. -/
def bias_ramp_example (flag : Char) : lpgemm_post_op ℤ :=
  { op_code := LPGEMM_POST_OP_CODE.POST_OPS_BIAS,
    op_args1 := fun x => 100 + 10 * (x : ℤ),
    op_args2_char := flag, op_args2_f32 := 0, op_args3_f32 := 0 }

/-- A relu node. -/
def relu_node_example : lpgemm_post_op ℤ :=
  { op_code := LPGEMM_POST_OP_CODE.POST_OPS_RELU,
    op_args1 := fun _ => 0,
    op_args2_char := 'r', op_args2_f32 := 0, op_args3_f32 := 0 }

/-- A relu-with-scale node with scale 3. -/
def relu_scale_node_example : lpgemm_post_op ℤ :=
  { op_code := LPGEMM_POST_OP_CODE.POST_OPS_RELU_SCALE,
    op_args1 := fun _ => 0,
    op_args2_char := 'r', op_args2_f32 := 3, op_args3_f32 := 0 }

/-- A clip node with bounds `[-1, 4]`. -/
def clip_node_example : lpgemm_post_op ℤ :=
  { op_code := LPGEMM_POST_OP_CODE.POST_OPS_CLIP,
    op_args1 := fun _ => 0,
    op_args2_char := 'r', op_args2_f32 := -1, op_args3_f32 := 4 }

/-- An input line of the benchmark driver with the three characters left open. -/
def bench_line_example (dt_ch transA_c transB_c : Char) : BenchLine ℤ :=
  { tmp := "", dt_ch := dt_ch, m := 4, n := 5, k := 6, lda := 4, ldb := 6, ldc := 4,
    rs_a := 1, rs_b := 1, rs_c := 1, transA_c := transA_c, transB_c := transB_c,
    alpha_r := 1, alpha_i := 0, beta_r := 0, beta_i := 0 }

/-- An accessor set for the her2 front ends over objects that are lists of numbers. -/
def her2_api_example : Her2Api (List Nat) :=
  { bli_obj_dt := fun o => o.getD 0 0,
    bli_obj_uplo := fun o => o.getD 1 0,
    bli_obj_conj_status := fun o => o.getD 2 0,
    bli_obj_length := fun o => (o.getD 3 0 : Int),
    bli_obj_buffer_at_off := fun o => o.getD 4 0,
    bli_obj_vector_inc := fun o => (o.getD 5 0 : Int),
    bli_obj_row_stride := fun o => (o.getD 6 0 : Int),
    bli_obj_col_stride := fun o => (o.getD 7 0 : Int),
    bli_obj_buffer_for_1x1 := fun dt o => o.getD 4 0 + dt,
    qfp := fun _ dt => 1000 + dt }

/-! ### A scalar type with a poison value -/

/-- Integers with one more value, `nan`, that stands for the NaN of the floats: a sum or
a product with `nan` is `nan` (so `nan * 0 = nan`) and no comparison with `nan` holds. -/
inductive Poisoned
  | val (x : ℤ)
  | nan
  deriving DecidableEq, Repr

/-- Addition: `nan` if an operand is `nan`. -/
def Poisoned.add : Poisoned → Poisoned → Poisoned
  | Poisoned.val x, Poisoned.val y => Poisoned.val (x + y)
  | _, _ => Poisoned.nan

/-- Multiplication: `nan` if an operand is `nan`. -/
def Poisoned.mul : Poisoned → Poisoned → Poisoned
  | Poisoned.val x, Poisoned.val y => Poisoned.val (x * y)
  | _, _ => Poisoned.nan

/-- The comparison `a < b`: false if an operand is `nan`. -/
def Poisoned.lt : Poisoned → Poisoned → Bool
  | Poisoned.val x, Poisoned.val y => decide (x < y)
  | _, _ => false

/-- The maximum as `_mm256_max_ps` computes it: the second operand unless the first is
greater (so the second operand when either is `nan`). -/
def Poisoned.max (a b : Poisoned) : Poisoned :=
  if Poisoned.lt b a then a else b

/-- The minimum as `_mm256_min_ps` computes it: the second operand unless the first is
smaller. -/
def Poisoned.min (a b : Poisoned) : Poisoned :=
  if Poisoned.lt a b then a else b

instance : Zero Poisoned := ⟨Poisoned.val 0⟩

instance : Add Poisoned := ⟨Poisoned.add⟩

instance : Mul Poisoned := ⟨Poisoned.mul⟩

instance : Max Poisoned := ⟨Poisoned.max⟩

instance : Min Poisoned := ⟨Poisoned.min⟩

instance : LT Poisoned := ⟨fun a b => Poisoned.lt a b = true⟩

instance : DecidableRel ((· < ·) : Poisoned → Poisoned → Prop) :=
  fun a b => inferInstanceAs (Decidable (Poisoned.lt a b = true))

/-- Stand-ins for the code that is not among the sources, over the poisoned scalars. -/
def ext_poisoned : Externals Poisoned :=
  { gelu_tanh_avx2 := fun x => x, gelu_erf_avx2 := fun x => x,
    gelu_tanh_sse := fun x => x, gelu_erf_sse := fun x => x,
    m_fringe := fun _ _ _ _ C => C }

/-- The A panel `A_example` over the poisoned scalars. -/
def A_poisoned : Mem Poisoned := fun x => Poisoned.val (A_example x)

/-- The B panel `B_example` over the poisoned scalars. -/
def B_poisoned : Mem Poisoned := fun x => Poisoned.val (B_example x)

/-- An output buffer filled with `nan`. -/
def C_nan : Mem Poisoned := fun _ => Poisoned.nan

/-- The arguments `args_example` over the poisoned scalars. -/
def args_poisoned (m0 n0 k0 : Nat) (alpha beta : Poisoned)
    (l : List (lpgemm_post_op Poisoned)) (c_i c_j : Nat) : MainArgs Poisoned :=
  { m0 := m0, k0 := k0,
    a := 0, rs_a := 1, cs_a := 6, ps_a := 6 * k0,
    b := 0, rs_b := 16, cs_b := 1,
    c := 0, rs_c := 16,
    alpha := alpha, beta := beta,
    post_ops_list := l,
    post_ops_attr := { post_op_c_i := c_i, post_op_c_j := c_j },
    n0 := n0, cs_c := 1 }

/-- A bias node over the poisoned scalars whose vector is `-2` everywhere. -/
def bias_node_poisoned (flag : Char) : lpgemm_post_op Poisoned :=
  { op_code := LPGEMM_POST_OP_CODE.POST_OPS_BIAS,
    op_args1 := fun _ => Poisoned.val (-2),
    op_args2_char := flag, op_args2_f32 := 0, op_args3_f32 := 0 }

/-- A float memory that holds an output buffer (addresses below 200), a bias vector at
200 and two bounds at 300 and 301. -/
def M_shared_example : Mem ℤ := fun x =>
  if x < 200 then 7 - (x : ℤ) else if x < 300 then (x : ℤ) - 200
  else if x = 300 then 0 else 2000

/-- A post-op sequence in that memory: bias (vector at 200), relu (null pointers), clip
(bounds at 300 and 301). -/
def nodes_example : List lpgemm_post_op_ptr :=
  [ { op_code := LPGEMM_POST_OP_CODE.POST_OPS_BIAS,
      op_args1 := 200, op_args2 := 0, op_args2_char := 'r', op_args3 := 0 },
    { op_code := LPGEMM_POST_OP_CODE.POST_OPS_RELU,
      op_args1 := 0, op_args2 := 0, op_args2_char := ' ', op_args3 := 0 },
    { op_code := LPGEMM_POST_OP_CODE.POST_OPS_CLIP,
      op_args1 := 0, op_args2 := 300, op_args2_char := ' ', op_args3 := 301 } ]

/-- Arguments for a 7x10 tile at address 0 (`k0 = 3`, `alpha = 2`, `beta = 1`). -/
def shared_args_example : MainArgs ℤ := args_example 7 10 3 2 1 [] 0 0

/-! ## Theorems -/

/-! ### Facts that need no arithmetic

The statements of this section hold for every scalar type that has the operations the
kernels use, with no law assumed of them: also for floats, where `0 * NaN` is not `0`. -/

section NoAlgebra

set_option linter.unusedSectionVars false

variable {α : Type} [Zero α] [Add α] [Mul α] [Max α] [Min α] [LT α] [DecidableEq α]
  [DecidableRel ((· < ·) : α → α → Prop)]

theorem for_loop_succ {σ : Type} (body : Nat → σ → σ) (n : Nat) (s : σ) :
    for_loop body (n + 1) s = body n (for_loop body n s) := rfl

theorem store_lanes_apply (n : Nat) (mem : Mem α) (p : Nat) (v : Vec α) (x : Nat) :
    store_lanes n mem p v x = if p ≤ x ∧ x < p + n then v (x - p) else mem x := rfl

theorem consider_edge_cases_of_mod_eq_zero (ext : Externals α) (w : Nat) (A B : Mem α)
    (p : NArgs α) (C : Mem α) (attr : lpgemm_post_op_attr) (hm : p.m0 % 6 = 0) :
    consider_edge_cases ext w A B p C attr
      = some { c := C, post_ops_attr := attr, calls := [] } := by
  simp [consider_edge_cases, hm]

theorem ker_fps_get (w r : Nat) (h : r < (ker_fps w).length) (hr : r ≠ 0) :
    (ker_fps w).get ⟨r, h⟩ = some ⟨r, w⟩ := by
  have h6 : r < 6 := h
  interval_cases r
  · exact absurd rfl hr
  all_goals rfl

/-- The tail of a kernel when rows are left over: exactly one call, to entry
`m0 % 6` of the table. -/
theorem consider_edge_cases_of_mod_ne_zero (ext : Externals α) (w : Nat) (A B : Mem α)
    (p : NArgs α) (C : Mem α) (attr : lpgemm_post_op_attr) (hm : p.m0 % 6 ≠ 0) :
    consider_edge_cases ext w A B p C attr
      = some { c := ext.m_fringe ⟨p.m0 % 6, w⟩
                      { m_fringe_args p with post_ops_attr := attr } A B C,
               post_ops_attr := attr,
               calls := [Call.m_fringe ⟨p.m0 % 6, w⟩
                      { m_fringe_args p with post_ops_attr := attr }] } := by
  simp only [consider_edge_cases, hm, ne_eq, not_false_eq_true, if_true]
  rw [ker_fps_get w (p.m0 % 6) _ hm]
  rfl

/-! ### Independence of the old contents of C when `beta = 0` -/

theorem oblivious_id : Oblivious (fun C : Mem α => C) :=
  fun _ _ _ => Or.inr ⟨rfl, rfl⟩

theorem oblivious_comp (F G : Mem α → Mem α) (hF : Oblivious F) (hG : Oblivious G) :
    Oblivious (fun C => G (F C)) := by
  intro C1 C2 x
  show G (F C1) x = G (F C2) x ∨ (G (F C1) x = C1 x ∧ G (F C2) x = C2 x)
  rcases hG (F C1) (F C2) x with h | ⟨h1, h2⟩
  · exact Or.inl h
  · rcases hF C1 C2 x with h | ⟨h3, h4⟩
    · exact Or.inl (by rw [h1, h2, h])
    · exact Or.inr ⟨by rw [h1, h3], by rw [h2, h4]⟩

theorem oblivious_store_lanes (n p : Nat) (v : Vec α) :
    Oblivious (fun C : Mem α => store_lanes n C p v) := by
  intro C1 C2 x
  simp only [store_lanes_apply]
  split_ifs
  · exact Or.inl rfl
  · exact Or.inr ⟨rfl, rfl⟩

theorem oblivious_store_6xN (cfg : NFringeCfg) (cbuf rs_c : Nat) (r : Acc6 α) :
    Oblivious (fun C : Mem α => store_6xN cfg C cbuf rs_c r) := by
  unfold store_6xN
  exact oblivious_comp _ _ (oblivious_comp _ _ (oblivious_comp _ _ (oblivious_comp _ _
    (oblivious_comp _ _ (oblivious_store_lanes _ _ _) (oblivious_store_lanes _ _ _))
    (oblivious_store_lanes _ _ _)) (oblivious_store_lanes _ _ _))
    (oblivious_store_lanes _ _ _)) (oblivious_store_lanes _ _ _)

theorem oblivious_store_6x16 (cbuf rs_c : Nat) (r : Acc6x16 α) :
    Oblivious (fun C : Mem α => store_6x16 C cbuf rs_c r) := by
  unfold store_6x16 _mm256_storeu_ps
  exact oblivious_comp _ _ (oblivious_comp _ _ (oblivious_comp _ _ (oblivious_comp _ _
    (oblivious_comp _ _ (oblivious_comp _ _ (oblivious_comp _ _ (oblivious_comp _ _
    (oblivious_comp _ _ (oblivious_comp _ _ (oblivious_comp _ _
    (oblivious_store_lanes _ _ _) (oblivious_store_lanes _ _ _))
    (oblivious_store_lanes _ _ _)) (oblivious_store_lanes _ _ _))
    (oblivious_store_lanes _ _ _)) (oblivious_store_lanes _ _ _))
    (oblivious_store_lanes _ _ _)) (oblivious_store_lanes _ _ _))
    (oblivious_store_lanes _ _ _)) (oblivious_store_lanes _ _ _))
    (oblivious_store_lanes _ _ _)) (oblivious_store_lanes _ _ _)

/-- With `beta = 0` the `m` loop is a transformer of C that never uses the old
contents, and its cursor does not depend on C either. -/
theorem m_loop_oblivious (rg : Nat → Mem α × lpgemm_post_op_attr → Mem α × lpgemm_post_op_attr)
    (hrg : ∀ m attr, ∃ F attr', Oblivious F ∧ ∀ C, rg m (C, attr) = (F C, attr'))
    (attr : lpgemm_post_op_attr) (n : Nat) :
    ∃ F attr', Oblivious F ∧ ∀ C, for_loop rg n (C, attr) = (F C, attr') := by
  induction n with
  | zero => exact ⟨fun C => C, attr, oblivious_id, fun _ => rfl⟩
  | succ n ih =>
    obtain ⟨F, attr', hF, hl⟩ := ih
    obtain ⟨G, attr'', hG, hg⟩ := hrg n attr'
    refine ⟨fun C => G (F C), attr'', oblivious_comp F G hF hG, ?_⟩
    intro C
    rw [for_loop_succ, hl, hg]

theorem row_group_6xN_oblivious (cfg : NFringeCfg) (ext : Externals α) (A B : Mem α)
    (p : NArgs α) (hb : p.beta = 0) (m : Nat) (attr : lpgemm_post_op_attr) :
    ∃ F attr', Oblivious F ∧ ∀ C, row_group_6xN cfg ext A B p m (C, attr) = (F C, attr') := by
  refine ⟨fun C => store_6xN cfg C (p.c + m * 6 * p.rs_c) p.rs_c
      (post_ops_6xN cfg ext attr p.post_ops_list
        (alpha_mul_6xN p.alpha (k_loop_6xN cfg A B p m))),
    { attr with post_op_c_i := attr.post_op_c_i + 6 },
    oblivious_store_6xN _ _ _ _, ?_⟩
  intro C
  simp only [row_group_6xN, scaled_6xN, hb, ne_eq, not_true_eq_false, if_false]

theorem row_group_6x16_oblivious (ext : Externals α) (A B : Mem α)
    (p : NArgs α) (hb : p.beta = 0) (m : Nat) (attr : lpgemm_post_op_attr) :
    ∃ F attr', Oblivious F ∧ ∀ C, row_group_6x16 ext A B p m (C, attr) = (F C, attr') := by
  refine ⟨fun C => store_6x16 C (p.c + m * 6 * p.rs_c) p.rs_c
      (post_ops_6x16 ext attr p.post_ops_list
        (alpha_mul_6x16 p.alpha (k_loop_6x16 A B p m))),
    { attr with post_op_c_i := attr.post_op_c_i + 6 },
    oblivious_store_6x16 _ _ _, ?_⟩
  intro C
  simp only [row_group_6x16, scaled_6x16, hb, ne_eq, not_true_eq_false, if_false]

theorem consider_edge_cases_oblivious (ext : Externals α)
    (hext : ∀ ker args A B, args.beta = 0 → Oblivious (ext.m_fringe ker args A B))
    (w : Nat) (A B : Mem α) (p : NArgs α) (hb : p.beta = 0) (attr : lpgemm_post_op_attr) :
    ∃ F, Oblivious F ∧ ∀ C, ∃ res, consider_edge_cases ext w A B p C attr = some res
      ∧ res.c = F C := by
  by_cases hm : p.m0 % 6 = 0
  · exact ⟨fun C => C, oblivious_id, fun C =>
      ⟨_, consider_edge_cases_of_mod_eq_zero ext w A B p C attr hm, rfl⟩⟩
  · exact ⟨_, hext ⟨p.m0 % 6, w⟩ { m_fringe_args p with post_ops_attr := attr } A B hb,
      fun C => ⟨_, consider_edge_cases_of_mod_ne_zero ext w A B p C attr hm, rfl⟩⟩

/-- With `beta = 0` an N-fringe kernel returns and never uses the old contents of C. -/
theorem lpgemm_rowvar_6xNm_oblivious (cfg : NFringeCfg) (ext : Externals α)
    (hext : ∀ ker args A B, args.beta = 0 → Oblivious (ext.m_fringe ker args A B))
    (A B : Mem α) (p : NArgs α) (hb : p.beta = 0) :
    ∃ F, Oblivious F ∧ ∀ C, ∃ res, lpgemm_rowvar_6xNm cfg ext A B p C = some res
      ∧ res.c = F C := by
  obtain ⟨F, attr', hF, hl⟩ := m_loop_oblivious (row_group_6xN cfg ext A B p)
    (row_group_6xN_oblivious cfg ext A B p hb) p.post_ops_attr (p.m0 / 6)
  obtain ⟨G, hG, hg⟩ := consider_edge_cases_oblivious ext hext cfg.nr A B p hb attr'
  refine ⟨fun C => G (F C), oblivious_comp F G hF hG, ?_⟩
  intro C
  obtain ⟨res, hres, hc⟩ := hg (F C)
  refine ⟨res, ?_, hc⟩
  rw [lpgemm_rowvar_6xNm]
  simp only [hl]
  exact hres

theorem oblivious_step_bind (f g : NChain α → Option (NChain α)) (hf : ObliviousStep f)
    (hg : ObliviousStep g) : ObliviousStep (fun s => (f s).bind g) := by
  intro s
  obtain ⟨F, t, hF, hft⟩ := hf s
  obtain ⟨G, u, hG, hgu⟩ := hg t
  refine ⟨fun C => G (F C), u, oblivious_comp F G hF hG, ?_⟩
  intro C
  show (f { s with C := C }).bind g = _
  rw [hft C, Option.some_bind]
  exact hgu (F C)

theorem oblivious_step_skip : ObliviousStep (fun s : NChain α => some s) :=
  fun s => ⟨fun C => C, s, oblivious_id, fun _ => rfl⟩

theorem oblivious_step_ite (c : NChain α → Prop) [DecidablePred c]
    (hc : ∀ s C, c { s with C := C } ↔ c s)
    (f g : NChain α → Option (NChain α)) (hf : ObliviousStep f) (hg : ObliviousStep g) :
    ObliviousStep (fun s => if c s then f s else g s) := by
  intro s
  by_cases h : c s
  · obtain ⟨F, t, hF, hft⟩ := hf s
    refine ⟨F, t, hF, fun C => ?_⟩
    show (if c { s with C := C } then f { s with C := C } else g { s with C := C }) = _
    rw [if_pos ((hc s C).2 h)]
    exact hft C
  · obtain ⟨G, t, hG, hgt⟩ := hg s
    refine ⟨G, t, hG, fun C => ?_⟩
    show (if c { s with C := C } then f { s with C := C } else g { s with C := C }) = _
    rw [if_neg (fun h' => h ((hc s C).1 h'))]
    exact hgt C

theorem n_fringe_block_oblivious (cfg : NFringeCfg) (name : NFringeName) (nr_cur : Nat)
    (ext : Externals α)
    (hext : ∀ ker args A B, args.beta = 0 → Oblivious (ext.m_fringe ker args A B))
    (A B : Mem α) (p : MainArgs α) (hb : p.beta = 0) :
    ObliviousStep (n_fringe_block name (lpgemm_rowvar_6xNm cfg ext A B) nr_cur p) := by
  intro s
  obtain ⟨F, hF, hk⟩ := lpgemm_rowvar_6xNm_oblivious cfg ext hext A B (n_fringe_args p s) hb
  refine ⟨F, { C := s.C,
               cij := s.cij + nr_cur * p.cs_c,
               bj := s.bj + nr_cur * p.cs_b,
               n_left := s.n_left - nr_cur,
               post_ops_attr :=
                 { s.post_ops_attr with
                   post_op_c_j := s.post_ops_attr.post_op_c_j + nr_cur },
               calls := s.calls ++ [Call.n_fringe name (n_fringe_args p s)] }, hF, ?_⟩
  intro C
  obtain ⟨res, hres, hc⟩ := hk C
  have hargs : n_fringe_args p { s with C := C } = n_fringe_args p s := rfl
  simp only [n_fringe_block, hargs, hres, hc]

theorem n_fringe_last_oblivious (cfg : NFringeCfg) (name : NFringeName)
    (ext : Externals α)
    (hext : ∀ ker args A B, args.beta = 0 → Oblivious (ext.m_fringe ker args A B))
    (A B : Mem α) (p : MainArgs α) (hb : p.beta = 0) :
    ObliviousStep (n_fringe_last name (lpgemm_rowvar_6xNm cfg ext A B) p) := by
  intro s
  obtain ⟨F, hF, hk⟩ := lpgemm_rowvar_6xNm_oblivious cfg ext hext A B (n_fringe_args p s) hb
  refine ⟨F, { s with calls := s.calls ++ [Call.n_fringe name (n_fringe_args p s)] }, hF, ?_⟩
  intro C
  obtain ⟨res, hres, hc⟩ := hk C
  have hargs : n_fringe_args p { s with C := C } = n_fringe_args p s := rfl
  simp only [n_fringe_last, hargs, hres, hc]

/-- With `beta = 0` the main kernel returns and never uses the old contents of C, on the
N-fringe path and on the full-width path alike. -/
theorem lpgemm_rowvar_6x16m_oblivious (ext : Externals α)
    (hext : ∀ ker args A B, args.beta = 0 → Oblivious (ext.m_fringe ker args A B))
    (A B : Mem α) (p : MainArgs α) (hb : p.beta = 0) :
    ∃ F, Oblivious F ∧ ∀ C, ∃ res, lpgemm_rowvar_f32f32f32of32_6x16m ext A B p C = some res
      ∧ res.c = F C := by
  by_cases hn : p.n0 % 16 = 0
  · obtain ⟨F, attr', hF, hl⟩ := m_loop_oblivious (row_group_6x16 ext A B p.toNArgs)
      (row_group_6x16_oblivious ext A B p.toNArgs hb) p.post_ops_attr (p.m0 / 6)
    obtain ⟨G, hG, hg⟩ := consider_edge_cases_oblivious ext hext 16 A B p.toNArgs hb attr'
    refine ⟨fun C => G (F C), oblivious_comp F G hF hG, ?_⟩
    intro C
    obtain ⟨res, hres, hc⟩ := hg (F C)
    refine ⟨res, ?_, hc⟩
    rw [lpgemm_rowvar_f32f32f32of32_6x16m]
    simp only [hn, ne_eq, not_true_eq_false, if_false, hl]
    exact hres
  · have hchain : ObliviousStep (fun s : NChain α =>
        ((((if 8 ≤ s.n_left then
            n_fringe_block ⟨8⟩ (lpgemm_rowvar_f32f32f32of32_6x8m ext A B) 8 p s
          else some s).bind fun s =>
          (if 4 ≤ s.n_left then
            n_fringe_block ⟨4⟩ (lpgemm_rowvar_f32f32f32of32_6x4m ext A B) 4 p s
          else some s)).bind fun s =>
          (if 2 ≤ s.n_left then
            n_fringe_block ⟨2⟩ (lpgemm_rowvar_f32f32f32of32_6x2m ext A B) 2 p s
          else some s)).bind fun s =>
          (if 1 = s.n_left then
            n_fringe_last ⟨1⟩ (lpgemm_rowvar_f32f32f32of32_6x1m ext A B) p s
          else some s))) := by
      refine oblivious_step_bind _ _ (oblivious_step_bind _ _ (oblivious_step_bind _ _ ?_ ?_)
        ?_) ?_
      · exact oblivious_step_ite (fun s => 8 ≤ s.n_left) (fun _ _ => Iff.rfl) _ _
          (n_fringe_block_oblivious cfg_6x8 ⟨8⟩ 8 ext hext A B p hb) oblivious_step_skip
      · exact oblivious_step_ite (fun s => 4 ≤ s.n_left) (fun _ _ => Iff.rfl) _ _
          (n_fringe_block_oblivious cfg_6x4 ⟨4⟩ 4 ext hext A B p hb) oblivious_step_skip
      · exact oblivious_step_ite (fun s => 2 ≤ s.n_left) (fun _ _ => Iff.rfl) _ _
          (n_fringe_block_oblivious cfg_6x2 ⟨2⟩ 2 ext hext A B p hb) oblivious_step_skip
      · exact oblivious_step_ite (fun s => 1 = s.n_left) (fun _ _ => Iff.rfl) _ _
          (n_fringe_last_oblivious cfg_6x1 ⟨1⟩ ext hext A B p hb) oblivious_step_skip
    obtain ⟨F, t, hF, hft⟩ := hchain (n_fringe_init p (fun _ => 0) (p.n0 % 16))
    refine ⟨F, hF, ?_⟩
    intro C
    have hC := hft C
    refine ⟨{ c := F C, post_ops_attr := t.post_ops_attr, calls := t.calls }, ?_, rfl⟩
    rw [lpgemm_rowvar_f32f32f32of32_6x16m]
    simp only [hn, ne_eq, not_false_eq_true, if_true, n_fringe_chain]
    have hbind : ∀ (o : Option (NChain α)) (f g h : NChain α → Option (NChain α)),
        (o.bind fun s => (f s).bind fun s => (g s).bind fun s => h s)
          = (((o.bind f).bind g).bind h) := by
      intro o f g h
      cases o with
      | none => rfl
      | some s =>
        simp only [Option.some_bind]
        cases f s with
        | none => rfl
        | some s' => simp only [Option.some_bind]
    have hinit : ({ n_fringe_init p (fun _ => 0) (p.n0 % 16) with C := C } : NChain α)
        = n_fringe_init p C (p.n0 % 16) := rfl
    rw [hinit] at hC
    beta_reduce at hC
    rw [hbind, hC]
    rfl

/-! ### C2 -/

theorem ignoresOldC_of_oblivious (run : Mem α → Option (KernelResult α))
    (h : ∃ F, Oblivious F ∧ ∀ C, ∃ res, run C = some res ∧ res.c = F C) :
    IgnoresOldC run := by
  obtain ⟨F, hF, hrun⟩ := h
  intro C1 C2
  obtain ⟨r1, h1, hc1⟩ := hrun C1
  obtain ⟨r2, h2, hc2⟩ := hrun C2
  refine ⟨r1, r2, h1, h2, ?_⟩
  intro x
  rw [hc1, hc2]
  exact hF C1 C2 x

/-- Claim C2. For `beta = 0` each of the five kernels (6x16m, 6x8m, 6x4m, 6x2m, 6x1m)
returns and never uses the previous contents of C, for every `m0`, `n0`, `k0`, A, B,
`alpha`, strides, post-op sequence and cursor: in two runs that differ only in the
initial contents of C, every element of C either ends with the same value in both runs
or is left as it was in both, so every element written holds the same value. This holds
over every scalar type that has the operations the kernels use, with no law assumed of
them: in particular over scalars with a NaN, for which `NaN * 0` is not `0`, so that a
kernel that loaded C and multiplied it by `beta = 0` would not satisfy it. The M-fringe
kernels, which are not among the sources, are assumed to do the same. -/
theorem C2_beta_zero_ignores_old_C (ext : Externals α)
    (hext : ∀ ker args A B, args.beta = 0 → Oblivious (ext.m_fringe ker args A B))
    (A B : Mem α) (p : MainArgs α) (hb : p.beta = 0) :
    IgnoresOldC (lpgemm_rowvar_f32f32f32of32_6x16m ext A B p)
    ∧ IgnoresOldC (lpgemm_rowvar_f32f32f32of32_6x8m ext A B p.toNArgs)
    ∧ IgnoresOldC (lpgemm_rowvar_f32f32f32of32_6x4m ext A B p.toNArgs)
    ∧ IgnoresOldC (lpgemm_rowvar_f32f32f32of32_6x2m ext A B p.toNArgs)
    ∧ IgnoresOldC (lpgemm_rowvar_f32f32f32of32_6x1m ext A B p.toNArgs) :=
  ⟨ignoresOldC_of_oblivious _ (lpgemm_rowvar_6x16m_oblivious ext hext A B p hb),
   ignoresOldC_of_oblivious _ (lpgemm_rowvar_6xNm_oblivious cfg_6x8 ext hext A B p.toNArgs hb),
   ignoresOldC_of_oblivious _ (lpgemm_rowvar_6xNm_oblivious cfg_6x4 ext hext A B p.toNArgs hb),
   ignoresOldC_of_oblivious _ (lpgemm_rowvar_6xNm_oblivious cfg_6x2 ext hext A B p.toNArgs hb),
   ignoresOldC_of_oblivious _ (lpgemm_rowvar_6xNm_oblivious cfg_6x1 ext hext A B p.toNArgs hb)⟩

end NoAlgebra

section Lemmas

set_option linter.unusedSectionVars false

variable {α : Type} [LinearOrderedCommRing α]

theorem k_state_6xN (cfg : NFringeCfg) (A B : Mem α) (rs_a cs_a rs_b abuf bbuf : Nat)
    (acc : Acc6 α) (n : Nat) :
    (for_loop (fun _ s => k_body_6xN cfg A B rs_a cs_a rs_b s) n
        { abuf := abuf, bbuf := bbuf, acc := acc }).abuf = abuf + n * cs_a
    ∧ (for_loop (fun _ s => k_body_6xN cfg A B rs_a cs_a rs_b s) n
        { abuf := abuf, bbuf := bbuf, acc := acc }).bbuf = bbuf + n * rs_b
    ∧ ∀ i, i < 6 → ∀ l, l < cfg.nr →
      (for_loop (fun _ s => k_body_6xN cfg A B rs_a cs_a rs_b s) n
        { abuf := abuf, bbuf := bbuf, acc := acc }).acc.row i l
        = (∑ k ∈ Finset.range n, A (abuf + k * cs_a + i * rs_a) * B (bbuf + k * rs_b + l))
          + acc.row i l := by
  induction n with
  | zero => simp [for_loop]
  | succ n ih =>
    rw [for_loop_succ]
    generalize for_loop (fun _ s => k_body_6xN cfg A B rs_a cs_a rs_b s) n
      { abuf := abuf, bbuf := bbuf, acc := acc } = s at ih ⊢
    obtain ⟨ha, hb, hacc⟩ := ih
    refine ⟨?_, ?_, ?_⟩
    · simp only [k_body_6xN, ha]; ring
    · simp only [k_body_6xN, hb]; ring
    · intro i hi l hl
      have h := hacc i hi l hl
      rw [Finset.sum_range_succ]
      interval_cases i <;>
        simp only [Acc6.row, k_body_6xN, _mm256_fmadd_ps, _mm256_broadcast_ss, load_lanes,
          hl, if_true, ha, hb] at h ⊢ <;>
        rw [h] <;> ring

theorem k_loop_6xN_row (cfg : NFringeCfg) (A B : Mem α) (p : NArgs α) (m i l : Nat)
    (hi : i < 6) (hl : l < cfg.nr) :
    (k_loop_6xN cfg A B p m).row i l
      = ∑ k ∈ Finset.range p.k0, A_elt A p (6 * m + i) k * B_elt B p k l := by
  have h := (k_state_6xN cfg A B p.rs_a p.cs_a p.rs_b (p.a + m * p.ps_a) p.b
    zero_acc_6xN p.k0).2.2 i hi l hl
  have hz : (zero_acc_6xN : Acc6 α).row i l = 0 := by
    interval_cases i <;> rfl
  rw [hz, add_zero] at h
  rw [k_loop_6xN]
  rw [h]
  apply Finset.sum_congr rfl
  intro k _
  have hq : (6 * m + i) / 6 = m := by omega
  have hr : (6 * m + i) % 6 = i := by omega
  simp only [A_elt, B_elt, hq, hr]
  congr 2
  ring

theorem scaled_6xN_row (cfg : NFringeCfg) (A B : Mem α) (p : NArgs α) (m : Nat)
    (C : Mem α) (i l : Nat) (hi : i < 6) (hl : l < cfg.nr) :
    (scaled_6xN cfg A B p m C).row i l
      = p.alpha * (∑ k ∈ Finset.range p.k0, A_elt A p (6 * m + i) k * B_elt B p k l)
        + p.beta * C (C_addr p (6 * m + i) l) := by
  have hk := k_loop_6xN_row cfg A B p m i l hi hl
  have haddr : C_addr p (6 * m + i) l = p.c + m * 6 * p.rs_c + i * p.rs_c + l := by
    simp only [C_addr]; ring
  rw [haddr]
  by_cases hb : p.beta = 0
  · simp only [scaled_6xN, hb, ne_eq, not_true_eq_false, if_false, zero_mul, add_zero]
    rw [← hk]
    interval_cases i <;>
      simp only [Acc6.row, alpha_mul_6xN, Acc6.map, _mm256_mul_ps, _mm256_set1_ps] <;>
      ring
  · simp only [scaled_6xN, hb, ne_eq, not_false_eq_true, if_true]
    rw [← hk]
    interval_cases i <;>
      simp only [Acc6.row, beta_6xN, F32_C_BNZ, _mm256_fmadd_ps, load_lanes, hl, if_true,
        alpha_mul_6xN, Acc6.map, _mm256_mul_ps, _mm256_set1_ps] <;>
      ring_nf

theorem post_ops_6xN_eq_pipeline (cfg : NFringeCfg) (ext : Externals α)
    (attr : lpgemm_post_op_attr) (l : List (lpgemm_post_op α)) (r : Acc6 α) :
    post_ops_6xN cfg ext attr l r = pipeline_6xN cfg ext attr l r := by
  induction l generalizing r with
  | nil => rfl
  | cons node next ih =>
    unfold pipeline_6xN at ih ⊢
    rw [post_ops_6xN]
    cases hk : node.op_code <;>
      simp [jump_target, post_ops_labels, LPGEMM_POST_OP_CODE.toNat, effective_ops,
        List.takeWhile, hk, handler_6xN, ih] <;>
      rfl

theorem post_ops_6x16_eq_pipeline (ext : Externals α)
    (attr : lpgemm_post_op_attr) (l : List (lpgemm_post_op α)) (r : Acc6x16 α) :
    post_ops_6x16 ext attr l r = pipeline_6x16 ext attr l r := by
  induction l generalizing r with
  | nil => rfl
  | cons node next ih =>
    unfold pipeline_6x16 at ih ⊢
    rw [post_ops_6x16]
    cases hk : node.op_code <;>
      simp [jump_target, post_ops_labels, LPGEMM_POST_OP_CODE.toNat, effective_ops,
        List.takeWhile, hk, handler_6x16, ih] <;>
      rfl

theorem handler_6xN_row (cfg : NFringeCfg) (hvl : cfg.nr ≤ cfg.vl) (ext : Externals α)
    (attr : lpgemm_post_op_attr) (node : lpgemm_post_op α) (r : Acc6 α) (i j : Nat)
    (hi : i < 6) (hj : j < cfg.nr) :
    (handler_6xN cfg ext attr node r).row i j
      = elem_post_op (cfg.gelu_tanh ext) (cfg.gelu_erf ext) attr i j node (r.row i j) := by
  have hj2 : j < cfg.vl := lt_of_lt_of_le hj hvl
  unfold handler_6xN elem_post_op
  cases node.op_code
  · rfl
  · by_cases hc : node.op_args2_char = 'r' ∨ node.op_args2_char = 'R'
    · interval_cases i <;>
        simp [POST_OPS_BIAS_6xNF, hc, Acc6.row, Acc6.map, _mm256_add_ps, load_lanes, hj2]
    · interval_cases i <;>
        simp [POST_OPS_BIAS_6xNF, hc, Acc6.row, _mm256_add_ps, _mm256_broadcast_ss]
  · interval_cases i <;>
      simp [POST_OPS_RELU_6xNF, Acc6.row, Acc6.map, _mm256_max_ps, _mm256_setzero_ps]
  · interval_cases i <;>
      simp [POST_OPS_RELU_SCALE_6xNF, Acc6.row, Acc6.map, RELU_SCALE_OP_F32S,
        _mm256_set1_ps, _mm256_setzero_ps]
  · interval_cases i <;>
      simp [POST_OPS_GELU_TANH_6xNF, Acc6.row, Acc6.map, NFringeCfg.gelu_tanh]
  · interval_cases i <;>
      simp [POST_OPS_GELU_ERF_6xNF, Acc6.row, Acc6.map, NFringeCfg.gelu_erf]
  · interval_cases i <;>
      simp [POST_OPS_CLIP_6xNF, Acc6.row, Acc6.map, CLIP_F32S, _mm256_min_ps,
        _mm256_max_ps, _mm256_set1_ps]

theorem pipeline_6xN_row (cfg : NFringeCfg) (hvl : cfg.nr ≤ cfg.vl) (ext : Externals α)
    (attr : lpgemm_post_op_attr) (l : List (lpgemm_post_op α)) (r : Acc6 α) (i j : Nat)
    (hi : i < 6) (hj : j < cfg.nr) :
    (pipeline_6xN cfg ext attr l r).row i j
      = elem_post_ops (cfg.gelu_tanh ext) (cfg.gelu_erf ext) attr i j l (r.row i j) := by
  unfold pipeline_6xN elem_post_ops
  generalize effective_ops l = e
  induction e generalizing r with
  | nil => rfl
  | cons node next ih =>
    simp only [List.foldl_cons]
    rw [ih, handler_6xN_row cfg hvl ext attr node r i j hi hj]

theorem handler_6x16_row (ext : Externals α)
    (attr : lpgemm_post_op_attr) (node : lpgemm_post_op α) (r : Acc6x16 α) (i j : Nat)
    (hi : i < 6) (hj : j < 16) :
    (handler_6x16 ext attr node r).row i j
      = elem_post_op ext.gelu_tanh_avx2 ext.gelu_erf_avx2 attr i j node (r.row i j) := by
  unfold handler_6x16 elem_post_op
  have hj8 : ¬ j < 8 → j - 8 < 8 := fun h => by omega
  have hadd : ¬ j < 8 → attr.post_op_c_j + 8 + (j - 8) = attr.post_op_c_j + j :=
    fun h => by omega
  cases node.op_code
  · rfl
  · by_cases hc : node.op_args2_char = 'r' ∨ node.op_args2_char = 'R'
    · by_cases h8 : j < 8
      · interval_cases i <;>
          simp [POST_OPS_BIAS_6x16F, hc, Acc6x16.row, _mm256_add_ps, _mm256_loadu_ps,
            load_lanes, h8]
      · interval_cases i <;>
          simp [POST_OPS_BIAS_6x16F, hc, Acc6x16.row, _mm256_add_ps, _mm256_loadu_ps,
            load_lanes, h8, hj8 h8, hadd h8]
    · interval_cases i <;> by_cases h8 : j < 8 <;>
        simp [POST_OPS_BIAS_6x16F, hc, Acc6x16.row, _mm256_add_ps, _mm256_broadcast_ss, h8]
  · interval_cases i <;> by_cases h8 : j < 8 <;>
      simp [POST_OPS_RELU_6x16F, Acc6x16.row, Acc6x16.map, _mm256_max_ps,
        _mm256_setzero_ps, h8]
  · interval_cases i <;> by_cases h8 : j < 8 <;>
      simp [POST_OPS_RELU_SCALE_6x16F, Acc6x16.row, Acc6x16.map, RELU_SCALE_OP_F32S,
        _mm256_set1_ps, _mm256_setzero_ps, h8]
  · interval_cases i <;> by_cases h8 : j < 8 <;>
      simp [POST_OPS_GELU_TANH_6x16F, Acc6x16.row, Acc6x16.map, h8]
  · interval_cases i <;> by_cases h8 : j < 8 <;>
      simp [POST_OPS_GELU_ERF_6x16F, Acc6x16.row, Acc6x16.map, h8]
  · interval_cases i <;> by_cases h8 : j < 8 <;>
      simp [POST_OPS_CLIP_6x16F, Acc6x16.row, Acc6x16.map, CLIP_F32S, _mm256_min_ps,
        _mm256_max_ps, _mm256_set1_ps, h8]

theorem pipeline_6x16_row (ext : Externals α)
    (attr : lpgemm_post_op_attr) (l : List (lpgemm_post_op α)) (r : Acc6x16 α) (i j : Nat)
    (hi : i < 6) (hj : j < 16) :
    (pipeline_6x16 ext attr l r).row i j
      = elem_post_ops ext.gelu_tanh_avx2 ext.gelu_erf_avx2 attr i j l (r.row i j) := by
  unfold pipeline_6x16 elem_post_ops
  generalize effective_ops l = e
  induction e generalizing r with
  | nil => rfl
  | cons node next ih =>
    simp only [List.foldl_cons]
    rw [ih, handler_6x16_row ext attr node r i j hi hj]

theorem store_lanes_eq (n : Nat) (mem : Mem α) (p : Nat) (v : Vec α) (x : Nat) (y : α)
    (h1 : p ≤ x ∧ x < p + n → v (x - p) = y)
    (h2 : ¬ (p ≤ x ∧ x < p + n) → mem x = y) :
    store_lanes n mem p v x = y := by
  rw [store_lanes_apply]
  split_ifs with h
  · exact h1 h
  · exact h2 h

theorem store_6xN_row (cfg : NFringeCfg) (C : Mem α) (cbuf rs_c : Nat) (r : Acc6 α)
    (hrs : cfg.nr ≤ rs_c) (i j : Nat) (hi : i < 6) (hj : j < cfg.nr) :
    store_6xN cfg C cbuf rs_c r (cbuf + i * rs_c + j) = r.row i j := by
  interval_cases i <;>
    simp only [store_6xN, Acc6.row] <;>
    repeat
      (refine store_lanes_eq _ _ _ _ _ _ (fun h => ?_) (fun h => ?_)
       · first | omega | (congr 1; omega)
       try omega)

theorem store_6xN_frame (cfg : NFringeCfg) (C : Mem α) (cbuf rs_c : Nat) (r : Acc6 α)
    (x : Nat) (hx : ∀ i, i < 6 → ∀ j, j < cfg.nr → x ≠ cbuf + i * rs_c + j) :
    store_6xN cfg C cbuf rs_c r x = C x := by
  have h0 := hx 0 (by omega) (x - cbuf)
  have h1 := hx 1 (by omega) (x - (cbuf + rs_c))
  have h2 := hx 2 (by omega) (x - (cbuf + 2 * rs_c))
  have h3 := hx 3 (by omega) (x - (cbuf + 3 * rs_c))
  have h4 := hx 4 (by omega) (x - (cbuf + 4 * rs_c))
  have h5 := hx 5 (by omega) (x - (cbuf + 5 * rs_c))
  simp only [store_6xN]
  repeat
    (refine store_lanes_eq _ _ _ _ _ _ (fun h => ?_) (fun h => ?_)
     · omega)
  rfl

theorem store_6x16_row (C : Mem α) (cbuf rs_c : Nat) (r : Acc6x16 α)
    (hrs : 16 ≤ rs_c) (i j : Nat) (hi : i < 6) (hj : j < 16) :
    store_6x16 C cbuf rs_c r (cbuf + i * rs_c + j) = r.row i j := by
  by_cases h8 : j < 8
  · interval_cases i <;>
      simp only [store_6x16, _mm256_storeu_ps, Acc6x16.row, h8, if_true] <;>
      repeat
        (refine store_lanes_eq _ _ _ _ _ _ (fun h => ?_) (fun h => ?_)
         · first | omega | (congr 1; omega)
         try omega)
  · interval_cases i <;>
      simp only [store_6x16, _mm256_storeu_ps, Acc6x16.row, h8, if_false] <;>
      repeat
        (refine store_lanes_eq _ _ _ _ _ _ (fun h => ?_) (fun h => ?_)
         · first | omega | (congr 1; omega)
         try omega)

theorem store_6x16_frame (C : Mem α) (cbuf rs_c : Nat) (r : Acc6x16 α)
    (x : Nat) (hx : ∀ i, i < 6 → ∀ j, j < 16 → x ≠ cbuf + i * rs_c + j) :
    store_6x16 C cbuf rs_c r x = C x := by
  have h0 := hx 0 (by omega) (x - cbuf)
  have h1 := hx 1 (by omega) (x - (cbuf + rs_c))
  have h2 := hx 2 (by omega) (x - (cbuf + 2 * rs_c))
  have h3 := hx 3 (by omega) (x - (cbuf + 3 * rs_c))
  have h4 := hx 4 (by omega) (x - (cbuf + 4 * rs_c))
  have h5 := hx 5 (by omega) (x - (cbuf + 5 * rs_c))
  simp only [store_6x16, _mm256_storeu_ps]
  repeat
    (refine store_lanes_eq _ _ _ _ _ _ (fun h => ?_) (fun h => ?_)
     · omega)
  rfl

theorem k_state_6x16 (A B : Mem α) (rs_a cs_a rs_b abuf bbuf : Nat)
    (acc : Acc6x16 α) (n : Nat) :
    (for_loop (fun _ s => k_body_6x16 A B rs_a cs_a rs_b s) n
        { abuf := abuf, bbuf := bbuf, acc := acc }).abuf = abuf + n * cs_a
    ∧ (for_loop (fun _ s => k_body_6x16 A B rs_a cs_a rs_b s) n
        { abuf := abuf, bbuf := bbuf, acc := acc }).bbuf = bbuf + n * rs_b
    ∧ ∀ i, i < 6 → ∀ l, l < 16 →
      (for_loop (fun _ s => k_body_6x16 A B rs_a cs_a rs_b s) n
        { abuf := abuf, bbuf := bbuf, acc := acc }).acc.row i l
        = (∑ k ∈ Finset.range n, A (abuf + k * cs_a + i * rs_a) * B (bbuf + k * rs_b + l))
          + acc.row i l := by
  induction n with
  | zero => simp [for_loop]
  | succ n ih =>
    rw [for_loop_succ]
    generalize for_loop (fun _ s => k_body_6x16 A B rs_a cs_a rs_b s) n
      { abuf := abuf, bbuf := bbuf, acc := acc } = s at ih ⊢
    obtain ⟨ha, hb, hacc⟩ := ih
    refine ⟨?_, ?_, ?_⟩
    · simp only [k_body_6x16, ha]; ring
    · simp only [k_body_6x16, hb]; ring
    · intro i hi l hl
      have h := hacc i hi l hl
      rw [Finset.sum_range_succ]
      by_cases h8 : l < 8
      · interval_cases i <;>
          simp only [Acc6x16.row, k_body_6x16, _mm256_fmadd_ps, _mm256_broadcast_ss,
            _mm256_loadu_ps, load_lanes, h8, if_true, ha, hb] at h ⊢ <;>
          rw [h] <;> ring
      · have h8' : l - 8 < 8 := by omega
        have hadd : bbuf + n * rs_b + 8 + (l - 8) = bbuf + n * rs_b + l := by omega
        interval_cases i <;>
          simp only [Acc6x16.row, k_body_6x16, _mm256_fmadd_ps, _mm256_broadcast_ss,
            _mm256_loadu_ps, load_lanes, h8, h8', if_true, if_false, ha, hb, hadd] at h ⊢ <;>
          rw [h] <;> ring

theorem k_loop_6x16_row (A B : Mem α) (p : NArgs α) (m i l : Nat)
    (hi : i < 6) (hl : l < 16) :
    (k_loop_6x16 A B p m).row i l
      = ∑ k ∈ Finset.range p.k0, A_elt A p (6 * m + i) k * B_elt B p k l := by
  have h := (k_state_6x16 A B p.rs_a p.cs_a p.rs_b (p.a + m * p.ps_a) p.b
    zero_acc_6x16 p.k0).2.2 i hi l hl
  have hz : (zero_acc_6x16 : Acc6x16 α).row i l = 0 := by
    interval_cases i <;> simp [Acc6x16.row, zero_acc_6x16, _mm256_setzero_ps]
  rw [hz, add_zero] at h
  rw [k_loop_6x16]
  rw [h]
  apply Finset.sum_congr rfl
  intro k _
  have hq : (6 * m + i) / 6 = m := by omega
  have hr : (6 * m + i) % 6 = i := by omega
  simp only [A_elt, B_elt, hq, hr]
  congr 2
  ring

theorem scaled_6x16_row (A B : Mem α) (p : NArgs α) (m : Nat)
    (C : Mem α) (i l : Nat) (hi : i < 6) (hl : l < 16) :
    (scaled_6x16 A B p m C).row i l
      = p.alpha * (∑ k ∈ Finset.range p.k0, A_elt A p (6 * m + i) k * B_elt B p k l)
        + p.beta * C (C_addr p (6 * m + i) l) := by
  have hk := k_loop_6x16_row A B p m i l hi hl
  by_cases hb : p.beta = 0
  · simp only [scaled_6x16, hb, ne_eq, not_true_eq_false, if_false, zero_mul, add_zero]
    rw [← hk]
    by_cases h8 : l < 8
    · interval_cases i <;>
        simp only [Acc6x16.row, alpha_mul_6x16, Acc6x16.map, _mm256_mul_ps, _mm256_set1_ps,
          h8, if_true] <;>
        ring
    · interval_cases i <;>
        simp only [Acc6x16.row, alpha_mul_6x16, Acc6x16.map, _mm256_mul_ps, _mm256_set1_ps,
          h8, if_false] <;>
        ring
  · simp only [scaled_6x16, hb, ne_eq, not_false_eq_true, if_true]
    rw [← hk]
    by_cases h8 : l < 8
    · have haddr : C_addr p (6 * m + i) l = p.c + m * 6 * p.rs_c + i * p.rs_c + l := by
        simp only [C_addr]; ring
      rw [haddr]
      interval_cases i <;>
        simp only [Acc6x16.row, beta_6x16, F32_C_BNZ, _mm256_fmadd_ps, load_lanes, h8,
          if_true, alpha_mul_6x16, Acc6x16.map, _mm256_mul_ps, _mm256_set1_ps] <;>
        ring_nf
    · have h8' : l - 8 < 8 := by omega
      have haddr : C_addr p (6 * m + i) l
          = p.c + m * 6 * p.rs_c + i * p.rs_c + 8 + (l - 8) := by
        have : l = 8 + (l - 8) := by omega
        simp only [C_addr]
        rw [add_assoc (p.c + m * 6 * p.rs_c + i * p.rs_c), ← this]
        ring
      rw [haddr]
      interval_cases i <;>
        simp only [Acc6x16.row, beta_6x16, F32_C_BNZ, _mm256_fmadd_ps, load_lanes, h8, h8',
          if_true, if_false, alpha_mul_6x16, Acc6x16.map, _mm256_mul_ps, _mm256_set1_ps] <;>
        ring_nf

theorem addr_lt (rs R R' j j' : Nat) (hj : j < rs) (h : R < R') :
    R * rs + j < R' * rs + j' := by
  have h1 := Nat.mul_le_mul_right rs (Nat.succ_le_of_lt h)
  rw [Nat.succ_mul] at h1
  omega

theorem addr_inj (c rs w R R' j j' : Nat) (hrs : w ≤ rs) (hj : j < w) (hj' : j' < w)
    (h : c + R * rs + j = c + R' * rs + j') : R = R' ∧ j = j' := by
  rcases Nat.lt_trichotomy R R' with hlt | heq | hgt
  · have := addr_lt rs R R' j j' (by omega) hlt
    omega
  · subst heq
    exact ⟨rfl, by omega⟩
  · have := addr_lt rs R' R j' j (by omega) hgt
    omega

/-- The loop invariant of the `m` loop, for any row-group body that writes its own six
rows of width `w` from the cursor and the old contents of those rows. -/
theorem m_loop_inv (w rs_c c : Nat) (hrs : w ≤ rs_c)
    (rg : Nat → Mem α × lpgemm_post_op_attr → Mem α × lpgemm_post_op_attr)
    (val : lpgemm_post_op_attr → Nat → Nat → Nat → α → α)
    (hrg : ∀ m C' attr',
      (rg m (C', attr')).2 = { attr' with post_op_c_i := attr'.post_op_c_i + 6 }
      ∧ (∀ i, i < 6 → ∀ j, j < w →
          (rg m (C', attr')).1 (c + (6 * m + i) * rs_c + j)
            = val attr' m i j (C' (c + (6 * m + i) * rs_c + j)))
      ∧ (∀ x, (∀ i, i < 6 → ∀ j, j < w → x ≠ c + (6 * m + i) * rs_c + j) →
          (rg m (C', attr')).1 x = C' x))
    (C : Mem α) (attr : lpgemm_post_op_attr) (n : Nat) :
    (for_loop rg n (C, attr)).2
        = { post_op_c_i := attr.post_op_c_i + 6 * n, post_op_c_j := attr.post_op_c_j }
    ∧ (∀ m, m < n → ∀ i, i < 6 → ∀ j, j < w →
        (for_loop rg n (C, attr)).1 (c + (6 * m + i) * rs_c + j)
          = val { post_op_c_i := attr.post_op_c_i + 6 * m, post_op_c_j := attr.post_op_c_j }
              m i j (C (c + (6 * m + i) * rs_c + j)))
    ∧ (∀ x, (∀ m, m < n → ∀ i, i < 6 → ∀ j, j < w → x ≠ c + (6 * m + i) * rs_c + j) →
        (for_loop rg n (C, attr)).1 x = C x) := by
  induction n with
  | zero =>
    refine ⟨rfl, ?_, ?_⟩
    · intro m hm; omega
    · intro x _; rfl
  | succ n ih =>
    rw [for_loop_succ]
    generalize for_loop rg n (C, attr) = st at ih ⊢
    obtain ⟨C', attr'⟩ := st
    obtain ⟨hattr, hval, hframe⟩ := ih
    obtain ⟨h1, h2, h3⟩ := hrg n C' attr'
    simp only at hattr hval hframe
    refine ⟨?_, ?_, ?_⟩
    · rw [h1, hattr]
      simp only [lpgemm_post_op_attr.mk.injEq, and_true]
      ring
    · intro m hm i hi j hj
      by_cases hmn : m = n
      · subst hmn
        rw [h2 i hi j hj, hattr]
        congr 1
        apply hframe
        intro m' hm' i' hi' j' hj' heq
        have := (addr_inj c rs_c w _ _ j j' hrs hj hj' heq).1
        omega
      · have hlt : m < n := by omega
        rw [h3, hval m hlt i hi j hj]
        intro i' hi' j' hj' heq
        have := (addr_inj c rs_c w _ _ j j' hrs hj hj' heq).1
        omega
    · intro x hx
      rw [h3, hframe]
      · intro m hm i hi j hj
        exact hx m (by omega) i hi j hj
      · intro i hi j hj
        exact hx n (by omega) i hi j hj

theorem row_group_6xN_spec (cfg : NFringeCfg) (hvl : cfg.nr ≤ cfg.vl) (ext : Externals α)
    (A B : Mem α) (p : NArgs α) (hrs : cfg.nr ≤ p.rs_c) (m : Nat) (C' : Mem α)
    (attr' : lpgemm_post_op_attr) :
    (row_group_6xN cfg ext A B p m (C', attr')).2
        = { attr' with post_op_c_i := attr'.post_op_c_i + 6 }
    ∧ (∀ i, i < 6 → ∀ j, j < cfg.nr →
        (row_group_6xN cfg ext A B p m (C', attr')).1 (p.c + (6 * m + i) * p.rs_c + j)
          = elem_post_ops (cfg.gelu_tanh ext) (cfg.gelu_erf ext) attr' i j p.post_ops_list
              (p.alpha * (∑ k ∈ Finset.range p.k0,
                  A_elt A p (6 * m + i) k * B_elt B p k j)
                + p.beta * C' (p.c + (6 * m + i) * p.rs_c + j)))
    ∧ (∀ x, (∀ i, i < 6 → ∀ j, j < cfg.nr → x ≠ p.c + (6 * m + i) * p.rs_c + j) →
        (row_group_6xN cfg ext A B p m (C', attr')).1 x = C' x) := by
  have haddr : ∀ i j, p.c + (6 * m + i) * p.rs_c + j = p.c + m * 6 * p.rs_c + i * p.rs_c + j := by
    intro i j; ring
  refine ⟨rfl, ?_, ?_⟩
  · intro i hi j hj
    simp only [row_group_6xN]
    rw [haddr, store_6xN_row cfg _ _ _ _ hrs i j hi hj, post_ops_6xN_eq_pipeline,
      pipeline_6xN_row cfg hvl ext _ _ _ i j hi hj, scaled_6xN_row cfg A B p m C' i j hi hj,
      C_addr, haddr]
  · intro x hx
    simp only [row_group_6xN]
    apply store_6xN_frame
    intro i hi j hj
    rw [← haddr]
    exact hx i hi j hj

theorem row_group_6x16_spec (ext : Externals α)
    (A B : Mem α) (p : NArgs α) (hrs : 16 ≤ p.rs_c) (m : Nat) (C' : Mem α)
    (attr' : lpgemm_post_op_attr) :
    (row_group_6x16 ext A B p m (C', attr')).2
        = { attr' with post_op_c_i := attr'.post_op_c_i + 6 }
    ∧ (∀ i, i < 6 → ∀ j, j < 16 →
        (row_group_6x16 ext A B p m (C', attr')).1 (p.c + (6 * m + i) * p.rs_c + j)
          = elem_post_ops ext.gelu_tanh_avx2 ext.gelu_erf_avx2 attr' i j p.post_ops_list
              (p.alpha * (∑ k ∈ Finset.range p.k0,
                  A_elt A p (6 * m + i) k * B_elt B p k j)
                + p.beta * C' (p.c + (6 * m + i) * p.rs_c + j)))
    ∧ (∀ x, (∀ i, i < 6 → ∀ j, j < 16 → x ≠ p.c + (6 * m + i) * p.rs_c + j) →
        (row_group_6x16 ext A B p m (C', attr')).1 x = C' x) := by
  have haddr : ∀ i j, p.c + (6 * m + i) * p.rs_c + j = p.c + m * 6 * p.rs_c + i * p.rs_c + j := by
    intro i j; ring
  refine ⟨rfl, ?_, ?_⟩
  · intro i hi j hj
    simp only [row_group_6x16]
    rw [haddr, store_6x16_row _ _ _ _ hrs i j hi hj, post_ops_6x16_eq_pipeline,
      pipeline_6x16_row ext _ _ _ i j hi hj, scaled_6x16_row A B p m C' i j hi hj,
      C_addr, haddr]
  · intro x hx
    simp only [row_group_6x16]
    apply store_6x16_frame
    intro i hi j hj
    rw [← haddr]
    exact hx i hi j hj

/-- The `m` loop of an N-fringe kernel after `n` row groups: rows `0 .. 6n-1` hold the
output values, everything else is untouched, the cursor row index has advanced. -/
theorem m_loop_6xN_spec (cfg : NFringeCfg) (hvl : cfg.nr ≤ cfg.vl) (ext : Externals α)
    (A B : Mem α) (p : NArgs α) (hrs : cfg.nr ≤ p.rs_c) (C : Mem α) (n : Nat) :
    (for_loop (row_group_6xN cfg ext A B p) n (C, p.post_ops_attr)).2
        = { post_op_c_i := p.post_ops_attr.post_op_c_i + 6 * n,
            post_op_c_j := p.post_ops_attr.post_op_c_j }
    ∧ (∀ R, R < 6 * n → ∀ j, j < cfg.nr →
        (for_loop (row_group_6xN cfg ext A B p) n (C, p.post_ops_attr)).1 (C_addr p R j)
          = out_val (cfg.gelu_tanh ext) (cfg.gelu_erf ext) A B p C R j)
    ∧ (∀ x, (∀ R, R < 6 * n → ∀ j, j < cfg.nr → x ≠ C_addr p R j) →
        (for_loop (row_group_6xN cfg ext A B p) n (C, p.post_ops_attr)).1 x = C x) := by
  obtain ⟨h1, h2, h3⟩ := m_loop_inv cfg.nr p.rs_c p.c hrs (row_group_6xN cfg ext A B p)
    (fun attr' m i j x =>
      elem_post_ops (cfg.gelu_tanh ext) (cfg.gelu_erf ext) attr' i j p.post_ops_list
        (p.alpha * (∑ k ∈ Finset.range p.k0, A_elt A p (6 * m + i) k * B_elt B p k j)
          + p.beta * x))
    (fun m C' attr' => row_group_6xN_spec cfg hvl ext A B p hrs m C' attr')
    C p.post_ops_attr n
  refine ⟨h1, ?_, ?_⟩
  · intro R hR j hj
    have hdm : 6 * (R / 6) + R % 6 = R := Nat.div_add_mod R 6
    have := h2 (R / 6) (by omega) (R % 6) (Nat.mod_lt _ (by decide)) j hj
    rw [hdm] at this
    simp only [C_addr, out_val, gemm_ref]
    rw [this]
  · intro x hx
    apply h3
    intro m hm i hi j hj
    exact hx (6 * m + i) (by omega) j hj

/-- The `m` loop of the main kernel after `n` row groups. -/
theorem m_loop_6x16_spec (ext : Externals α)
    (A B : Mem α) (p : NArgs α) (hrs : 16 ≤ p.rs_c) (C : Mem α) (n : Nat) :
    (for_loop (row_group_6x16 ext A B p) n (C, p.post_ops_attr)).2
        = { post_op_c_i := p.post_ops_attr.post_op_c_i + 6 * n,
            post_op_c_j := p.post_ops_attr.post_op_c_j }
    ∧ (∀ R, R < 6 * n → ∀ j, j < 16 →
        (for_loop (row_group_6x16 ext A B p) n (C, p.post_ops_attr)).1 (C_addr p R j)
          = out_val ext.gelu_tanh_avx2 ext.gelu_erf_avx2 A B p C R j)
    ∧ (∀ x, (∀ R, R < 6 * n → ∀ j, j < 16 → x ≠ C_addr p R j) →
        (for_loop (row_group_6x16 ext A B p) n (C, p.post_ops_attr)).1 x = C x) := by
  obtain ⟨h1, h2, h3⟩ := m_loop_inv 16 p.rs_c p.c hrs (row_group_6x16 ext A B p)
    (fun attr' m i j x =>
      elem_post_ops ext.gelu_tanh_avx2 ext.gelu_erf_avx2 attr' i j p.post_ops_list
        (p.alpha * (∑ k ∈ Finset.range p.k0, A_elt A p (6 * m + i) k * B_elt B p k j)
          + p.beta * x))
    (fun m C' attr' => row_group_6x16_spec ext A B p hrs m C' attr')
    C p.post_ops_attr n
  refine ⟨h1, ?_, ?_⟩
  · intro R hR j hj
    have hdm : 6 * (R / 6) + R % 6 = R := Nat.div_add_mod R 6
    have := h2 (R / 6) (by omega) (R % 6) (Nat.mod_lt _ (by decide)) j hj
    rw [hdm] at this
    simp only [C_addr, out_val, gemm_ref]
    rw [this]
  · intro x hx
    apply h3
    intro m hm i hi j hj
    exact hx (6 * m + i) (by omega) j hj

/-- An N-fringe kernel on a whole number of row groups: it returns, rows `0 .. m0-1` and
columns `0 .. nr-1` hold the output values and nothing else is written. -/
theorem lpgemm_rowvar_6xNm_spec (cfg : NFringeCfg) (hvl : cfg.nr ≤ cfg.vl)
    (ext : Externals α) (A B : Mem α) (p : NArgs α) (hrs : cfg.nr ≤ p.rs_c)
    (hm : p.m0 % 6 = 0) (C : Mem α) :
    ∃ res, lpgemm_rowvar_6xNm cfg ext A B p C = some res
      ∧ res.calls = []
      ∧ (∀ R, R < p.m0 → ∀ j, j < cfg.nr →
          res.c (C_addr p R j) = out_val (cfg.gelu_tanh ext) (cfg.gelu_erf ext) A B p C R j)
      ∧ (∀ x, (∀ R, R < p.m0 → ∀ j, j < cfg.nr → x ≠ C_addr p R j) → res.c x = C x) := by
  obtain ⟨_, h2, h3⟩ := m_loop_6xN_spec cfg hvl ext A B p hrs C (p.m0 / 6)
  have h6 : 6 * (p.m0 / 6) = p.m0 := by omega
  rw [h6] at h2 h3
  refine ⟨{ c := (for_loop (row_group_6xN cfg ext A B p) (p.m0 / 6)
                    (C, p.post_ops_attr)).1,
             post_ops_attr := (for_loop (row_group_6xN cfg ext A B p) (p.m0 / 6)
                    (C, p.post_ops_attr)).2,
             calls := [] }, ?_, rfl, h2, h3⟩
  rw [lpgemm_rowvar_6xNm]
  exact consider_edge_cases_of_mod_eq_zero ext cfg.nr A B p _ _ hm

/-- The main kernel on a full-width tile and a whole number of row groups. -/
theorem lpgemm_rowvar_6x16m_spec (ext : Externals α) (A B : Mem α) (p : MainArgs α)
    (hn : p.n0 % 16 = 0) (hrs : 16 ≤ p.rs_c) (hm : p.m0 % 6 = 0) (C : Mem α) :
    ∃ res, lpgemm_rowvar_f32f32f32of32_6x16m ext A B p C = some res
      ∧ res.calls = []
      ∧ (∀ R, R < p.m0 → ∀ j, j < 16 →
          res.c (C_addr p.toNArgs R j)
            = out_val ext.gelu_tanh_avx2 ext.gelu_erf_avx2 A B p.toNArgs C R j)
      ∧ (∀ x, (∀ R, R < p.m0 → ∀ j, j < 16 → x ≠ C_addr p.toNArgs R j) → res.c x = C x) := by
  obtain ⟨_, h2, h3⟩ := m_loop_6x16_spec ext A B p.toNArgs hrs C (p.m0 / 6)
  have h6 : 6 * (p.m0 / 6) = p.m0 := by omega
  rw [h6] at h2 h3
  refine ⟨{ c := (for_loop (row_group_6x16 ext A B p.toNArgs) (p.m0 / 6)
                    (C, p.post_ops_attr)).1,
             post_ops_attr := (for_loop (row_group_6x16 ext A B p.toNArgs) (p.m0 / 6)
                    (C, p.post_ops_attr)).2,
             calls := [] }, ?_, rfl, h2, h3⟩
  rw [lpgemm_rowvar_f32f32f32of32_6x16m]
  simp only [hn, ne_eq, not_true_eq_false, if_false]
  exact consider_edge_cases_of_mod_eq_zero ext 16 A B p.toNArgs _ _ hm

theorem effective_ops_nil : effective_ops ([] : List (lpgemm_post_op α)) = [] := rfl

theorem out_val_nil (gt ge : α → α) (A B : Mem α) (p : NArgs α) (C : Mem α) (R j : Nat)
    (hl : p.post_ops_list = []) :
    out_val gt ge A B p C R j = gemm_ref A B p C R j := by
  simp [out_val, elem_post_ops, hl, effective_ops]

/-! ### C1 -/

/-- Claim C1. Over exact arithmetic, for every `k0`, every `m0` that is a multiple of 6
(in particular every positive one), `n0 = 16` and an empty post-op sequence, the main
kernel returns and leaves in
`c[i*rs_c + j]`, for every row `i < m0` and column `j < 16`, the value
`alpha * sum_{k<k0} A[i,k]*B[k,j] + beta * C_old[i,j]` (the beta term vanishes when
`beta = 0`), with `A[i,k] = a[(i/6)*ps_a + (i%6)*rs_a + k*cs_a]` and
`B[k,j] = b[k*rs_b + j]`. The output tile is a row-major matrix: its rows of 16 elements
do not overlap (`16 ≤ rs_c`). -/
theorem C1_main_kernel_matches_reference (ext : Externals α) (A B C : Mem α)
    (p : MainArgs α) (hm6 : p.m0 % 6 = 0) (hn : p.n0 = 16)
    (hl : p.post_ops_list = []) (hrs : 16 ≤ p.rs_c) :
    ∃ res, lpgemm_rowvar_f32f32f32of32_6x16m ext A B p C = some res
      ∧ ∀ i, i < p.m0 → ∀ j, j < 16 →
          res.c (p.c + i * p.rs_c + j)
            = p.alpha * (∑ k ∈ Finset.range p.k0,
                A (p.a + (i / 6) * p.ps_a + (i % 6) * p.rs_a + k * p.cs_a)
                  * B (p.b + k * p.rs_b + j))
              + p.beta * C (p.c + i * p.rs_c + j) := by
  obtain ⟨res, hres, _, hval, _⟩ :=
    lpgemm_rowvar_6x16m_spec ext A B p (by rw [hn]) hrs hm6 C
  refine ⟨res, hres, ?_⟩
  intro i hi j hj
  have h := hval i hi j hj
  rw [out_val_nil _ _ _ _ _ _ _ _ hl] at h
  exact h

theorem elem_post_op_shift (gt ge : α → α) (ci cj off i j : Nat) (node : lpgemm_post_op α)
    (x : α) :
    elem_post_op gt ge { post_op_c_i := ci, post_op_c_j := cj + off } i j node x
      = elem_post_op gt ge { post_op_c_i := ci, post_op_c_j := cj } i (off + j) node x := by
  unfold elem_post_op
  cases node.op_code <;> simp only [add_assoc]

theorem elem_post_ops_shift (gt ge : α → α) (ci cj off i j : Nat)
    (l : List (lpgemm_post_op α)) (x : α) :
    elem_post_ops gt ge { post_op_c_i := ci, post_op_c_j := cj + off } i j l x
      = elem_post_ops gt ge { post_op_c_i := ci, post_op_c_j := cj } i (off + j) l x := by
  unfold elem_post_ops
  generalize effective_ops l = e
  induction e generalizing x with
  | nil => rfl
  | cons node next ih =>
    simp only [List.foldl_cons]
    rw [ih, elem_post_op_shift]

/-- One call of the chain: the N-fringe kernel of widths `cfg`, called at column offset
`off`, returns and extends the finished columns from `off` to `off + cfg.nr`. -/
theorem chunk_call_spec (cfg : NFringeCfg) (hvl : cfg.nr ≤ cfg.vl) (ext : Externals α)
    (A B : Mem α) (p : MainArgs α) (C : Mem α) (n0 off : Nat) (s : NChain α)
    (hcb : p.cs_b = 1) (hcc : p.cs_c = 1) (hm : p.m0 % 6 = 0) (hn : n0 ≤ p.rs_c)
    (hoff : off + cfg.nr ≤ n0)
    (hcfg : ∀ J, off ≤ J → J < off + cfg.nr → chunk_of n0 J = cfg)
    (hptr : ChainPtr p n0 off s) (hmem : ChainMem ext A B p C n0 off s.C) :
    ∃ res, lpgemm_rowvar_6xNm cfg ext A B (n_fringe_args p s) s.C = some res
      ∧ ChainMem ext A B p C n0 (off + cfg.nr) res.c := by
  obtain ⟨hcij, hbj, _, hattr⟩ := hptr
  obtain ⟨hold, hfr⟩ := hmem
  rw [hcc, Nat.mul_one] at hcij
  rw [hcb, Nat.mul_one] at hbj
  obtain ⟨res, hres, _, hval, hframe⟩ :=
    lpgemm_rowvar_6xNm_spec cfg hvl ext A B (n_fringe_args p s)
      (show cfg.nr ≤ p.rs_c by omega) hm s.C
  have E1 : ∀ R j, C_addr (n_fringe_args p s) R j = C_addr p.toNArgs R (off + j) := by
    intro R j
    simp only [C_addr, n_fringe_args, hcij]
    omega
  have hne : ∀ R j, j < cfg.nr → ∀ R' J', J' < off →
      C_addr p.toNArgs R (off + j) ≠ C_addr p.toNArgs R' J' := by
    intro R j hj R' J' hJ' heq
    have := (addr_inj p.c p.rs_c n0 R R' (off + j) J' hn (by omega) (by omega) heq).2
    omega
  have E2 : ∀ R, R < p.m0 → ∀ j, j < cfg.nr →
      out_val (cfg.gelu_tanh ext) (cfg.gelu_erf ext) A B (n_fringe_args p s) s.C R j
        = chain_out_val ext A B p C n0 R (off + j) := by
    intro R _ j hj
    have hC : s.C (C_addr p.toNArgs R (off + j)) = C (C_addr p.toNArgs R (off + j)) :=
      hfr _ (fun R' _ J' hJ' => hne R j hj R' J' hJ')
    have hB : ∀ k, B_elt B (n_fringe_args p s) k j = B_elt B p.toNArgs k (off + j) := by
      intro k
      simp only [B_elt, n_fringe_args, hbj]
      congr 1
      omega
    have hg : gemm_ref A B (n_fringe_args p s) s.C R j
        = gemm_ref A B p.toNArgs C R (off + j) := by
      simp only [gemm_ref, E1, hC, hB]
      rfl
    simp only [chain_out_val, out_val, hcfg (off + j) (by omega) (by omega), hg]
    have hl : (n_fringe_args p s).post_ops_list = p.post_ops_list := rfl
    have ha : (n_fringe_args p s).post_ops_attr = s.post_ops_attr := rfl
    rw [hl, ha, hattr]
    exact elem_post_ops_shift _ _ _ _ _ _ _ _ _
  refine ⟨res, hres, ?_, ?_⟩
  · intro R hR J hJ
    by_cases hJo : J < off
    · rw [hframe, hold R hR J hJo]
      intro R' _ j' hj'
      rw [E1]
      exact fun h => hne R' j' hj' R J hJo h.symm
    · have hJe : J = off + (J - off) := by omega
      rw [hJe, ← E1, hval R hR (J - off) (by omega), E2 R hR (J - off) (by omega)]
  · intro x hx
    rw [hframe, hfr]
    · intro R hR J hJ
      exact hx R hR J (by omega)
    · intro R hR j hj
      rw [E1]
      exact hx R hR (off + j) (by omega)

theorem consider_edge_cases_isSome (ext : Externals α) (w : Nat) (A B : Mem α)
    (p : NArgs α) (C : Mem α) (attr : lpgemm_post_op_attr) :
    ∃ res, consider_edge_cases ext w A B p C attr = some res := by
  by_cases hm : p.m0 % 6 = 0
  · exact ⟨_, consider_edge_cases_of_mod_eq_zero ext w A B p C attr hm⟩
  · exact ⟨_, consider_edge_cases_of_mod_ne_zero ext w A B p C attr hm⟩

theorem lpgemm_rowvar_6xNm_isSome (cfg : NFringeCfg) (ext : Externals α) (A B : Mem α)
    (p : NArgs α) (C : Mem α) :
    ∃ res, lpgemm_rowvar_6xNm cfg ext A B p C = some res :=
  consider_edge_cases_isSome ext cfg.nr A B p _ _

theorem chain_call_eq (p : MainArgs α) (n0 off w : Nat) (s : NChain α)
    (hptr : ChainPtr p n0 off s) :
    Call.n_fringe ⟨w⟩ (n_fringe_args p s) = chain_call p off w := by
  obtain ⟨hcij, hbj, _, hattr⟩ := hptr
  simp only [chain_call, n_fringe_args, hcij, hbj, hattr]

/-- One optional block of the chain, without the memory contents: it returns, and
either the block ran (one more call, `nr` more columns consumed) or nothing changed. -/
theorem opt_block_spec (cfg : NFringeCfg) (ext : Externals α) (A B : Mem α)
    (p : MainArgs α) (n0 off : Nat) (s : NChain α) (hptr : ChainPtr p n0 off s) :
    ∃ s', (if cfg.nr ≤ s.n_left then
            n_fringe_block ⟨cfg.nr⟩ (lpgemm_rowvar_6xNm cfg ext A B) cfg.nr p s
          else some s) = some s'
      ∧ ((cfg.nr ≤ n0 - off ∧ ChainPtr p n0 (off + cfg.nr) s'
            ∧ s'.calls = s.calls ++ [chain_call p off cfg.nr]
            ∧ ∃ res, lpgemm_rowvar_6xNm cfg ext A B (n_fringe_args p s) s.C = some res
                ∧ s'.C = res.c)
          ∨ (¬ cfg.nr ≤ n0 - off ∧ s' = s)) := by
  have hnl : s.n_left = n0 - off := hptr.2.2.1
  by_cases hc : cfg.nr ≤ n0 - off
  · obtain ⟨res, hres⟩ := lpgemm_rowvar_6xNm_isSome cfg ext A B (n_fringe_args p s) s.C
    rw [if_pos (by rw [hnl]; exact hc)]
    simp only [n_fringe_block, hres]
    refine ⟨_, rfl, Or.inl ⟨hc, ?_, ?_, res, rfl, rfl⟩⟩
    · obtain ⟨hcij, hbj, _, hattr⟩ := hptr
      refine ⟨?_, ?_, ?_, ?_⟩
      · simp only [hcij]; ring
      · simp only [hbj]; ring
      · simp only [hnl]; omega
      · simp only [hattr, lpgemm_post_op_attr.mk.injEq, true_and]; ring
    · simp only [chain_call_eq p n0 off cfg.nr s hptr]
  · rw [if_neg (by rw [hnl]; exact hc)]
    exact ⟨s, rfl, Or.inr ⟨hc, rfl⟩⟩

/-- The last block of the chain, `if ( 1 == n_left )`, without the memory contents. -/
theorem last_block_spec (ext : Externals α) (A B : Mem α)
    (p : MainArgs α) (n0 off : Nat) (s : NChain α) (hptr : ChainPtr p n0 off s) :
    ∃ s', (if 1 = s.n_left then
            n_fringe_last ⟨1⟩ (lpgemm_rowvar_6xNm cfg_6x1 ext A B) p s
          else some s) = some s'
      ∧ ((1 = n0 - off
            ∧ s'.calls = s.calls ++ [chain_call p off 1]
            ∧ ∃ res, lpgemm_rowvar_6xNm cfg_6x1 ext A B (n_fringe_args p s) s.C = some res
                ∧ s'.C = res.c)
          ∨ (¬ 1 = n0 - off ∧ s' = s)) := by
  have hnl : s.n_left = n0 - off := hptr.2.2.1
  by_cases hc : 1 = n0 - off
  · obtain ⟨res, hres⟩ := lpgemm_rowvar_6xNm_isSome cfg_6x1 ext A B (n_fringe_args p s) s.C
    rw [if_pos (by rw [hnl]; exact hc)]
    simp only [n_fringe_last, hres]
    refine ⟨_, rfl, Or.inl ⟨hc, ?_, res, rfl, rfl⟩⟩
    simp only [chain_call_eq p n0 off 1 s hptr]
  · rw [if_neg (by rw [hnl]; exact hc)]
    exact ⟨s, rfl, Or.inr ⟨hc, rfl⟩⟩

/-- One optional block of the chain, with the memory contents. `off` columns are
finished before the block and `off'` after it. -/
theorem chain_step (cfg : NFringeCfg) (hvl : cfg.nr ≤ cfg.vl) (ext : Externals α)
    (A B : Mem α) (p : MainArgs α) (C : Mem α) (n0 off off' : Nat) (s : NChain α)
    (L : List (Call α))
    (hyes : cfg.nr ≤ n0 - off → off + cfg.nr = off' ∧ off' ≤ n0
      ∧ ∀ J, off ≤ J → J < off + cfg.nr → chunk_of n0 J = cfg)
    (hno : ¬ cfg.nr ≤ n0 - off → off = off')
    (hptr : ChainPtr p n0 off s) (hcalls : s.calls = L)
    (hmem : p.cs_b = 1 → p.cs_c = 1 → p.m0 % 6 = 0 → n0 ≤ p.rs_c →
      ChainMem ext A B p C n0 off s.C) :
    ∃ s', (if cfg.nr ≤ s.n_left then
            n_fringe_block ⟨cfg.nr⟩ (lpgemm_rowvar_6xNm cfg ext A B) cfg.nr p s
          else some s) = some s'
      ∧ ChainPtr p n0 off' s'
      ∧ s'.calls = L ++ (if cfg.nr ≤ n0 - off then [chain_call p off cfg.nr] else [])
      ∧ (p.cs_b = 1 → p.cs_c = 1 → p.m0 % 6 = 0 → n0 ≤ p.rs_c →
          ChainMem ext A B p C n0 off' s'.C) := by
  obtain ⟨s', he, hs⟩ := opt_block_spec cfg ext A B p n0 off s hptr
  refine ⟨s', he, ?_⟩
  rcases hs with ⟨hc, hptr', hcalls', res, hres, hC⟩ | ⟨hc, rfl⟩
  · obtain ⟨ho, hle, hcfg⟩ := hyes hc
    rw [← ho]
    refine ⟨hptr', ?_, ?_⟩
    · rw [hcalls', hcalls, if_pos hc]
    · intro hcb hcc hm hn
      obtain ⟨res', hres', hmem'⟩ := chunk_call_spec cfg hvl ext A B p C n0 off s hcb hcc hm hn
        (by omega) hcfg hptr (hmem hcb hcc hm hn)
      rw [hres] at hres'
      cases hres'
      rw [hC]
      exact hmem'
  · rw [← hno hc]
    refine ⟨hptr, ?_, hmem⟩
    rw [hcalls, if_neg hc, List.append_nil]

/-- The last block of the chain, with the memory contents. -/
theorem chain_last (ext : Externals α)
    (A B : Mem α) (p : MainArgs α) (C : Mem α) (n0 off : Nat) (s : NChain α)
    (L : List (Call α))
    (hyes : 1 = n0 - off → ∀ J, off ≤ J → J < off + 1 → chunk_of n0 J = cfg_6x1)
    (hno : ¬ 1 = n0 - off → off = n0)
    (hptr : ChainPtr p n0 off s) (hcalls : s.calls = L)
    (hmem : p.cs_b = 1 → p.cs_c = 1 → p.m0 % 6 = 0 → n0 ≤ p.rs_c →
      ChainMem ext A B p C n0 off s.C) :
    ∃ s', (if 1 = s.n_left then
            n_fringe_last ⟨1⟩ (lpgemm_rowvar_6xNm cfg_6x1 ext A B) p s
          else some s) = some s'
      ∧ s'.calls = L ++ (if 1 = n0 - off then [chain_call p off 1] else [])
      ∧ (p.cs_b = 1 → p.cs_c = 1 → p.m0 % 6 = 0 → n0 ≤ p.rs_c →
          ChainMem ext A B p C n0 n0 s'.C) := by
  obtain ⟨s', he, hs⟩ := last_block_spec ext A B p n0 off s hptr
  refine ⟨s', he, ?_⟩
  rcases hs with ⟨hc, hcalls', res, hres, hC⟩ | ⟨hc, rfl⟩
  · refine ⟨?_, ?_⟩
    · rw [hcalls', hcalls, if_pos hc]
    · intro hcb hcc hm hn
      obtain ⟨res', hres', hmem'⟩ := chunk_call_spec cfg_6x1 (by decide) ext A B p C n0 off s
        hcb hcc hm hn (by show off + 1 ≤ n0; omega) (hyes hc) hptr (hmem hcb hcc hm hn)
      rw [hres] at hres'
      cases hres'
      rw [hC]
      have h1 : off + cfg_6x1.nr = n0 := by show off + 1 = n0; omega
      rw [h1] at hmem'
      exact hmem'
  · have ho := hno hc
    subst ho
    refine ⟨?_, hmem⟩
    rw [hcalls, if_neg hc, List.append_nil]

/-- The N-fringe chain of the main kernel for `1 ≤ n0 ≤ 15`: it returns, its calls are
those of the binary expansion of `n0`, and (for unit column strides, a whole number of
row groups and rows of C that do not overlap) all `n0` columns hold the output
values. -/
theorem n_fringe_chain_spec (ext : Externals α) (A B : Mem α) (p : MainArgs α)
    (C : Mem α) (n0 : Nat) (h1 : 1 ≤ n0) (h15 : n0 ≤ 15) :
    ∃ s, n_fringe_chain ext A B p C n0 = some s
      ∧ s.calls = chain_calls p 0 (binary_widths n0)
      ∧ (p.cs_b = 1 → p.cs_c = 1 → p.m0 % 6 = 0 → n0 ≤ p.rs_c →
          ChainMem ext A B p C n0 n0 s.C) := by
  have hp0 : ChainPtr p n0 0 (n_fringe_init p C n0) := by
    refine ⟨?_, ?_, ?_, ?_⟩ <;> simp [n_fringe_init]
  have hm0 : p.cs_b = 1 → p.cs_c = 1 → p.m0 % 6 = 0 → n0 ≤ p.rs_c →
      ChainMem ext A B p C n0 0 C := by
    intro _ _ _ _
    exact ⟨fun R _ J hJ => absurd hJ (Nat.not_lt_zero J), fun x _ => rfl⟩
  obtain ⟨s1, he1, hp1, hc1, hm1⟩ := chain_step cfg_6x8 (by decide) ext A B p C n0 0
    (n0 - n0 % 8) _ []
    (by
      intro hc
      have hc' : 8 ≤ n0 - 0 := hc
      refine ⟨by show 0 + 8 = _; omega, by omega, ?_⟩
      intro J hJ1 hJ2
      have hJ2' : J < 0 + 8 := hJ2
      simp only [chunk_of]
      split_ifs <;> first | rfl | omega)
    (by
      intro hc
      have hc' : ¬ 8 ≤ n0 - 0 := hc
      omega)
    hp0 rfl hm0
  obtain ⟨s2, he2, hp2, hc2, hm2⟩ := chain_step cfg_6x4 (by decide) ext A B p C n0
    (n0 - n0 % 8) (n0 - n0 % 4) s1 _
    (by
      intro hc
      have hc' : 4 ≤ n0 - (n0 - n0 % 8) := hc
      refine ⟨by show (n0 - n0 % 8) + 4 = _; omega, by omega, ?_⟩
      intro J hJ1 hJ2
      have hJ2' : J < (n0 - n0 % 8) + 4 := hJ2
      simp only [chunk_of]
      split_ifs <;> first | rfl | omega)
    (by
      intro hc
      have hc' : ¬ 4 ≤ n0 - (n0 - n0 % 8) := hc
      omega)
    hp1 hc1 hm1
  obtain ⟨s3, he3, hp3, hc3, hm3⟩ := chain_step cfg_6x2 (by decide) ext A B p C n0
    (n0 - n0 % 4) (n0 - n0 % 2) s2 _
    (by
      intro hc
      have hc' : 2 ≤ n0 - (n0 - n0 % 4) := hc
      refine ⟨by show (n0 - n0 % 4) + 2 = _; omega, by omega, ?_⟩
      intro J hJ1 hJ2
      have hJ2' : J < (n0 - n0 % 4) + 2 := hJ2
      simp only [chunk_of]
      split_ifs <;> first | rfl | omega)
    (by
      intro hc
      have hc' : ¬ 2 ≤ n0 - (n0 - n0 % 4) := hc
      omega)
    hp2 hc2 hm2
  obtain ⟨s4, he4, hc4, hm4⟩ := chain_last ext A B p C n0 (n0 - n0 % 2) s3 _
    (by
      intro hc J hJ1 hJ2
      simp only [chunk_of]
      split_ifs <;> first | rfl | omega)
    (by intro hc; omega)
    hp3 hc3 hm3
  refine ⟨s4, ?_, ?_, hm4⟩
  · simp only [n_fringe_chain]
    have he1' : (if 8 ≤ (n_fringe_init p C n0).n_left then
        n_fringe_block ⟨8⟩ (lpgemm_rowvar_f32f32f32of32_6x8m ext A B) 8 p
          (n_fringe_init p C n0)
        else some (n_fringe_init p C n0)) = some s1 := he1
    have he2' : (if 4 ≤ s1.n_left then
        n_fringe_block ⟨4⟩ (lpgemm_rowvar_f32f32f32of32_6x4m ext A B) 4 p s1
        else some s1) = some s2 := he2
    have he3' : (if 2 ≤ s2.n_left then
        n_fringe_block ⟨2⟩ (lpgemm_rowvar_f32f32f32of32_6x2m ext A B) 2 p s2
        else some s2) = some s3 := he3
    have he4' : (if 1 = s3.n_left then
        n_fringe_last ⟨1⟩ (lpgemm_rowvar_f32f32f32of32_6x1m ext A B) p s3
        else some s3) = some s4 := he4
    rw [he1', Option.some_bind, he2', Option.some_bind, he3', Option.some_bind, he4']
  · rw [hc4]
    clear he1 he2 he3 he4 hm1 hm2 hm3 hm4 hp1 hp2 hp3 hc1 hc2 hc3 hc4 hm0 hp0
    interval_cases n0 <;> rfl

end Lemmas

/-- Witness of C1: a 12x16 tile with `k0 = 3`, `alpha = 2`, `beta = 3`. -/
theorem C1_witness :
    (args_example 12 16 3 2 3 [] 0 0).m0 % 6 = 0
    ∧ (args_example 12 16 3 2 3 [] 0 0).n0 = 16
    ∧ 16 ≤ (args_example 12 16 3 2 3 [] 0 0).rs_c
    ∧ ∃ res, lpgemm_rowvar_f32f32f32of32_6x16m ext_example A_example B_example
          (args_example 12 16 3 2 3 [] 0 0) C_example = some res
        ∧ ∀ i, i < 12 → ∀ j, j < 16 →
          res.c (0 + i * 16 + j)
            = 2 * (∑ k ∈ Finset.range 3,
                A_example (0 + (i / 6) * (6 * 3) + (i % 6) * 1 + k * 6)
                  * B_example (0 + k * 16 + j))
              + 3 * C_example (0 + i * 16 + j) :=
  ⟨by decide, rfl, by decide,
    C1_main_kernel_matches_reference ext_example A_example B_example C_example
      (args_example 12 16 3 2 3 [] 0 0) (by decide) rfl rfl (by decide)⟩

section Claims

set_option linter.unusedSectionVars false

variable {α : Type} [LinearOrderedCommRing α]

/-! ### C3 -/

/-- Claim C3. Over exact arithmetic, with `cs_b = cs_c = 1`, an empty post-op sequence,
`m0` a multiple of 6 and every `n0` with `1 ≤ n0 ≤ 15`, the main kernel returns and
leaves in `C[i,j] = c[i*rs_c + j]`, for every `i < m0` and every `j < n0`, the reference
value `alpha * sum_{k<k0} A[i,k]*B[k,j] + beta * C_old[i,j]` (for `n0 = 10`: all ten
columns). The rows of the `n0`-column output tile do not overlap (`n0 ≤ rs_c`). -/
theorem C3_n_fringe_matches_reference (ext : Externals α) (A B C : Mem α)
    (p : MainArgs α) (hcb : p.cs_b = 1) (hcc : p.cs_c = 1) (hl : p.post_ops_list = [])
    (hm6 : p.m0 % 6 = 0) (h1 : 1 ≤ p.n0) (h15 : p.n0 ≤ 15) (hrs : p.n0 ≤ p.rs_c) :
    ∃ res, lpgemm_rowvar_f32f32f32of32_6x16m ext A B p C = some res
      ∧ ∀ i, i < p.m0 → ∀ j, j < p.n0 →
          res.c (p.c + i * p.rs_c + j)
            = p.alpha * (∑ k ∈ Finset.range p.k0,
                A (p.a + (i / 6) * p.ps_a + (i % 6) * p.rs_a + k * p.cs_a)
                  * B (p.b + k * p.rs_b + j))
              + p.beta * C (p.c + i * p.rs_c + j) := by
  obtain ⟨s, hs, _, hmem⟩ := n_fringe_chain_spec ext A B p C p.n0 h1 h15
  obtain ⟨hval, _⟩ := hmem hcb hcc hm6 hrs
  have hn : p.n0 % 16 = p.n0 := Nat.mod_eq_of_lt (by omega)
  refine ⟨{ c := s.C, post_ops_attr := s.post_ops_attr, calls := s.calls }, ?_, ?_⟩
  · rw [lpgemm_rowvar_f32f32f32of32_6x16m]
    simp only [hn]
    rw [if_pos (by omega), hs]
    rfl
  · intro i hi j hj
    have h := hval i hi j hj
    rw [chain_out_val, out_val_nil _ _ _ _ _ _ _ _ hl] at h
    exact h

/-! ### C4 -/

theorem binary_widths_facts (n : Nat) (h1 : 1 ≤ n) (h15 : n ≤ 15) :
    (binary_widths n).Pairwise (fun a b => a > b)
    ∧ (binary_widths n).sum = n
    ∧ (binary_widths n).Sublist [8, 4, 2, 1] := by
  interval_cases n <;> decide

/-- Claim C4. For every `n0` with `1 ≤ n0 ≤ 15` the main kernel takes the N-fringe
branch (its result is that of the chain, no row group of its own runs) and returns; the
calls its body makes are, in order, those of the N-fringe kernels whose widths are the
binary expansion of `n0`: a strictly descending sublist of `8, 4, 2, 1` (so the order
is 6x8m, 6x4m, 6x2m, 6x1m and each is called at most once) that sums to `n0` (nothing
is left over). The chunk of width `w` is called with the C pointer advanced by
`s*cs_c`, the B pointer by `s*cs_b` and the cursor column index by `s`, where `s` is
the sum of the widths already consumed, and with the unchanged A pointer, `m0`, `k0`,
strides, `alpha`, `beta`, post-op sequence and cursor row index. For `n0 = 10` the
calls are 6x8m and then 6x2m. -/
theorem C4_n_fringe_chain_calls (ext : Externals α) (A B C : Mem α)
    (p : MainArgs α) (h1 : 1 ≤ p.n0) (h15 : p.n0 ≤ 15) :
    lpgemm_rowvar_f32f32f32of32_6x16m ext A B p C
        = (n_fringe_chain ext A B p C p.n0).map (fun s =>
            { c := s.C, post_ops_attr := s.post_ops_attr, calls := s.calls })
    ∧ (∃ res, lpgemm_rowvar_f32f32f32of32_6x16m ext A B p C = some res
        ∧ res.calls = chain_calls p 0 (binary_widths p.n0))
    ∧ (binary_widths p.n0).Pairwise (fun a b => a > b)
    ∧ (binary_widths p.n0).sum = p.n0
    ∧ (binary_widths p.n0).Sublist [8, 4, 2, 1]
    ∧ chain_calls p 0 (binary_widths 10) = [chain_call p 0 8, chain_call p 8 2] := by
  have hn : p.n0 % 16 = p.n0 := Nat.mod_eq_of_lt (by omega)
  have hmain : lpgemm_rowvar_f32f32f32of32_6x16m ext A B p C
      = (n_fringe_chain ext A B p C p.n0).map (fun s =>
          { c := s.C, post_ops_attr := s.post_ops_attr, calls := s.calls }) := by
    rw [lpgemm_rowvar_f32f32f32of32_6x16m]
    simp only [hn]
    rw [if_pos (by omega)]
  obtain ⟨s, hs, hcalls, _⟩ := n_fringe_chain_spec ext A B p C p.n0 h1 h15
  obtain ⟨hsorted, hsum, hsub⟩ := binary_widths_facts p.n0 h1 h15
  refine ⟨hmain,
    ⟨{ c := s.C, post_ops_attr := s.post_ops_attr, calls := s.calls }, ?_, hcalls⟩,
    hsorted, hsum, hsub, rfl⟩
  rw [hmain, hs]
  rfl

/-! ### C5 -/

theorem elem_post_op_no_gelu (gt ge gt' ge' : α → α) (attr : lpgemm_post_op_attr)
    (i j : Nat) (node : lpgemm_post_op α) (x : α)
    (h1 : node.op_code ≠ LPGEMM_POST_OP_CODE.POST_OPS_GELU_TANH)
    (h2 : node.op_code ≠ LPGEMM_POST_OP_CODE.POST_OPS_GELU_ERF) :
    elem_post_op gt ge attr i j node x = elem_post_op gt' ge' attr i j node x := by
  unfold elem_post_op
  cases hk : node.op_code <;> first | rfl | exact absurd hk h1 | exact absurd hk h2

theorem elem_post_ops_no_gelu (gt ge gt' ge' : α → α) (attr : lpgemm_post_op_attr)
    (i j : Nat) (l : List (lpgemm_post_op α)) (x : α)
    (h : ∀ node ∈ l, node.op_code ≠ LPGEMM_POST_OP_CODE.POST_OPS_GELU_TANH
      ∧ node.op_code ≠ LPGEMM_POST_OP_CODE.POST_OPS_GELU_ERF) :
    elem_post_ops gt ge attr i j l x = elem_post_ops gt' ge' attr i j l x := by
  unfold elem_post_ops
  have he : ∀ node ∈ effective_ops l,
      node.op_code ≠ LPGEMM_POST_OP_CODE.POST_OPS_GELU_TANH
      ∧ node.op_code ≠ LPGEMM_POST_OP_CODE.POST_OPS_GELU_ERF :=
    fun node hn => h node ((List.takeWhile_sublist _).subset hn)
  generalize effective_ops l = e at he
  induction e generalizing x with
  | nil => rfl
  | cons node next ih =>
    simp only [List.foldl_cons]
    rw [elem_post_op_no_gelu gt ge gt' ge' attr i j node x
      (he node (List.mem_cons_self _ _)).1 (he node (List.mem_cons_self _ _)).2]
    exact ih _ (fun n hn => he n (List.mem_cons_of_mem _ hn))

/-- Claim C5. For each width `w` in `{8, 4, 2, 1}`, every `m0` that is a multiple of 6,
every `k0`, `alpha`, `beta` and every post-op sequence built from bias, relu,
relu-with-scale and clip nodes, the `w`-column kernel and the main kernel called with
`n0 = 16` both return, and the `w`-column kernel leaves in columns `0 .. w-1` of every
row exactly the values the main kernel leaves there, when both get the same A panel,
the same scalars, strides, sequence and cursor, and B and C panels that agree on their
first `w` columns. The rows of the 16-column tile do not overlap (`16 ≤ rs_c`). -/
theorem C5_n_fringe_kernel_agrees_with_main (cfg : NFringeCfg)
    (hcfg : cfg = cfg_6x8 ∨ cfg = cfg_6x4 ∨ cfg = cfg_6x2 ∨ cfg = cfg_6x1)
    (ext : Externals α) (A B B' C C' : Mem α) (p : MainArgs α)
    (hm6 : p.m0 % 6 = 0) (hn : p.n0 = 16) (hrs : 16 ≤ p.rs_c)
    (hkinds : ∀ node ∈ p.post_ops_list,
      node.op_code = LPGEMM_POST_OP_CODE.POST_OPS_BIAS
      ∨ node.op_code = LPGEMM_POST_OP_CODE.POST_OPS_RELU
      ∨ node.op_code = LPGEMM_POST_OP_CODE.POST_OPS_RELU_SCALE
      ∨ node.op_code = LPGEMM_POST_OP_CODE.POST_OPS_CLIP)
    (hB : ∀ k, k < p.k0 → ∀ j, j < cfg.nr →
      B' (p.b + k * p.rs_b + j) = B (p.b + k * p.rs_b + j))
    (hC : ∀ i, i < p.m0 → ∀ j, j < cfg.nr →
      C' (p.c + i * p.rs_c + j) = C (p.c + i * p.rs_c + j)) :
    ∃ r16 rw, lpgemm_rowvar_f32f32f32of32_6x16m ext A B p C = some r16
      ∧ lpgemm_rowvar_6xNm cfg ext A B' p.toNArgs C' = some rw
      ∧ ∀ i, i < p.m0 → ∀ j, j < cfg.nr →
          rw.c (p.c + i * p.rs_c + j) = r16.c (p.c + i * p.rs_c + j) := by
  have hnr : cfg.nr ≤ cfg.vl ∧ cfg.nr ≤ 16 := by
    rcases hcfg with h | h | h | h <;> subst h <;> decide
  obtain ⟨r16, h16, _, hval16, _⟩ :=
    lpgemm_rowvar_6x16m_spec ext A B p (by rw [hn]) hrs hm6 C
  obtain ⟨rw, hw, _, hvalw, _⟩ :=
    lpgemm_rowvar_6xNm_spec cfg hnr.1 ext A B' p.toNArgs (by omega) hm6 C'
  refine ⟨r16, rw, h16, hw, ?_⟩
  intro i hi j hj
  have h1 := hval16 i hi j (by omega)
  have h2 := hvalw i hi j hj
  simp only [C_addr] at h1 h2
  rw [h1, h2]
  have hg : gemm_ref A B' p.toNArgs C' i j = gemm_ref A B p.toNArgs C i j := by
    simp only [gemm_ref, C_addr, hC i hi j hj]
    congr 2
    apply Finset.sum_congr rfl
    intro k hk
    simp only [B_elt, hB k (Finset.mem_range.1 hk) j hj]
  simp only [out_val, hg]
  apply elem_post_ops_no_gelu
  intro node hnode
  rcases hkinds node hnode with h | h | h | h <;> rw [h] <;> exact ⟨by decide, by decide⟩

/-! ### C6 -/

theorem m_loop_attr (rg : Nat → Mem α × lpgemm_post_op_attr → Mem α × lpgemm_post_op_attr)
    (hrg : ∀ m st, (rg m st).2 = { st.2 with post_op_c_i := st.2.post_op_c_i + 6 })
    (C : Mem α) (attr : lpgemm_post_op_attr) (n : Nat) :
    (for_loop rg n (C, attr)).2
      = { post_op_c_i := attr.post_op_c_i + 6 * n, post_op_c_j := attr.post_op_c_j } := by
  induction n with
  | zero => rfl
  | succ n ih =>
    rw [for_loop_succ, hrg, ih]
    simp only [lpgemm_post_op_attr.mk.injEq, and_true]
    ring

/-- An N-fringe kernel with rows left over: exactly one call, the M-fringe call. -/
theorem lpgemm_rowvar_6xNm_calls (cfg : NFringeCfg) (ext : Externals α) (A B : Mem α)
    (p : NArgs α) (C : Mem α) (hr : p.m0 % 6 ≠ 0) :
    ∃ res, lpgemm_rowvar_6xNm cfg ext A B p C = some res
      ∧ res.calls = [Call.m_fringe ⟨p.m0 % 6, cfg.nr⟩ (m_fringe_args p)] := by
  have hattr := m_loop_attr (row_group_6xN cfg ext A B p) (fun _ _ => rfl) C
    p.post_ops_attr (p.m0 / 6)
  refine ⟨_, consider_edge_cases_of_mod_ne_zero ext cfg.nr A B p _ _ hr, ?_⟩
  simp only [hattr]
  rfl

/-- The main kernel on the full-width path with rows left over: exactly one call, the
M-fringe call. -/
theorem lpgemm_rowvar_6x16m_calls (ext : Externals α) (A B : Mem α)
    (p : MainArgs α) (C : Mem α) (hn : p.n0 % 16 = 0) (hr : p.m0 % 6 ≠ 0) :
    ∃ res, lpgemm_rowvar_f32f32f32of32_6x16m ext A B p C = some res
      ∧ res.calls = [Call.m_fringe ⟨p.m0 % 6, 16⟩ (m_fringe_args p.toNArgs)] := by
  have hattr := m_loop_attr (row_group_6x16 ext A B p.toNArgs) (fun _ _ => rfl) C
    p.post_ops_attr (p.m0 / 6)
  rw [lpgemm_rowvar_f32f32f32of32_6x16m]
  simp only [hn, ne_eq, not_true_eq_false, if_false]
  rw [consider_edge_cases_of_mod_ne_zero ext 16 A B p.toNArgs _ _ hr]
  refine ⟨_, rfl, ?_⟩
  simp only [hattr]
  rfl

/-- Claim C6, as amended. For every `m0` with `r = m0 mod 6 ≠ 0`, each of the four
N-fringe kernels, and the main kernel when `n0 mod 16 = 0`, returns and its body makes
exactly one call: the M-fringe call to entry `r` of its own table, which is the
`r`-row kernel of the kernel's own width. The call gets the A pointer advanced by
`(m0/6)*ps_a`, the C pointer advanced by `(m0 - r)*rs_c = 6*(m0/6)*rs_c`, the
unmodified B pointer and a cursor whose row index is advanced by `6*(m0/6)`; the row
groups and the fringe tile partition the rows (`6*(m0/6) + r = m0`). -/
theorem C6_m_fringe_dispatch (ext : Externals α) (A B C : Mem α) (p : MainArgs α)
    (hr : p.m0 % 6 ≠ 0) :
    (p.n0 % 16 = 0 →
      ∃ res, lpgemm_rowvar_f32f32f32of32_6x16m ext A B p C = some res
        ∧ res.calls = [Call.m_fringe ⟨p.m0 % 6, 16⟩ (m_fringe_args p.toNArgs)])
    ∧ (∀ cfg : NFringeCfg,
      ∃ res, lpgemm_rowvar_6xNm cfg ext A B p.toNArgs C = some res
        ∧ res.calls = [Call.m_fringe ⟨p.m0 % 6, cfg.nr⟩ (m_fringe_args p.toNArgs)])
    ∧ (∀ w, ∀ h : p.m0 % 6 < (ker_fps w).length,
        (ker_fps w).get ⟨p.m0 % 6, h⟩ = some ⟨p.m0 % 6, w⟩)
    ∧ (m_fringe_args p.toNArgs).a = p.a + (p.m0 / 6) * p.ps_a
    ∧ (m_fringe_args p.toNArgs).c = p.c + (p.m0 - p.m0 % 6) * p.rs_c
    ∧ (m_fringe_args p.toNArgs).b = p.b
    ∧ (m_fringe_args p.toNArgs).post_ops_attr.post_op_c_i
        = p.post_ops_attr.post_op_c_i + 6 * (p.m0 / 6)
    ∧ p.m0 - p.m0 % 6 = 6 * (p.m0 / 6)
    ∧ 6 * (p.m0 / 6) + p.m0 % 6 = p.m0 :=
  ⟨fun hn => lpgemm_rowvar_6x16m_calls ext A B p C hn hr,
   fun cfg => lpgemm_rowvar_6xNm_calls cfg ext A B p.toNArgs C hr,
   fun w h => ker_fps_get w (p.m0 % 6) h hr,
   rfl, rfl, rfl, rfl, by omega, by omega⟩

/-! ### C7 -/

/-- Claim C7. In each kernel and for every row group `m`, the accumulators that are
stored are the result of applying the handlers of the post-op nodes one after another
in sequence order to the accumulators obtained after the alpha/beta scaling, each
handler on the output of the one before, up to the end of the sequence or the first
node of the sentinel kind (`pipeline_6x16`, `pipeline_6xN`: a left fold of the handlers
over `effective_ops`); with an empty sequence the scaled accumulators are stored
unchanged. -/
theorem C7_post_ops_in_sequence_order (ext : Externals α) (A B : Mem α) (p : NArgs α)
    (m : Nat) (C : Mem α) (attr : lpgemm_post_op_attr) :
    row_group_6x16 ext A B p m (C, attr)
        = (store_6x16 C (p.c + m * 6 * p.rs_c) p.rs_c
            (pipeline_6x16 ext attr p.post_ops_list (scaled_6x16 A B p m C)),
           { attr with post_op_c_i := attr.post_op_c_i + 6 })
    ∧ (∀ cfg : NFringeCfg,
        row_group_6xN cfg ext A B p m (C, attr)
          = (store_6xN cfg C (p.c + m * 6 * p.rs_c) p.rs_c
              (pipeline_6xN cfg ext attr p.post_ops_list (scaled_6xN cfg A B p m C)),
             { attr with post_op_c_i := attr.post_op_c_i + 6 }))
    ∧ (∀ acc : Acc6x16 α, pipeline_6x16 ext attr [] acc = acc)
    ∧ (∀ (cfg : NFringeCfg) (acc : Acc6 α), pipeline_6xN cfg ext attr [] acc = acc) := by
  refine ⟨?_, ?_, fun _ => rfl, fun _ _ => rfl⟩
  · simp only [row_group_6x16, post_ops_6x16_eq_pipeline]
  · intro cfg
    simp only [row_group_6xN, post_ops_6xN_eq_pipeline]

/-! ### C9 -/

theorem effective_ops_of_no_sentinel (l : List (lpgemm_post_op α))
    (hl : ∀ node ∈ l, node.op_code ≠ LPGEMM_POST_OP_CODE.POST_OPS_DISABLE) :
    effective_ops l = l := by
  unfold effective_ops
  rw [List.takeWhile_eq_self_iff]
  intro node hn
  simpa using hl node hn

theorem elem_post_ops_append_single (gt ge : α → α) (attr : lpgemm_post_op_attr)
    (i j : Nat) (l : List (lpgemm_post_op α)) (node : lpgemm_post_op α) (x : α)
    (hl : ∀ n ∈ l, n.op_code ≠ LPGEMM_POST_OP_CODE.POST_OPS_DISABLE)
    (hnode : node.op_code ≠ LPGEMM_POST_OP_CODE.POST_OPS_DISABLE) :
    elem_post_ops gt ge attr i j (l ++ [node]) x
      = elem_post_op gt ge attr i j node (elem_post_ops gt ge attr i j l x) := by
  have h1 : effective_ops (l ++ [node]) = l ++ [node] := by
    apply effective_ops_of_no_sentinel
    intro n hn
    rcases List.mem_append.1 hn with h | h
    · exact hl n h
    · rw [List.mem_singleton.1 h]; exact hnode
  unfold elem_post_ops
  rw [h1, effective_ops_of_no_sentinel l hl, List.foldl_append]
  rfl

/-- The output value for a sequence that ends with a column-bias node is the output
value for the sequence without that node, plus the bias of the column. -/
theorem out_val_append_col_bias (gt ge : α → α) (A B : Mem α) (q : NArgs α) (C : Mem α)
    (l : List (lpgemm_post_op α)) (node : lpgemm_post_op α)
    (hq : q.post_ops_list = l ++ [node])
    (hl : ∀ n ∈ l, n.op_code ≠ LPGEMM_POST_OP_CODE.POST_OPS_DISABLE)
    (hnode : node.op_code = LPGEMM_POST_OP_CODE.POST_OPS_BIAS)
    (hflag : node.op_args2_char = 'r' ∨ node.op_args2_char = 'R') (R j : Nat) :
    out_val gt ge A B q C R j
      = out_val gt ge A B { q with post_ops_list := l } C R j
        + node.op_args1 (q.post_ops_attr.post_op_c_j + j) := by
  have hg : gemm_ref A B { q with post_ops_list := l } C R j = gemm_ref A B q C R j := rfl
  simp only [out_val, hq, hg]
  rw [elem_post_ops_append_single gt ge _ _ _ l node _ hl (by rw [hnode]; decide)]
  simp only [elem_post_op, hnode, hflag, if_true]

/-- Claim C9. When the layout flag of a bias node (the character at `op_args2`) is `'r'`
or `'R'`, then for every `n0` with `1 ≤ n0 ≤ 16`, `cs_b = cs_c = 1` and `m0` a multiple
of 6, the main kernel adds `bias[c_j + j]` to the element of every row `i < m0` and
every column `j < n0`, where `bias` is `op_args1` and `c_j` is the cursor column index
on entry: run with a sequence that ends with the bias node, it returns and leaves in
`c[i*rs_c + j]` the value it leaves when run with the sequence without that node, plus
`bias[c_j + j]`. The amount depends on the column only, also in the columns that the
8-, 4-, 2- and 1-wide kernels of the N-fringe chain handle. The nodes in front of the
bias node are arbitrary nodes other than the sentinel; the rows of the `n0`-column
output tile do not overlap (`n0 ≤ rs_c`). -/
theorem C9_column_bias (ext : Externals α) (A B C : Mem α) (p : MainArgs α)
    (l : List (lpgemm_post_op α)) (node : lpgemm_post_op α)
    (hp : p.post_ops_list = l ++ [node])
    (hl : ∀ n ∈ l, n.op_code ≠ LPGEMM_POST_OP_CODE.POST_OPS_DISABLE)
    (hnode : node.op_code = LPGEMM_POST_OP_CODE.POST_OPS_BIAS)
    (hflag : node.op_args2_char = 'r' ∨ node.op_args2_char = 'R')
    (hcb : p.cs_b = 1) (hcc : p.cs_c = 1) (hm6 : p.m0 % 6 = 0)
    (h1 : 1 ≤ p.n0) (h16 : p.n0 ≤ 16) (hrs : p.n0 ≤ p.rs_c) :
    ∃ res res', lpgemm_rowvar_f32f32f32of32_6x16m ext A B p C = some res
      ∧ lpgemm_rowvar_f32f32f32of32_6x16m ext A B { p with post_ops_list := l } C
          = some res'
      ∧ ∀ i, i < p.m0 → ∀ j, j < p.n0 →
          res.c (p.c + i * p.rs_c + j)
            = res'.c (p.c + i * p.rs_c + j)
              + node.op_args1 (p.post_ops_attr.post_op_c_j + j) := by
  by_cases hn : p.n0 = 16
  · obtain ⟨res, hres, _, hval, _⟩ :=
      lpgemm_rowvar_6x16m_spec ext A B p (by rw [hn]) (by omega) hm6 C
    obtain ⟨res', hres', _, hval', _⟩ :=
      lpgemm_rowvar_6x16m_spec ext A B { p with post_ops_list := l } (by show p.n0 % 16 = 0; rw [hn])
        (by show 16 ≤ p.rs_c; omega) hm6 C
    refine ⟨res, res', hres, hres', ?_⟩
    intro i hi j hj
    have h := hval i hi j (by omega)
    have h' := hval' i hi j (by omega)
    simp only [C_addr] at h h'
    rw [h, h']
    exact out_val_append_col_bias _ _ A B p.toNArgs C l node hp hl hnode hflag i j
  · have h15 : p.n0 ≤ 15 := by omega
    have hmod : p.n0 % 16 = p.n0 := Nat.mod_eq_of_lt (by omega)
    obtain ⟨s, hs, _, hmem⟩ := n_fringe_chain_spec ext A B p C p.n0 h1 h15
    obtain ⟨s', hs', _, hmem'⟩ :=
      n_fringe_chain_spec ext A B { p with post_ops_list := l } C p.n0 h1 h15
    obtain ⟨hval, _⟩ := hmem hcb hcc hm6 hrs
    obtain ⟨hval', _⟩ := hmem' hcb hcc hm6 hrs
    refine ⟨{ c := s.C, post_ops_attr := s.post_ops_attr, calls := s.calls },
      { c := s'.C, post_ops_attr := s'.post_ops_attr, calls := s'.calls }, ?_, ?_, ?_⟩
    · rw [lpgemm_rowvar_f32f32f32of32_6x16m]
      simp only [hmod]
      rw [if_pos (by omega), hs]
      rfl
    · rw [lpgemm_rowvar_f32f32f32of32_6x16m]
      have hmod' : ({ p with post_ops_list := l } : MainArgs α).n0 % 16 = p.n0 := hmod
      simp only [hmod']
      rw [if_pos (by omega), hs']
      rfl
    · intro i hi j hj
      show s.C (p.c + i * p.rs_c + j) = s'.C (p.c + i * p.rs_c + j) + _
      have h : s.C (p.c + i * p.rs_c + j) = chain_out_val ext A B p C p.n0 i j :=
        hval i hi j hj
      have h' : s'.C (p.c + i * p.rs_c + j)
          = chain_out_val ext A B { p with post_ops_list := l } C p.n0 i j :=
        hval' i hi j hj
      rw [h, h']
      exact out_val_append_col_bias _ _ A B p.toNArgs C l node hp hl hnode hflag i j

/-! ### C10 -/

/-- Claim C10. When the layout flag of a bias node is neither `'r'` nor `'R'`, the bias
handler of each kernel adds to every element of tile row `i` (`0 ≤ i < 6`) of row group
`g` the value `bias[c_i + 6*g + i]`, where `c_i` is the cursor row index on entry to the
kernel: the cursor with which row group `g` runs its handlers is the one the `m` loop
has reached after `g` row groups, the amount depends on the global output row only and
is the same for every column of that row. -/
theorem C10_row_bias (ext : Externals α) (A B C : Mem α) (p : NArgs α)
    (node : lpgemm_post_op α)
    (hflag : ¬ (node.op_args2_char = 'r' ∨ node.op_args2_char = 'R')) (g : Nat) :
    (∀ (r : Acc6x16 α) (i j : Nat), i < 6 → j < 16 →
        (POST_OPS_BIAS_6x16F node
            (for_loop (row_group_6x16 ext A B p) g (C, p.post_ops_attr)).2 r).row i j
          = r.row i j + node.op_args1 (p.post_ops_attr.post_op_c_i + 6 * g + i))
    ∧ (∀ (cfg : NFringeCfg) (r : Acc6 α) (i j : Nat), i < 6 →
        (POST_OPS_BIAS_6xNF cfg node
            (for_loop (row_group_6xN cfg ext A B p) g (C, p.post_ops_attr)).2 r).row i j
          = r.row i j + node.op_args1 (p.post_ops_attr.post_op_c_i + 6 * g + i)) := by
  refine ⟨?_, ?_⟩
  · intro r i j hi hj
    rw [m_loop_attr (row_group_6x16 ext A B p) (fun _ _ => rfl) C p.post_ops_attr g]
    by_cases h8 : j < 8
    · interval_cases i <;>
        simp [POST_OPS_BIAS_6x16F, hflag, Acc6x16.row, _mm256_add_ps, _mm256_broadcast_ss, h8]
    · interval_cases i <;>
        simp [POST_OPS_BIAS_6x16F, hflag, Acc6x16.row, _mm256_add_ps, _mm256_broadcast_ss, h8]
  · intro cfg r i j hi
    rw [m_loop_attr (row_group_6xN cfg ext A B p) (fun _ _ => rfl) C p.post_ops_attr g]
    interval_cases i <;>
      simp [POST_OPS_BIAS_6xNF, hflag, Acc6.row, _mm256_add_ps, _mm256_broadcast_ss]

/-! ### C11, C12, C13 -/

/-- The post-op stage of the 6x16 kernel on a sequence whose last node in front of the
sentinel is `node`: the handler of `node` runs last. -/
theorem post_ops_6x16_last (ext : Externals α) (attr : lpgemm_post_op_attr)
    (L l : List (lpgemm_post_op α)) (node : lpgemm_post_op α) (r : Acc6x16 α)
    (heff : effective_ops L = l ++ [node]) :
    post_ops_6x16 ext attr L r
      = handler_6x16 ext attr node
          (l.foldl (fun acc n => handler_6x16 ext attr n acc) r) := by
  rw [post_ops_6x16_eq_pipeline]
  unfold pipeline_6x16
  rw [heff, List.foldl_append]
  rfl

theorem post_ops_6xN_last (cfg : NFringeCfg) (ext : Externals α)
    (attr : lpgemm_post_op_attr)
    (L l : List (lpgemm_post_op α)) (node : lpgemm_post_op α) (r : Acc6 α)
    (heff : effective_ops L = l ++ [node]) :
    post_ops_6xN cfg ext attr L r
      = handler_6xN cfg ext attr node
          (l.foldl (fun acc n => handler_6xN cfg ext attr n acc) r) := by
  rw [post_ops_6xN_eq_pipeline]
  unfold pipeline_6xN
  rw [heff, List.foldl_append]
  rfl

theorem relu_6x16_row (r : Acc6x16 α) (i j : Nat) (hi : i < 6) :
    (POST_OPS_RELU_6x16F r).row i j = max (r.row i j) 0 := by
  interval_cases i <;> by_cases h8 : j < 8 <;>
    simp [POST_OPS_RELU_6x16F, Acc6x16.row, Acc6x16.map, _mm256_max_ps,
      _mm256_setzero_ps, h8]

theorem relu_6xN_row (r : Acc6 α) (i j : Nat) (hi : i < 6) :
    (POST_OPS_RELU_6xNF r).row i j = max (r.row i j) 0 := by
  interval_cases i <;>
    simp [POST_OPS_RELU_6xNF, Acc6.row, Acc6.map, _mm256_max_ps, _mm256_setzero_ps]

theorem relu_scale_6x16_row (node : lpgemm_post_op α) (r : Acc6x16 α) (i j : Nat)
    (hi : i < 6) :
    (POST_OPS_RELU_SCALE_6x16F node r).row i j
      = if r.row i j < 0 then r.row i j * node.op_args2_f32 else r.row i j := by
  interval_cases i <;> by_cases h8 : j < 8 <;>
    simp [POST_OPS_RELU_SCALE_6x16F, Acc6x16.row, Acc6x16.map, RELU_SCALE_OP_F32S,
      _mm256_set1_ps, _mm256_setzero_ps, h8]

theorem relu_scale_6xN_row (node : lpgemm_post_op α) (r : Acc6 α) (i j : Nat)
    (hi : i < 6) :
    (POST_OPS_RELU_SCALE_6xNF node r).row i j
      = if r.row i j < 0 then r.row i j * node.op_args2_f32 else r.row i j := by
  interval_cases i <;>
    simp [POST_OPS_RELU_SCALE_6xNF, Acc6.row, Acc6.map, RELU_SCALE_OP_F32S,
      _mm256_set1_ps, _mm256_setzero_ps]

theorem clip_6x16_row (node : lpgemm_post_op α) (r : Acc6x16 α) (i j : Nat)
    (hi : i < 6) :
    (POST_OPS_CLIP_6x16F node r).row i j
      = min (max (r.row i j) node.op_args2_f32) node.op_args3_f32 := by
  interval_cases i <;> by_cases h8 : j < 8 <;>
    simp [POST_OPS_CLIP_6x16F, Acc6x16.row, Acc6x16.map, CLIP_F32S, _mm256_min_ps,
      _mm256_max_ps, _mm256_set1_ps, h8]

theorem clip_6xN_row (node : lpgemm_post_op α) (r : Acc6 α) (i j : Nat)
    (hi : i < 6) :
    (POST_OPS_CLIP_6xNF node r).row i j
      = min (max (r.row i j) node.op_args2_f32) node.op_args3_f32 := by
  interval_cases i <;>
    simp [POST_OPS_CLIP_6xNF, Acc6.row, Acc6.map, CLIP_F32S, _mm256_min_ps,
      _mm256_max_ps, _mm256_set1_ps]

/-- Claim C11. The relu handler of each kernel replaces every accumulator element `x` by
`max x 0`: an element that is non-negative is unchanged and a negative one becomes 0.
Hence, for a sequence whose last node (in front of the sentinel, if there is one) is
relu, every accumulator element that leaves the post-op stage is non-negative, and so
is every element of the tile that a row group stores (the rows of the tile do not
overlap: `16 ≤ rs_c`, and `nr ≤ rs_c` in an N-fringe kernel). -/
theorem C11_relu_nonneg (ext : Externals α) (A B : Mem α) (p : NArgs α)
    (l : List (lpgemm_post_op α)) (node : lpgemm_post_op α)
    (hp : effective_ops p.post_ops_list = l ++ [node])
    (hnode : node.op_code = LPGEMM_POST_OP_CODE.POST_OPS_RELU) :
    (∀ (r : Acc6x16 α) (i j : Nat), i < 6 →
        (POST_OPS_RELU_6x16F r).row i j = max (r.row i j) 0
        ∧ (0 ≤ r.row i j → (POST_OPS_RELU_6x16F r).row i j = r.row i j)
        ∧ (r.row i j < 0 → (POST_OPS_RELU_6x16F r).row i j = 0))
    ∧ (∀ (r : Acc6 α) (i j : Nat), i < 6 →
        (POST_OPS_RELU_6xNF r).row i j = max (r.row i j) 0
        ∧ (0 ≤ r.row i j → (POST_OPS_RELU_6xNF r).row i j = r.row i j)
        ∧ (r.row i j < 0 → (POST_OPS_RELU_6xNF r).row i j = 0))
    ∧ (∀ (attr : lpgemm_post_op_attr) (r : Acc6x16 α) (i j : Nat), i < 6 →
        0 ≤ (post_ops_6x16 ext attr p.post_ops_list r).row i j)
    ∧ (∀ (cfg : NFringeCfg) (attr : lpgemm_post_op_attr) (r : Acc6 α) (i j : Nat), i < 6 →
        0 ≤ (post_ops_6xN cfg ext attr p.post_ops_list r).row i j)
    ∧ (16 ≤ p.rs_c → ∀ (m : Nat) (C : Mem α) (attr : lpgemm_post_op_attr) (i j : Nat),
        i < 6 → j < 16 →
        0 ≤ (row_group_6x16 ext A B p m (C, attr)).1 (p.c + (6 * m + i) * p.rs_c + j))
    ∧ (∀ cfg : NFringeCfg, cfg.nr ≤ p.rs_c →
        ∀ (m : Nat) (C : Mem α) (attr : lpgemm_post_op_attr) (i j : Nat),
        i < 6 → j < cfg.nr →
        0 ≤ (row_group_6xN cfg ext A B p m (C, attr)).1
              (p.c + (6 * m + i) * p.rs_c + j)) := by
  have h16 : ∀ (attr : lpgemm_post_op_attr) (r : Acc6x16 α) (i j : Nat), i < 6 →
      0 ≤ (post_ops_6x16 ext attr p.post_ops_list r).row i j := by
    intro attr r i j hi
    rw [post_ops_6x16_last ext attr _ l node r hp]
    simp only [handler_6x16, hnode]
    rw [relu_6x16_row _ i j hi]
    exact le_max_right _ _
  have hN : ∀ (cfg : NFringeCfg) (attr : lpgemm_post_op_attr) (r : Acc6 α) (i j : Nat),
      i < 6 → 0 ≤ (post_ops_6xN cfg ext attr p.post_ops_list r).row i j := by
    intro cfg attr r i j hi
    rw [post_ops_6xN_last cfg ext attr _ l node r hp]
    simp only [handler_6xN, hnode]
    rw [relu_6xN_row _ i j hi]
    exact le_max_right _ _
  have haddr : ∀ m i j, p.c + (6 * m + i) * p.rs_c + j
      = p.c + m * 6 * p.rs_c + i * p.rs_c + j := by
    intro m i j; ring
  refine ⟨?_, ?_, h16, hN, ?_, ?_⟩
  · intro r i j hi
    rw [relu_6x16_row r i j hi]
    exact ⟨rfl, fun h => max_eq_left h, fun h => max_eq_right (le_of_lt h)⟩
  · intro r i j hi
    rw [relu_6xN_row r i j hi]
    exact ⟨rfl, fun h => max_eq_left h, fun h => max_eq_right (le_of_lt h)⟩
  · intro hrs m C attr i j hi hj
    simp only [row_group_6x16]
    rw [haddr, store_6x16_row _ _ _ _ hrs i j hi hj]
    exact h16 attr _ i j hi
  · intro cfg hrs m C attr i j hi hj
    simp only [row_group_6xN]
    rw [haddr, store_6xN_row cfg _ _ _ _ hrs i j hi hj]
    exact hN cfg attr _ i j hi

/-- Claim C12. The relu-with-scale handler of each kernel multiplies every negative
accumulator element by the scale read from `op_args2` of the node and leaves every
positive element unchanged; the scale is the same for all elements of the tile (rows
`i < 6`, all columns: the 96 elements of the 6x16 tile), and a negative element only
becomes zero when the scale is zero. -/
theorem C12_relu_scale (node : lpgemm_post_op α) :
    (∀ (r : Acc6x16 α) (i j : Nat), i < 6 →
        (r.row i j < 0 →
          (POST_OPS_RELU_SCALE_6x16F node r).row i j = r.row i j * node.op_args2_f32)
        ∧ (0 < r.row i j → (POST_OPS_RELU_SCALE_6x16F node r).row i j = r.row i j)
        ∧ (r.row i j < 0 → (POST_OPS_RELU_SCALE_6x16F node r).row i j = 0 →
            node.op_args2_f32 = 0))
    ∧ (∀ (r : Acc6 α) (i j : Nat), i < 6 →
        (r.row i j < 0 →
          (POST_OPS_RELU_SCALE_6xNF node r).row i j = r.row i j * node.op_args2_f32)
        ∧ (0 < r.row i j → (POST_OPS_RELU_SCALE_6xNF node r).row i j = r.row i j)
        ∧ (r.row i j < 0 → (POST_OPS_RELU_SCALE_6xNF node r).row i j = 0 →
            node.op_args2_f32 = 0)) := by
  have key : ∀ x s : α,
      (x < 0 → (if x < 0 then x * s else x) = x * s)
      ∧ (0 < x → (if x < 0 then x * s else x) = x)
      ∧ (x < 0 → (if x < 0 then x * s else x) = 0 → s = 0) := by
    intro x s
    refine ⟨fun h => if_pos h, fun h => if_neg (not_lt.2 (le_of_lt h)), ?_⟩
    intro h h0
    rw [if_pos h] at h0
    rcases mul_eq_zero.1 h0 with hx | hs
    · exact absurd hx (ne_of_lt h)
    · exact hs
  refine ⟨?_, ?_⟩
  · intro r i j hi
    rw [relu_scale_6x16_row node r i j hi]
    exact key _ _
  · intro r i j hi
    rw [relu_scale_6xN_row node r i j hi]
    exact key _ _

/-- Claim C13. For a clip node with lower bound `min = *op_args2`, upper bound
`max = *op_args3` and `min ≤ max`, the clip handler of each kernel maps every
accumulator element `x` to `min(max(x, min), max)`: the result lies in `[min, max]` and
an element already in `[min, max]` is unchanged. -/
theorem C13_clip (node : lpgemm_post_op α)
    (hle : node.op_args2_f32 ≤ node.op_args3_f32) :
    (∀ (r : Acc6x16 α) (i j : Nat), i < 6 →
        (POST_OPS_CLIP_6x16F node r).row i j
            = min (max (r.row i j) node.op_args2_f32) node.op_args3_f32
        ∧ node.op_args2_f32 ≤ (POST_OPS_CLIP_6x16F node r).row i j
        ∧ (POST_OPS_CLIP_6x16F node r).row i j ≤ node.op_args3_f32
        ∧ (node.op_args2_f32 ≤ r.row i j → r.row i j ≤ node.op_args3_f32 →
            (POST_OPS_CLIP_6x16F node r).row i j = r.row i j))
    ∧ (∀ (r : Acc6 α) (i j : Nat), i < 6 →
        (POST_OPS_CLIP_6xNF node r).row i j
            = min (max (r.row i j) node.op_args2_f32) node.op_args3_f32
        ∧ node.op_args2_f32 ≤ (POST_OPS_CLIP_6xNF node r).row i j
        ∧ (POST_OPS_CLIP_6xNF node r).row i j ≤ node.op_args3_f32
        ∧ (node.op_args2_f32 ≤ r.row i j → r.row i j ≤ node.op_args3_f32 →
            (POST_OPS_CLIP_6xNF node r).row i j = r.row i j)) := by
  have key : ∀ x : α,
      node.op_args2_f32 ≤ min (max x node.op_args2_f32) node.op_args3_f32
      ∧ min (max x node.op_args2_f32) node.op_args3_f32 ≤ node.op_args3_f32
      ∧ (node.op_args2_f32 ≤ x → x ≤ node.op_args3_f32 →
          min (max x node.op_args2_f32) node.op_args3_f32 = x) := by
    intro x
    refine ⟨le_min (le_max_right _ _) hle, min_le_right _ _, ?_⟩
    intro h1 h2
    rw [max_eq_left h1, min_eq_left h2]
  refine ⟨?_, ?_⟩
  · intro r i j hi
    rw [clip_6x16_row node r i j hi]
    exact ⟨rfl, key _⟩
  · intro r i j hi
    rw [clip_6xN_row node r i j hi]
    exact ⟨rfl, key _⟩

/-! ### C14 -/

/-- Claim C14. For `m0 = 6`, `n0 = 16` and every `k0` the main kernel computes exactly
one 6x16 micro-tile: the N-fringe branch is not entered (`n0 mod 16 = 0`), the body of
the row-group loop runs exactly once (`m_iter = 1`: what the kernel leaves is what row
group 0 leaves), and the M-fringe table is not consulted (`m_left = 0`: the body makes
no call). With `alpha = 1`, `beta = 0` and no post-ops the stored tile is
`sum_{k<k0} A[i,k]*B[k,j]` (the rows of the tile do not overlap: `16 ≤ rs_c`). -/
theorem C14_single_tile (ext : Externals α) (A B C : Mem α) (p : MainArgs α)
    (hm : p.m0 = 6) (hn : p.n0 = 16) :
    p.n0 % 16 = 0 ∧ p.m0 / 6 = 1 ∧ p.m0 % 6 = 0
    ∧ ∃ res, lpgemm_rowvar_f32f32f32of32_6x16m ext A B p C = some res
        ∧ (res.c, res.post_ops_attr)
            = row_group_6x16 ext A B p.toNArgs 0 (C, p.post_ops_attr)
        ∧ res.calls = []
        ∧ (p.alpha = 1 → p.beta = 0 → p.post_ops_list = [] → 16 ≤ p.rs_c →
            ∀ i, i < 6 → ∀ j, j < 16 →
              res.c (p.c + i * p.rs_c + j)
                = ∑ k ∈ Finset.range p.k0,
                    A (p.a + i * p.rs_a + k * p.cs_a) * B (p.b + k * p.rs_b + j)) := by
  have hn0 : p.n0 % 16 = 0 := by rw [hn]
  have hm0 : p.m0 % 6 = 0 := by rw [hm]
  have hit : p.m0 / 6 = 1 := by rw [hm]
  refine ⟨hn0, hit, hm0, ?_⟩
  have hrun : lpgemm_rowvar_f32f32f32of32_6x16m ext A B p C
      = some { c := (row_group_6x16 ext A B p.toNArgs 0 (C, p.post_ops_attr)).1,
               post_ops_attr := (row_group_6x16 ext A B p.toNArgs 0 (C, p.post_ops_attr)).2,
               calls := [] } := by
    rw [lpgemm_rowvar_f32f32f32of32_6x16m]
    simp only [hn0, ne_eq, not_true_eq_false, if_false, hit]
    exact consider_edge_cases_of_mod_eq_zero ext 16 A B p.toNArgs _ _ hm0
  refine ⟨_, hrun, rfl, rfl, ?_⟩
  intro ha hb hl hrs i hi j hj
  obtain ⟨res, hres, _, hval, _⟩ := lpgemm_rowvar_6x16m_spec ext A B p hn0 hrs hm0 C
  rw [hrun] at hres
  cases hres
  have h := hval i (by omega) j hj
  rw [out_val_nil _ _ _ _ _ _ _ _ hl] at h
  simp only [C_addr] at h
  refine h.trans ?_
  have hi6 : i / 6 = 0 := by omega
  have hi6' : i % 6 = i := by omega
  simp only [gemm_ref, A_elt, B_elt, ha, hb, hi6, hi6', one_mul, zero_mul, add_zero]

/-! ### C15 -/

/-- Claim C15. Blocking the reduction does not change the result: with an empty post-op
sequence, `m0` a multiple of 6 and `n0 = 16`, running the main kernel on the first
`k1` steps with `(alpha, beta)` and then again on the remaining `k2` steps with
`(alpha, 1)` (A advanced by `k1` columns, B by `k1` rows) returns both times and leaves
C equal, element for element, to one run over `k1 + k2` steps with `(alpha, beta)`. This
holds for all `k1`, `k2` and every `beta`, in particular every `beta ≠ 0` (the rows of
the tile do not overlap: `16 ≤ rs_c`). -/
theorem C15_k_blocking (ext : Externals α) (A B C : Mem α) (p : MainArgs α)
    (k1 k2 : Nat) (hm6 : p.m0 % 6 = 0) (hn : p.n0 = 16)
    (hl : p.post_ops_list = []) (hrs : 16 ≤ p.rs_c) :
    ∃ r1 r2 r12,
      lpgemm_rowvar_f32f32f32of32_6x16m ext A B (k_block_first p k1) C = some r1
      ∧ lpgemm_rowvar_f32f32f32of32_6x16m ext A B (k_block_second p k1 k2) r1.c = some r2
      ∧ lpgemm_rowvar_f32f32f32of32_6x16m ext A B (k_block_whole p k1 k2) C = some r12
      ∧ ∀ x, r2.c x = r12.c x := by
  have hn0 : p.n0 % 16 = 0 := by rw [hn]
  obtain ⟨r1, h1, _, hv1, hf1⟩ :=
    lpgemm_rowvar_6x16m_spec ext A B (k_block_first p k1) hn0 hrs hm6 C
  obtain ⟨r2, h2, _, hv2, hf2⟩ :=
    lpgemm_rowvar_6x16m_spec ext A B (k_block_second p k1 k2) hn0 hrs hm6 r1.c
  obtain ⟨r12, h12, _, hv12, hf12⟩ :=
    lpgemm_rowvar_6x16m_spec ext A B (k_block_whole p k1 k2) hn0 hrs hm6 C
  refine ⟨r1, r2, r12, h1, h2, h12, ?_⟩
  intro x
  by_cases hx : ∃ R, R < p.m0 ∧ ∃ j, j < 16 ∧ x = p.c + R * p.rs_c + j
  · obtain ⟨R, hR, j, hj, rfl⟩ := hx
    have e1 := hv1 R hR j hj
    have e2 := hv2 R hR j hj
    have e12 := hv12 R hR j hj
    rw [out_val_nil _ _ _ _ _ _ _ _
      (show (k_block_first p k1).toNArgs.post_ops_list = [] from hl)] at e1
    rw [out_val_nil _ _ _ _ _ _ _ _
      (show (k_block_second p k1 k2).toNArgs.post_ops_list = [] from hl)] at e2
    rw [out_val_nil _ _ _ _ _ _ _ _
      (show (k_block_whole p k1 k2).toNArgs.post_ops_list = [] from hl)] at e12
    simp only [C_addr, gemm_ref, k_block_first, k_block_second, k_block_whole, A_elt,
      B_elt] at e1 e2 e12
    refine e2.trans ?_
    rw [e12, e1, Finset.sum_range_add, mul_add, one_mul]
    have hs : ∀ k, A (p.a + k1 * p.cs_a + R / 6 * p.ps_a + R % 6 * p.rs_a + k * p.cs_a)
          * B (p.b + k1 * p.rs_b + k * p.rs_b + j)
        = A (p.a + R / 6 * p.ps_a + R % 6 * p.rs_a + (k1 + k) * p.cs_a)
          * B (p.b + (k1 + k) * p.rs_b + j) := by
      intro k
      congr 2 <;> ring
    simp only [hs]
    ring
  · have hx' : ∀ R, R < p.m0 → ∀ j, j < 16 → x ≠ p.c + R * p.rs_c + j := by
      intro R hR j hj he
      exact hx ⟨R, hR, j, hj, he⟩
    rw [hf2 x hx', hf1 x hx', hf12 x hx']

/-! ### C18, C19 -/

/-- Every call of the N-fringe chain hands over the post-op sequence and the cursor row
index that the main kernel received. -/
theorem chain_calls_args (p : MainArgs α) (ws : List Nat) (s : Nat) :
    ∀ c ∈ chain_calls p s ws,
      c.post_ops_list = p.post_ops_list
      ∧ c.post_ops_attr.post_op_c_i = p.post_ops_attr.post_op_c_i := by
  induction ws generalizing s with
  | nil =>
    intro c hc
    exact absurd hc (List.not_mem_nil c)
  | cons w ws ih =>
    intro c hc
    rcases List.mem_cons.1 hc with h | h
    · rw [h]
      exact ⟨rfl, rfl⟩
    · exact ih (s + w) c h

/-- A block of the N-fringe chain leaves the row index of the caller's cursor alone,
whatever the callee does with its copy. -/
theorem n_fringe_block_c_i (name : NFringeName)
    (ker : NArgs α → Mem α → Option (KernelResult α)) (nr_cur : Nat) (p : MainArgs α)
    (s s' : NChain α) (h : n_fringe_block name ker nr_cur p s = some s') :
    s'.post_ops_attr.post_op_c_i = s.post_ops_attr.post_op_c_i := by
  unfold n_fringe_block at h
  cases hk : ker (n_fringe_args p s) s.C with
  | none => rw [hk] at h; cases h
  | some res =>
    rw [hk] at h
    cases h
    rfl

theorem n_fringe_last_c_i (name : NFringeName)
    (ker : NArgs α → Mem α → Option (KernelResult α)) (p : MainArgs α)
    (s s' : NChain α) (h : n_fringe_last name ker p s = some s') :
    s'.post_ops_attr.post_op_c_i = s.post_ops_attr.post_op_c_i := by
  unfold n_fringe_last at h
  cases hk : ker (n_fringe_args p s) s.C with
  | none => rw [hk] at h; cases h
  | some res =>
    rw [hk] at h
    cases h
    rfl

theorem opt_step_c_i (c : Prop) [Decidable c] (f : NChain α → Option (NChain α))
    (hf : ∀ s s', f s = some s' →
      s'.post_ops_attr.post_op_c_i = s.post_ops_attr.post_op_c_i)
    (s s' : NChain α) (h : (if c then f s else some s) = some s') :
    s'.post_ops_attr.post_op_c_i = s.post_ops_attr.post_op_c_i := by
  by_cases hc : c
  · rw [if_pos hc] at h
    exact hf s s' h
  · rw [if_neg hc] at h
    cases h
    rfl

/-- The cursor row index of the main kernel is the same after the N-fringe chain as on
entry. -/
theorem n_fringe_chain_c_i (ext : Externals α) (A B : Mem α) (p : MainArgs α)
    (C : Mem α) (n_left : Nat) (s : NChain α)
    (h : n_fringe_chain ext A B p C n_left = some s) :
    s.post_ops_attr.post_op_c_i = p.post_ops_attr.post_op_c_i := by
  simp only [n_fringe_chain, Option.bind_eq_some] at h
  obtain ⟨s1, h1, s2, h2, s3, h3, h4⟩ := h
  have e1 := opt_step_c_i _ _ (n_fringe_block_c_i ⟨8⟩ _ 8 p) _ _ h1
  have e2 := opt_step_c_i _ _ (n_fringe_block_c_i ⟨4⟩ _ 4 p) _ _ h2
  have e3 := opt_step_c_i _ _ (n_fringe_block_c_i ⟨2⟩ _ 2 p) _ _ h3
  have e4 := opt_step_c_i _ _ (n_fringe_last_c_i ⟨1⟩ _ p) _ _ h4
  rw [e4, e3, e2, e1]
  rfl

/-- An N-fringe kernel on any input: it returns, its local cursor has advanced by six
rows per row group, and its calls (the M-fringe call, if any) get the sequence it
received and that cursor. -/
theorem lpgemm_rowvar_6xNm_result (cfg : NFringeCfg) (ext : Externals α) (A B : Mem α)
    (p : NArgs α) (C : Mem α) :
    ∃ res, lpgemm_rowvar_6xNm cfg ext A B p C = some res
      ∧ res.post_ops_attr
          = { post_op_c_i := p.post_ops_attr.post_op_c_i + 6 * (p.m0 / 6),
              post_op_c_j := p.post_ops_attr.post_op_c_j }
      ∧ (∀ c ∈ res.calls, c.post_ops_list = p.post_ops_list
          ∧ c.post_ops_attr = res.post_ops_attr)
      ∧ (p.m0 % 6 = 0 → res.calls = []) := by
  have hattr := m_loop_attr (row_group_6xN cfg ext A B p) (fun _ _ => rfl) C
    p.post_ops_attr (p.m0 / 6)
  by_cases hm : p.m0 % 6 = 0
  · refine ⟨_, consider_edge_cases_of_mod_eq_zero ext cfg.nr A B p _ _ hm, hattr, ?_, ?_⟩
    · intro c hc
      exact absurd hc (List.not_mem_nil c)
    · intro _
      rfl
  · refine ⟨_, consider_edge_cases_of_mod_ne_zero ext cfg.nr A B p _ _ hm, hattr, ?_, ?_⟩
    · intro c hc
      rw [List.mem_singleton.1 hc]
      exact ⟨rfl, rfl⟩
    · intro h
      exact absurd h hm

/-- The main kernel on the full-width path, on any input. -/
theorem lpgemm_rowvar_6x16m_result (ext : Externals α) (A B : Mem α)
    (p : MainArgs α) (C : Mem α) (hn : p.n0 % 16 = 0) :
    ∃ res, lpgemm_rowvar_f32f32f32of32_6x16m ext A B p C = some res
      ∧ res.post_ops_attr
          = { post_op_c_i := p.post_ops_attr.post_op_c_i + 6 * (p.m0 / 6),
              post_op_c_j := p.post_ops_attr.post_op_c_j }
      ∧ (∀ c ∈ res.calls, c.post_ops_list = p.post_ops_list
          ∧ c.post_ops_attr = res.post_ops_attr)
      ∧ (p.m0 % 6 = 0 → res.calls = []) := by
  have hattr := m_loop_attr (row_group_6x16 ext A B p.toNArgs) (fun _ _ => rfl) C
    p.post_ops_attr (p.m0 / 6)
  rw [lpgemm_rowvar_f32f32f32of32_6x16m]
  simp only [hn, ne_eq, not_true_eq_false, if_false]
  by_cases hm : p.m0 % 6 = 0
  · refine ⟨_, consider_edge_cases_of_mod_eq_zero ext 16 A B p.toNArgs _ _ hm, hattr,
      ?_, ?_⟩
    · intro c hc
      exact absurd hc (List.not_mem_nil c)
    · intro _
      rfl
  · refine ⟨_, consider_edge_cases_of_mod_ne_zero ext 16 A B p.toNArgs _ _ hm, hattr,
      ?_, ?_⟩
    · intro c hc
      rw [List.mem_singleton.1 hc]
      exact ⟨rfl, rfl⟩
    · intro h
      exact absurd h hm

/-- The main kernel on the N-fringe path, on any input: it returns, its calls are those
of the chain, each with the sequence and the cursor row index the main kernel received,
and its own cursor row index is the one it received. -/
theorem lpgemm_rowvar_6x16m_chain_result (ext : Externals α) (A B : Mem α)
    (p : MainArgs α) (C : Mem α) (hn : p.n0 % 16 ≠ 0) :
    ∃ res, lpgemm_rowvar_f32f32f32of32_6x16m ext A B p C = some res
      ∧ res.calls = chain_calls p 0 (binary_widths (p.n0 % 16))
      ∧ res.post_ops_attr.post_op_c_i = p.post_ops_attr.post_op_c_i
      ∧ (∀ c ∈ res.calls, c.post_ops_list = p.post_ops_list
          ∧ c.post_ops_attr.post_op_c_i = p.post_ops_attr.post_op_c_i) := by
  have h15 : p.n0 % 16 < 16 := Nat.mod_lt _ (by decide)
  obtain ⟨s, hs, hcalls, _⟩ := n_fringe_chain_spec ext A B p C (p.n0 % 16)
    (by omega) (by omega)
  have hci := n_fringe_chain_c_i ext A B p C (p.n0 % 16) s hs
  rw [lpgemm_rowvar_f32f32f32of32_6x16m]
  simp only [hn, ne_eq, not_false_eq_true, if_true, hs, Option.map_some']
  refine ⟨_, rfl, hcalls, hci, ?_⟩
  intro c hc
  have hc' : c ∈ s.calls := hc
  rw [hcalls] at hc'
  exact chain_calls_args p _ 0 c hc'

/-- The main kernel returns on every input. -/
theorem lpgemm_rowvar_6x16m_isSome (ext : Externals α) (A B : Mem α)
    (p : MainArgs α) (C : Mem α) :
    ∃ res, lpgemm_rowvar_f32f32f32of32_6x16m ext A B p C = some res := by
  by_cases hn : p.n0 % 16 = 0
  · obtain ⟨res, h, _⟩ := lpgemm_rowvar_6x16m_result ext A B p C hn
    exact ⟨res, h⟩
  · obtain ⟨res, h, _⟩ := lpgemm_rowvar_6x16m_chain_result ext A B p C hn
    exact ⟨res, h⟩

/-- Claim C18. No kernel calls through a null handle: for every `m0` (and every other
input) each of the five kernels returns, which it would not after a call through
`NULL`. The index into the M-fringe table is `m0 mod 6`, in `0 .. 5`; the table has six
entries of which only entry 0 is `NULL`; and when `m0 mod 6 = 0` the table is not
consulted: the N-fringe kernels and the full-width path of the main kernel make no
call. -/
theorem C18_no_call_through_null (ext : Externals α) (A B C : Mem α) (p : MainArgs α) :
    (∃ res, lpgemm_rowvar_f32f32f32of32_6x16m ext A B p C = some res)
    ∧ (∃ res, lpgemm_rowvar_f32f32f32of32_6x8m ext A B p.toNArgs C = some res)
    ∧ (∃ res, lpgemm_rowvar_f32f32f32of32_6x4m ext A B p.toNArgs C = some res)
    ∧ (∃ res, lpgemm_rowvar_f32f32f32of32_6x2m ext A B p.toNArgs C = some res)
    ∧ (∃ res, lpgemm_rowvar_f32f32f32of32_6x1m ext A B p.toNArgs C = some res)
    ∧ p.m0 % 6 < 6
    ∧ (∀ w, (ker_fps w).length = 6)
    ∧ (∀ (w r : Nat) (h : r < (ker_fps w).length),
        (ker_fps w).get ⟨r, h⟩ = none ↔ r = 0)
    ∧ (p.m0 % 6 = 0 → ∀ cfg : NFringeCfg,
        ∃ res, lpgemm_rowvar_6xNm cfg ext A B p.toNArgs C = some res ∧ res.calls = [])
    ∧ (p.m0 % 6 = 0 → p.n0 % 16 = 0 →
        ∃ res, lpgemm_rowvar_f32f32f32of32_6x16m ext A B p C = some res
          ∧ res.calls = []) := by
  refine ⟨lpgemm_rowvar_6x16m_isSome ext A B p C,
    lpgemm_rowvar_6xNm_isSome cfg_6x8 ext A B p.toNArgs C,
    lpgemm_rowvar_6xNm_isSome cfg_6x4 ext A B p.toNArgs C,
    lpgemm_rowvar_6xNm_isSome cfg_6x2 ext A B p.toNArgs C,
    lpgemm_rowvar_6xNm_isSome cfg_6x1 ext A B p.toNArgs C,
    Nat.mod_lt _ (by decide), fun _ => rfl, ?_, ?_, ?_⟩
  · intro w r h
    have h6 : r < 6 := h
    constructor
    · intro hnone
      by_contra hr
      rw [ker_fps_get w r h hr] at hnone
      cases hnone
    · intro hr
      subst hr
      rfl
  · intro hm cfg
    obtain ⟨res, h, _, _, hc⟩ := lpgemm_rowvar_6xNm_result cfg ext A B p.toNArgs C
    exact ⟨res, h, hc hm⟩
  · intro hm hn
    obtain ⟨res, h, _, _, hc⟩ := lpgemm_rowvar_6x16m_result ext A B p C hn
    exact ⟨res, h, hc hm⟩

/-- Claim C19, as amended. The main kernel advances the row index of its own copy of the
cursor, which it gets by value: after a call with `n0 mod 16 = 0` that processes
`g = m0/6` full row groups, the kernel's local cursor, which is the one it hands to the
M-fringe kernel, has its row index equal to the value on entry plus `6*g`, and so has
the local cursor of each N-fringe kernel. The caller does not observe this: a block of
the main kernel that calls an N-fringe kernel has the same cursor row index after the
call as before, whatever the callee did with its copy, so that with `n0 mod 16 ≠ 0`
each N-fringe kernel in turn is called with the row index the main kernel received and
the main kernel's own row index is unchanged at return. -/
theorem C19_cursor_row_index (ext : Externals α) (A B C : Mem α) (p : MainArgs α) :
    (p.n0 % 16 = 0 →
      ∃ res, lpgemm_rowvar_f32f32f32of32_6x16m ext A B p C = some res
        ∧ res.post_ops_attr.post_op_c_i = p.post_ops_attr.post_op_c_i + 6 * (p.m0 / 6)
        ∧ ∀ c ∈ res.calls,
            c.post_ops_attr.post_op_c_i = p.post_ops_attr.post_op_c_i + 6 * (p.m0 / 6))
    ∧ (∀ cfg : NFringeCfg,
      ∃ res, lpgemm_rowvar_6xNm cfg ext A B p.toNArgs C = some res
        ∧ res.post_ops_attr.post_op_c_i = p.post_ops_attr.post_op_c_i + 6 * (p.m0 / 6))
    ∧ (∀ (name : NFringeName) (ker : NArgs α → Mem α → Option (KernelResult α))
        (nr_cur : Nat) (s s' : NChain α),
        n_fringe_block name ker nr_cur p s = some s' →
          s'.post_ops_attr.post_op_c_i = s.post_ops_attr.post_op_c_i)
    ∧ (p.n0 % 16 ≠ 0 →
      ∃ res, lpgemm_rowvar_f32f32f32of32_6x16m ext A B p C = some res
        ∧ res.post_ops_attr.post_op_c_i = p.post_ops_attr.post_op_c_i
        ∧ ∀ c ∈ res.calls, c.post_ops_attr.post_op_c_i = p.post_ops_attr.post_op_c_i) := by
  refine ⟨?_, ?_, ?_, ?_⟩
  · intro hn
    obtain ⟨res, h, hattr, hc, _⟩ := lpgemm_rowvar_6x16m_result ext A B p C hn
    refine ⟨res, h, by rw [hattr], ?_⟩
    intro c hm
    rw [(hc c hm).2, hattr]
  · intro cfg
    obtain ⟨res, h, hattr, _⟩ := lpgemm_rowvar_6xNm_result cfg ext A B p.toNArgs C
    exact ⟨res, h, by rw [hattr]⟩
  · intro name ker nr_cur s s' h
    exact n_fringe_block_c_i name ker nr_cur p s s' h
  · intro hn
    obtain ⟨res, h, _, hci, hc⟩ := lpgemm_rowvar_6x16m_chain_result ext A B p C hn
    exact ⟨res, h, hci, fun c hm => (hc c hm).2⟩

/-! ### C21 -/

/-- Claim C21. In each kernel (tile width `w`: 16, 8, 4, 2, 1) the label table has exactly
seven entries, in the kind order disabled, bias, relu, relu-with-scale, gelu-tanh,
gelu-erf, clip; entry `k` is the label of the kernel's own handler for kind `k` (entry
0 is the store label): the jump target determines the kind and the tile width, and the
targets of gelu-tanh and gelu-erf differ. At each label the post-op stage runs the
handler of that name: the sentinel kind leads to the store, every other kind to its
handler and then to the next node; the gelu-tanh handler applies the tanh approximation
and the gelu-erf handler the erf approximation. -/
theorem C21_label_table (w : Nat) (ext : Externals α) (cfg : NFringeCfg)
    (attr : lpgemm_post_op_attr) :
    post_ops_labels w
        = [Label.DISABLE w, Label.BIAS w, Label.RELU w, Label.RELU_SCALE w,
           Label.GELU_TANH w, Label.GELU_ERF w, Label.CLIP w]
    ∧ (post_ops_labels w).length = 7
    ∧ jump_target w LPGEMM_POST_OP_CODE.POST_OPS_DISABLE = Label.DISABLE w
    ∧ jump_target w LPGEMM_POST_OP_CODE.POST_OPS_BIAS = Label.BIAS w
    ∧ jump_target w LPGEMM_POST_OP_CODE.POST_OPS_RELU = Label.RELU w
    ∧ jump_target w LPGEMM_POST_OP_CODE.POST_OPS_RELU_SCALE = Label.RELU_SCALE w
    ∧ jump_target w LPGEMM_POST_OP_CODE.POST_OPS_GELU_TANH = Label.GELU_TANH w
    ∧ jump_target w LPGEMM_POST_OP_CODE.POST_OPS_GELU_ERF = Label.GELU_ERF w
    ∧ jump_target w LPGEMM_POST_OP_CODE.POST_OPS_CLIP = Label.CLIP w
    ∧ (∀ (k k' : LPGEMM_POST_OP_CODE) (w' : Nat),
        jump_target w k = jump_target w' k' → k = k' ∧ w = w')
    ∧ jump_target w LPGEMM_POST_OP_CODE.POST_OPS_GELU_TANH
        ≠ jump_target w LPGEMM_POST_OP_CODE.POST_OPS_GELU_ERF
    ∧ (∀ (node : lpgemm_post_op α) (next : List (lpgemm_post_op α)) (r : Acc6x16 α),
        (node.op_code = LPGEMM_POST_OP_CODE.POST_OPS_DISABLE →
          post_ops_6x16 ext attr (node :: next) r = r)
        ∧ (node.op_code = LPGEMM_POST_OP_CODE.POST_OPS_BIAS →
          post_ops_6x16 ext attr (node :: next) r
            = post_ops_6x16 ext attr next (POST_OPS_BIAS_6x16F node attr r))
        ∧ (node.op_code = LPGEMM_POST_OP_CODE.POST_OPS_RELU →
          post_ops_6x16 ext attr (node :: next) r
            = post_ops_6x16 ext attr next (POST_OPS_RELU_6x16F r))
        ∧ (node.op_code = LPGEMM_POST_OP_CODE.POST_OPS_RELU_SCALE →
          post_ops_6x16 ext attr (node :: next) r
            = post_ops_6x16 ext attr next (POST_OPS_RELU_SCALE_6x16F node r))
        ∧ (node.op_code = LPGEMM_POST_OP_CODE.POST_OPS_GELU_TANH →
          post_ops_6x16 ext attr (node :: next) r
            = post_ops_6x16 ext attr next (POST_OPS_GELU_TANH_6x16F ext r))
        ∧ (node.op_code = LPGEMM_POST_OP_CODE.POST_OPS_GELU_ERF →
          post_ops_6x16 ext attr (node :: next) r
            = post_ops_6x16 ext attr next (POST_OPS_GELU_ERF_6x16F ext r))
        ∧ (node.op_code = LPGEMM_POST_OP_CODE.POST_OPS_CLIP →
          post_ops_6x16 ext attr (node :: next) r
            = post_ops_6x16 ext attr next (POST_OPS_CLIP_6x16F node r)))
    ∧ (∀ (node : lpgemm_post_op α) (next : List (lpgemm_post_op α)) (r : Acc6 α),
        (node.op_code = LPGEMM_POST_OP_CODE.POST_OPS_DISABLE →
          post_ops_6xN cfg ext attr (node :: next) r = r)
        ∧ (node.op_code = LPGEMM_POST_OP_CODE.POST_OPS_BIAS →
          post_ops_6xN cfg ext attr (node :: next) r
            = post_ops_6xN cfg ext attr next (POST_OPS_BIAS_6xNF cfg node attr r))
        ∧ (node.op_code = LPGEMM_POST_OP_CODE.POST_OPS_RELU →
          post_ops_6xN cfg ext attr (node :: next) r
            = post_ops_6xN cfg ext attr next (POST_OPS_RELU_6xNF r))
        ∧ (node.op_code = LPGEMM_POST_OP_CODE.POST_OPS_RELU_SCALE →
          post_ops_6xN cfg ext attr (node :: next) r
            = post_ops_6xN cfg ext attr next (POST_OPS_RELU_SCALE_6xNF node r))
        ∧ (node.op_code = LPGEMM_POST_OP_CODE.POST_OPS_GELU_TANH →
          post_ops_6xN cfg ext attr (node :: next) r
            = post_ops_6xN cfg ext attr next (POST_OPS_GELU_TANH_6xNF cfg ext r))
        ∧ (node.op_code = LPGEMM_POST_OP_CODE.POST_OPS_GELU_ERF →
          post_ops_6xN cfg ext attr (node :: next) r
            = post_ops_6xN cfg ext attr next (POST_OPS_GELU_ERF_6xNF cfg ext r))
        ∧ (node.op_code = LPGEMM_POST_OP_CODE.POST_OPS_CLIP →
          post_ops_6xN cfg ext attr (node :: next) r
            = post_ops_6xN cfg ext attr next (POST_OPS_CLIP_6xNF node r)))
    ∧ (∀ (r : Acc6x16 α) (i j : Nat), i < 6 →
        (POST_OPS_GELU_TANH_6x16F ext r).row i j = ext.gelu_tanh_avx2 (r.row i j)
        ∧ (POST_OPS_GELU_ERF_6x16F ext r).row i j = ext.gelu_erf_avx2 (r.row i j))
    ∧ (∀ (r : Acc6 α) (i j : Nat), i < 6 →
        (POST_OPS_GELU_TANH_6xNF cfg ext r).row i j = cfg.gelu_tanh ext (r.row i j)
        ∧ (POST_OPS_GELU_ERF_6xNF cfg ext r).row i j = cfg.gelu_erf ext (r.row i j)) := by
  refine ⟨rfl, rfl, rfl, rfl, rfl, rfl, rfl, rfl, rfl, ?_, ?_, ?_, ?_, ?_, ?_⟩
  · intro k k' w' h
    cases k <;> cases k' <;> first | (cases h; exact ⟨rfl, rfl⟩) | cases h
  · intro h
    cases h
  · intro node next r
    refine ⟨?_, ?_, ?_, ?_, ?_, ?_, ?_⟩ <;> intro hk <;>
      rw [post_ops_6x16, hk] <;>
      rfl
  · intro node next r
    refine ⟨?_, ?_, ?_, ?_, ?_, ?_, ?_⟩ <;> intro hk <;>
      rw [post_ops_6xN, hk] <;>
      rfl
  · intro r i j hi
    constructor <;> interval_cases i <;> by_cases h8 : j < 8 <;>
      simp [POST_OPS_GELU_TANH_6x16F, POST_OPS_GELU_ERF_6x16F, Acc6x16.row, Acc6x16.map, h8]
  · intro r i j hi
    constructor <;> interval_cases i <;>
      simp [POST_OPS_GELU_TANH_6xNF, POST_OPS_GELU_ERF_6xNF, Acc6.row, Acc6.map,
        NFringeCfg.gelu_tanh, NFringeCfg.gelu_erf]

/-! ### C22 -/

/-- A row-group loop whose body writes only the 6 x `w` elements of its row group leaves
everything but the tiles of the row groups `0 .. n-1` untouched. -/
theorem m_loop_frame (w rs_c c : Nat)
    (rg : Nat → Mem α × lpgemm_post_op_attr → Mem α × lpgemm_post_op_attr)
    (hrg : ∀ m C' attr' x,
      (∀ i, i < 6 → ∀ j, j < w → x ≠ c + (6 * m + i) * rs_c + j) →
        (rg m (C', attr')).1 x = C' x)
    (C : Mem α) (attr : lpgemm_post_op_attr) (n : Nat) (x : Nat)
    (hx : ∀ R, R < 6 * n → ∀ j, j < w → x ≠ c + R * rs_c + j) :
    (for_loop rg n (C, attr)).1 x = C x := by
  induction n with
  | zero => rfl
  | succ n ih =>
    rw [for_loop_succ]
    have ih' := ih (fun R hR j hj => hx R (by omega) j hj)
    generalize for_loop rg n (C, attr) = st at ih' ⊢
    obtain ⟨C', attr'⟩ := st
    rw [hrg n C' attr' x (fun i hi j hj => hx (6 * n + i) (by omega) j hj)]
    exact ih'

theorem row_group_6xN_frame (cfg : NFringeCfg) (ext : Externals α) (A B : Mem α)
    (p : NArgs α) (m : Nat) (C' : Mem α) (attr' : lpgemm_post_op_attr) (x : Nat)
    (hx : ∀ i, i < 6 → ∀ j, j < cfg.nr → x ≠ p.c + (6 * m + i) * p.rs_c + j) :
    (row_group_6xN cfg ext A B p m (C', attr')).1 x = C' x := by
  have haddr : ∀ i j, p.c + (6 * m + i) * p.rs_c + j
      = p.c + m * 6 * p.rs_c + i * p.rs_c + j := by
    intro i j; ring
  simp only [row_group_6xN]
  apply store_6xN_frame
  intro i hi j hj
  rw [← haddr]
  exact hx i hi j hj

theorem row_group_6x16_frame (ext : Externals α) (A B : Mem α)
    (p : NArgs α) (m : Nat) (C' : Mem α) (attr' : lpgemm_post_op_attr) (x : Nat)
    (hx : ∀ i, i < 6 → ∀ j, j < 16 → x ≠ p.c + (6 * m + i) * p.rs_c + j) :
    (row_group_6x16 ext A B p m (C', attr')).1 x = C' x := by
  have haddr : ∀ i j, p.c + (6 * m + i) * p.rs_c + j
      = p.c + m * 6 * p.rs_c + i * p.rs_c + j := by
    intro i j; ring
  simp only [row_group_6x16]
  apply store_6x16_frame
  intro i hi j hj
  rw [← haddr]
  exact hx i hi j hj

/-- Claim C22. Each kernel's own stores stay inside its tile. What a kernel leaves in C is
the effect of its own stores (`own_stores_6xN`, `own_stores_6x16`), followed by the
M-fringe call when `m0 mod 6 ≠ 0`. The own stores of the `w`-column kernel
(`w = 16, 8, 4, 2, 1`) leave unchanged every element of C other than the
`c[i*rs_c + j]` with `i < 6*(m0/6)` and `j < w`, and (for rows of C that do not overlap,
`w ≤ rs_c`) they put the output value into each of these; in particular the 2-column
and the 1-column kernel touch 2 and 1 elements per row, and a kernel called with
`m0 < 6` stores nothing itself. -/
theorem C22_stores_inside_tile (ext : Externals α) (A B C : Mem α) (p : MainArgs α) :
    (∀ cfg : NFringeCfg,
      ∃ res, lpgemm_rowvar_6xNm cfg ext A B p.toNArgs C = some res
        ∧ (p.m0 % 6 = 0 → res.c = own_stores_6xN cfg ext A B p.toNArgs C)
        ∧ (p.m0 % 6 ≠ 0 →
            res.c = ext.m_fringe ⟨p.m0 % 6, cfg.nr⟩ (m_fringe_args p.toNArgs) A B
                      (own_stores_6xN cfg ext A B p.toNArgs C)))
    ∧ (p.n0 % 16 = 0 →
      ∃ res, lpgemm_rowvar_f32f32f32of32_6x16m ext A B p C = some res
        ∧ (p.m0 % 6 = 0 → res.c = own_stores_6x16 ext A B p.toNArgs C)
        ∧ (p.m0 % 6 ≠ 0 →
            res.c = ext.m_fringe ⟨p.m0 % 6, 16⟩ (m_fringe_args p.toNArgs) A B
                      (own_stores_6x16 ext A B p.toNArgs C)))
    ∧ (∀ (cfg : NFringeCfg) (x : Nat),
        (∀ i, i < 6 * (p.m0 / 6) → ∀ j, j < cfg.nr → x ≠ p.c + i * p.rs_c + j) →
          own_stores_6xN cfg ext A B p.toNArgs C x = C x)
    ∧ (∀ x : Nat,
        (∀ i, i < 6 * (p.m0 / 6) → ∀ j, j < 16 → x ≠ p.c + i * p.rs_c + j) →
          own_stores_6x16 ext A B p.toNArgs C x = C x)
    ∧ (∀ x : Nat,
        (∀ i, i < 6 * (p.m0 / 6) → ∀ j, j < 2 → x ≠ p.c + i * p.rs_c + j) →
          own_stores_6xN cfg_6x2 ext A B p.toNArgs C x = C x)
    ∧ (∀ x : Nat,
        (∀ i, i < 6 * (p.m0 / 6) → x ≠ p.c + i * p.rs_c) →
          own_stores_6xN cfg_6x1 ext A B p.toNArgs C x = C x)
    ∧ (∀ cfg : NFringeCfg,
        cfg = cfg_6x8 ∨ cfg = cfg_6x4 ∨ cfg = cfg_6x2 ∨ cfg = cfg_6x1 →
        cfg.nr ≤ p.rs_c →
        ∀ i, i < 6 * (p.m0 / 6) → ∀ j, j < cfg.nr →
          own_stores_6xN cfg ext A B p.toNArgs C (p.c + i * p.rs_c + j)
            = out_val (cfg.gelu_tanh ext) (cfg.gelu_erf ext) A B p.toNArgs C i j)
    ∧ (16 ≤ p.rs_c →
        ∀ i, i < 6 * (p.m0 / 6) → ∀ j, j < 16 →
          own_stores_6x16 ext A B p.toNArgs C (p.c + i * p.rs_c + j)
            = out_val ext.gelu_tanh_avx2 ext.gelu_erf_avx2 A B p.toNArgs C i j)
    ∧ (p.m0 < 6 →
        own_stores_6x16 ext A B p.toNArgs C = C
        ∧ ∀ cfg : NFringeCfg, own_stores_6xN cfg ext A B p.toNArgs C = C) := by
  have hattrN := fun cfg : NFringeCfg =>
    m_loop_attr (row_group_6xN cfg ext A B p.toNArgs) (fun _ _ => rfl) C
      p.post_ops_attr (p.m0 / 6)
  have hattr16 := m_loop_attr (row_group_6x16 ext A B p.toNArgs) (fun _ _ => rfl) C
    p.post_ops_attr (p.m0 / 6)
  have hframeN : ∀ (cfg : NFringeCfg) (x : Nat),
      (∀ i, i < 6 * (p.m0 / 6) → ∀ j, j < cfg.nr → x ≠ p.c + i * p.rs_c + j) →
        own_stores_6xN cfg ext A B p.toNArgs C x = C x := by
    intro cfg x hx
    exact m_loop_frame cfg.nr p.rs_c p.c (row_group_6xN cfg ext A B p.toNArgs)
      (fun m C' attr' y hy => row_group_6xN_frame cfg ext A B p.toNArgs m C' attr' y hy)
      C p.post_ops_attr (p.m0 / 6) x hx
  refine ⟨?_, ?_, hframeN, ?_, ?_, ?_, ?_, ?_, ?_⟩
  · intro cfg
    by_cases hm : p.m0 % 6 = 0
    · refine ⟨_, consider_edge_cases_of_mod_eq_zero ext cfg.nr A B p.toNArgs _ _ hm,
        fun _ => rfl, fun h => absurd hm h⟩
    · refine ⟨_, consider_edge_cases_of_mod_ne_zero ext cfg.nr A B p.toNArgs _ _ hm,
        fun h => absurd h hm, fun _ => ?_⟩
      simp only [hattrN cfg]
      rfl
  · intro hn
    rw [lpgemm_rowvar_f32f32f32of32_6x16m]
    simp only [hn, ne_eq, not_true_eq_false, if_false]
    by_cases hm : p.m0 % 6 = 0
    · refine ⟨_, consider_edge_cases_of_mod_eq_zero ext 16 A B p.toNArgs _ _ hm,
        fun _ => rfl, fun h => absurd hm h⟩
    · refine ⟨_, consider_edge_cases_of_mod_ne_zero ext 16 A B p.toNArgs _ _ hm,
        fun h => absurd h hm, fun _ => ?_⟩
      simp only [hattr16]
      rfl
  · intro x hx
    exact m_loop_frame 16 p.rs_c p.c (row_group_6x16 ext A B p.toNArgs)
      (fun m C' attr' y hy => row_group_6x16_frame ext A B p.toNArgs m C' attr' y hy)
      C p.post_ops_attr (p.m0 / 6) x hx
  · intro x hx
    exact hframeN cfg_6x2 x hx
  · intro x hx
    apply hframeN cfg_6x1 x
    intro i hi j hj
    have hj0 : j = 0 := by
      have : j < 1 := hj
      omega
    subst hj0
    exact hx i hi
  · intro cfg hcfg hrs i hi j hj
    have hvl : cfg.nr ≤ cfg.vl := by
      rcases hcfg with h | h | h | h <;> subst h <;> decide
    exact (m_loop_6xN_spec cfg hvl ext A B p.toNArgs hrs C (p.m0 / 6)).2.1 i hi j hj
  · intro hrs i hi j hj
    exact (m_loop_6x16_spec ext A B p.toNArgs hrs C (p.m0 / 6)).2.1 i hi j hj
  · intro hm
    have h0 : p.m0 / 6 = 0 := by omega
    refine ⟨?_, fun cfg => ?_⟩
    · simp only [own_stores_6x16, h0]
      rfl
    · simp only [own_stores_6xN, h0]
      rfl

/-! ### C23 -/

/-- Claim C23. The post-op sequence is applied from its first node to every row group:
for every `m0` and every row group `g` of a run (the state in front of row group `g`
is that after `g` iterations of the loop), the accumulators that row group `g` stores
are the scaled accumulators transformed by the handlers of the nodes of the whole
sequence `post_ops_list` (up to the sentinel), in sequence order, as for the first row
group; only the cursor row index, advanced by `6*g`, differs. -/
theorem C23_sequence_reset_per_row_group (ext : Externals α) (A B C : Mem α)
    (p : NArgs α) (g : Nat) :
    (row_group_6x16 ext A B p g (for_loop (row_group_6x16 ext A B p) g (C, p.post_ops_attr))).1
        = store_6x16 (for_loop (row_group_6x16 ext A B p) g (C, p.post_ops_attr)).1
            (p.c + g * 6 * p.rs_c) p.rs_c
            ((effective_ops p.post_ops_list).foldl
              (fun acc node =>
                handler_6x16 ext
                  { post_op_c_i := p.post_ops_attr.post_op_c_i + 6 * g,
                    post_op_c_j := p.post_ops_attr.post_op_c_j } node acc)
              (scaled_6x16 A B p g
                (for_loop (row_group_6x16 ext A B p) g (C, p.post_ops_attr)).1))
    ∧ (∀ cfg : NFringeCfg,
      (row_group_6xN cfg ext A B p g
          (for_loop (row_group_6xN cfg ext A B p) g (C, p.post_ops_attr))).1
        = store_6xN cfg (for_loop (row_group_6xN cfg ext A B p) g (C, p.post_ops_attr)).1
            (p.c + g * 6 * p.rs_c) p.rs_c
            ((effective_ops p.post_ops_list).foldl
              (fun acc node =>
                handler_6xN cfg ext
                  { post_op_c_i := p.post_ops_attr.post_op_c_i + 6 * g,
                    post_op_c_j := p.post_ops_attr.post_op_c_j } node acc)
              (scaled_6xN cfg A B p g
                (for_loop (row_group_6xN cfg ext A B p) g (C, p.post_ops_attr)).1))) := by
  have hattr16 := m_loop_attr (row_group_6x16 ext A B p) (fun _ _ => rfl) C
    p.post_ops_attr g
  refine ⟨?_, ?_⟩
  · simp only [row_group_6x16, post_ops_6x16_eq_pipeline, pipeline_6x16, hattr16]
  · intro cfg
    have hattrN := m_loop_attr (row_group_6xN cfg ext A B p) (fun _ _ => rfl) C
      p.post_ops_attr g
    simp only [row_group_6xN, post_ops_6xN_eq_pipeline, pipeline_6xN, hattrN]

/-! ### C24 -/

theorem load_lanes_reads_mem (n p x : Nat) :
    x ∈ load_lanes_reads n p ↔ p ≤ x ∧ x < p + n := by
  simp only [load_lanes_reads, List.mem_map, List.mem_range]
  constructor
  · rintro ⟨l, hl, rfl⟩
    omega
  · intro h
    exact ⟨x - p, by omega, by omega⟩

/-- A load depends on the memory only at the addresses it reads. -/
theorem load_lanes_congr (n : Nat) (mem mem' : Mem α) (p : Nat)
    (h : ∀ x ∈ load_lanes_reads n p, mem' x = mem x) :
    load_lanes n mem' p = load_lanes n mem p := by
  funext l
  simp only [load_lanes]
  split_ifs with hl
  · exact h _ ((load_lanes_reads_mem n p (p + l)).2 ⟨by omega, by omega⟩)
  · rfl

/-- Claim C24 on the code. The entries of the bias vector that the column-bias (`'r'`,
`'R'`) handler of a kernel reads are `bias[c_j .. c_j+15]` in the 16-column kernel,
`bias[c_j .. c_j+7]` in the 8-column kernel and `bias[c_j .. c_j+3]` in the 4-column,
the 2-column and the 1-column kernel (the handler's result depends on no other entry):
the 2-column and the 1-column kernel read up to `bias[c_j+3]`, beyond
`bias[c_j+w-1]`, and the entries `bias[c_j+2]` (`w = 2`) and `bias[c_j+1]` (`w = 1`)
are added into lanes of the accumulators. -/
theorem C24_bias_reads (attr : lpgemm_post_op_attr) :
    (∀ x, x ∈ bias_reads_6x16 attr ↔ attr.post_op_c_j ≤ x ∧ x < attr.post_op_c_j + 16)
    ∧ (∀ x, x ∈ bias_reads_6xN cfg_6x8 attr
        ↔ attr.post_op_c_j ≤ x ∧ x < attr.post_op_c_j + 8)
    ∧ (∀ x, x ∈ bias_reads_6xN cfg_6x4 attr
        ↔ attr.post_op_c_j ≤ x ∧ x < attr.post_op_c_j + 4)
    ∧ (∀ x, x ∈ bias_reads_6xN cfg_6x2 attr
        ↔ attr.post_op_c_j ≤ x ∧ x < attr.post_op_c_j + 4)
    ∧ (∀ x, x ∈ bias_reads_6xN cfg_6x1 attr
        ↔ attr.post_op_c_j ≤ x ∧ x < attr.post_op_c_j + 4)
    ∧ (∀ (cfg : NFringeCfg) (node : lpgemm_post_op α) (bias : Nat → α) (r : Acc6 α),
        (node.op_args2_char = 'r' ∨ node.op_args2_char = 'R') →
        (∀ x ∈ bias_reads_6xN cfg attr, bias x = node.op_args1 x) →
        POST_OPS_BIAS_6xNF cfg { node with op_args1 := bias } attr r
          = POST_OPS_BIAS_6xNF cfg node attr r)
    ∧ (∀ (node : lpgemm_post_op α) (bias : Nat → α) (r : Acc6x16 α),
        (node.op_args2_char = 'r' ∨ node.op_args2_char = 'R') →
        (∀ x ∈ bias_reads_6x16 attr, bias x = node.op_args1 x) →
        POST_OPS_BIAS_6x16F { node with op_args1 := bias } attr r
          = POST_OPS_BIAS_6x16F node attr r)
    ∧ (∀ (node : lpgemm_post_op α) (r : Acc6 α),
        (node.op_args2_char = 'r' ∨ node.op_args2_char = 'R') →
        (POST_OPS_BIAS_6xNF cfg_6x2 node attr r).row 0 2
          = r.row 0 2 + node.op_args1 (attr.post_op_c_j + 2))
    ∧ (∀ (node : lpgemm_post_op α) (r : Acc6 α),
        (node.op_args2_char = 'r' ∨ node.op_args2_char = 'R') →
        (POST_OPS_BIAS_6xNF cfg_6x1 node attr r).row 0 1
          = r.row 0 1 + node.op_args1 (attr.post_op_c_j + 1)) := by
  refine ⟨?_, ?_, ?_, ?_, ?_, ?_, ?_, ?_, ?_⟩
  · intro x
    simp only [bias_reads_6x16, List.mem_append, load_lanes_reads_mem]
    omega
  · intro x
    simp only [bias_reads_6xN, load_lanes_reads_mem, cfg_6x8]
    omega
  · intro x
    simp only [bias_reads_6xN, load_lanes_reads_mem, cfg_6x4]
    omega
  · intro x
    simp only [bias_reads_6xN, load_lanes_reads_mem, cfg_6x2]
    omega
  · intro x
    simp only [bias_reads_6xN, load_lanes_reads_mem, cfg_6x1]
    omega
  · intro cfg node bias r hflag h
    have hl := load_lanes_congr cfg.vl node.op_args1 bias (attr.post_op_c_j + 0 * 8) h
    simp only [POST_OPS_BIAS_6xNF, hflag, if_true, hl]
  · intro node bias r hflag h
    have h0 := load_lanes_congr 8 node.op_args1 bias (attr.post_op_c_j + 0 * 8)
      (fun x hx => h x (List.mem_append.2 (Or.inl hx)))
    have h1 := load_lanes_congr 8 node.op_args1 bias (attr.post_op_c_j + 1 * 8)
      (fun x hx => h x (List.mem_append.2 (Or.inr hx)))
    simp only [POST_OPS_BIAS_6x16F, hflag, if_true, _mm256_loadu_ps, h0, h1]
  · intro node r hflag
    simp [POST_OPS_BIAS_6xNF, hflag, Acc6.row, Acc6.map, _mm256_add_ps, load_lanes,
      cfg_6x2]
  · intro node r hflag
    simp [POST_OPS_BIAS_6xNF, hflag, Acc6.row, Acc6.map, _mm256_add_ps, load_lanes,
      cfg_6x1]

/-! ### C25 -/

/-- Claim C25. The main kernel depends on `n0` only through `n0 mod 16`: a call that
differs from another only in `n0`, with the same `n0 mod 16`, has the same result (the
same C memory, the same calls). In particular `n0 = 0` and `n0 = 32` are handled as
`n0 = 16`, by the full-width path (the row-group loop of the 16-column tile and the
M-fringe dispatch of width 16), and `n0 = 20` as `n0 = 4`, by the one call of the
4-column kernel. -/
theorem C25_n0_mod_16 (ext : Externals α) (A B C : Mem α) (p : MainArgs α) :
    (∀ n0' : Nat, n0' % 16 = p.n0 % 16 →
      lpgemm_rowvar_f32f32f32of32_6x16m ext A B { p with n0 := n0' } C
        = lpgemm_rowvar_f32f32f32of32_6x16m ext A B p C)
    ∧ lpgemm_rowvar_f32f32f32of32_6x16m ext A B { p with n0 := 0 } C
        = lpgemm_rowvar_f32f32f32of32_6x16m ext A B { p with n0 := 16 } C
    ∧ lpgemm_rowvar_f32f32f32of32_6x16m ext A B { p with n0 := 32 } C
        = lpgemm_rowvar_f32f32f32of32_6x16m ext A B { p with n0 := 16 } C
    ∧ lpgemm_rowvar_f32f32f32of32_6x16m ext A B { p with n0 := 16 } C
        = consider_edge_cases ext 16 A B p.toNArgs
            (for_loop (row_group_6x16 ext A B p.toNArgs) (p.m0 / 6)
              (C, p.post_ops_attr)).1
            (for_loop (row_group_6x16 ext A B p.toNArgs) (p.m0 / 6)
              (C, p.post_ops_attr)).2
    ∧ lpgemm_rowvar_f32f32f32of32_6x16m ext A B { p with n0 := 20 } C
        = lpgemm_rowvar_f32f32f32of32_6x16m ext A B { p with n0 := 4 } C
    ∧ (∃ res, lpgemm_rowvar_f32f32f32of32_6x16m ext A B { p with n0 := 20 } C = some res
        ∧ res.calls = [chain_call p 0 4]) := by
  have key : ∀ n1 n2 : Nat, n1 % 16 = n2 % 16 →
      lpgemm_rowvar_f32f32f32of32_6x16m ext A B { p with n0 := n1 } C
        = lpgemm_rowvar_f32f32f32of32_6x16m ext A B { p with n0 := n2 } C := by
    intro n1 n2 h
    simp only [lpgemm_rowvar_f32f32f32of32_6x16m, h]
    rfl
  refine ⟨fun n0' h => key n0' p.n0 h, key 0 16 rfl, key 32 16 rfl, ?_, key 20 4 rfl, ?_⟩
  · simp [lpgemm_rowvar_f32f32f32of32_6x16m]
  · obtain ⟨res, hres, hcalls, _⟩ :=
      lpgemm_rowvar_6x16m_chain_result ext A B { p with n0 := 20 } C
        (by show 20 % 16 ≠ 0; decide)
    have hb : binary_widths (20 % 16) = [4] := by decide
    refine ⟨res, hres, hcalls.trans ?_⟩
    show chain_calls _ 0 (binary_widths (20 % 16)) = _
    rw [hb]
    rfl

/-! ### C16 -/

theorem not_in_tile (c rs_c rows w x : Nat) :
    ¬ in_tile c rs_c rows w x ↔ ∀ i, i < rows → ∀ j, j < w → x ≠ c + i * rs_c + j := by
  unfold in_tile
  constructor
  · intro h i hi j hj hx
    exact h ⟨i, hi, j, hj, hx⟩
  · rintro h ⟨i, hi, j, hj, hx⟩
    exact h i hi j hj hx

theorem in_tile_mono (c rs_c rows rows' w x : Nat) (h : rows ≤ rows')
    (hx : in_tile c rs_c rows w x) : in_tile c rs_c rows' w x := by
  obtain ⟨i, hi, j, hj, e⟩ := hx
  exact ⟨i, by omega, j, hj, e⟩

/-- The row-group loop of an N-fringe kernel on the shared memory leaves every element
outside the rows of its row groups as it was. -/
theorem m_loop_6xN_shared_frame (cfg : NFringeCfg) (ext : Externals α) (A B : Mem α)
    (p : NArgs α) (nodes : List lpgemm_post_op_ptr) (M : Mem α) (x : Nat)
    (hx : ¬ in_tile p.c p.rs_c (6 * (p.m0 / 6)) cfg.nr x) :
    (for_loop (row_group_6xN_shared cfg ext A B p nodes) (p.m0 / 6)
      (M, p.post_ops_attr)).1 x = M x :=
  m_loop_frame cfg.nr p.rs_c p.c _
    (fun m C' attr' y hy =>
      row_group_6xN_frame cfg ext A B (p.read_nodes nodes C') m C' attr' y hy)
    M p.post_ops_attr (p.m0 / 6) x ((not_in_tile _ _ _ _ _).1 hx)

theorem m_loop_6x16_shared_frame (ext : Externals α) (A B : Mem α)
    (p : NArgs α) (nodes : List lpgemm_post_op_ptr) (M : Mem α) (x : Nat)
    (hx : ¬ in_tile p.c p.rs_c (6 * (p.m0 / 6)) 16 x) :
    (for_loop (row_group_6x16_shared ext A B p nodes) (p.m0 / 6)
      (M, p.post_ops_attr)).1 x = M x :=
  m_loop_frame 16 p.rs_c p.c _
    (fun m C' attr' y hy =>
      row_group_6x16_frame ext A B (p.read_nodes nodes C') m C' attr' y hy)
    M p.post_ops_attr (p.m0 / 6) x ((not_in_tile _ _ _ _ _).1 hx)

/-- The tail of a kernel whose M-fringe kernels write inside their tile: it returns, with
the cursor it was given, and leaves every element outside the rows `6*(m0/6) .. m0-1`
as it was. -/
theorem consider_edge_cases_frame (ext : Externals α) (hext : MFringeFrame ext) (w : Nat)
    (A B : Mem α) (p : NArgs α) (C : Mem α) (attr : lpgemm_post_op_attr) :
    ∃ res, consider_edge_cases ext w A B p C attr = some res
      ∧ res.post_ops_attr = attr
      ∧ ∀ x, ¬ in_tile p.c p.rs_c p.m0 w x → res.c x = C x := by
  by_cases hm : p.m0 % 6 = 0
  · exact ⟨_, consider_edge_cases_of_mod_eq_zero ext w A B p C attr hm, rfl, fun _ _ => rfl⟩
  · refine ⟨_, consider_edge_cases_of_mod_ne_zero ext w A B p C attr hm, rfl, ?_⟩
    intro x hx
    refine hext _ _ A B C x ?_
    rintro ⟨i, hi, j, hj, e⟩
    have hi' : i < p.m0 % 6 := hi
    have hle : p.m0 % 6 ≤ p.m0 := Nat.mod_le _ _
    refine hx ⟨p.m0 - p.m0 % 6 + i, by omega, j, hj, ?_⟩
    rw [e]
    show p.c + (p.m0 - p.m0 % 6) * p.rs_c + i * p.rs_c + j = _
    ring

/-- An N-fringe kernel on the shared memory, on any input: it returns, its cursor has
advanced by six rows per row group, and every element outside its tile of `m0` rows is
as it was. -/
theorem lpgemm_rowvar_6xNm_shared_result (cfg : NFringeCfg) (ext : Externals α)
    (hext : MFringeFrame ext) (A B : Mem α) (p : NArgs α)
    (nodes : List lpgemm_post_op_ptr) (M : Mem α) :
    ∃ res, lpgemm_rowvar_6xNm_shared cfg ext A B p nodes M = some res
      ∧ res.post_ops_attr
          = { post_op_c_i := p.post_ops_attr.post_op_c_i + 6 * (p.m0 / 6),
              post_op_c_j := p.post_ops_attr.post_op_c_j }
      ∧ ∀ x, ¬ in_tile p.c p.rs_c p.m0 cfg.nr x → res.c x = M x := by
  have hattr := m_loop_attr (row_group_6xN_shared cfg ext A B p nodes) (fun _ _ => rfl) M
    p.post_ops_attr (p.m0 / 6)
  obtain ⟨res, hres, ha, hfr⟩ := consider_edge_cases_frame ext hext cfg.nr A B
    (p.read_nodes nodes
      (for_loop (row_group_6xN_shared cfg ext A B p nodes) (p.m0 / 6)
        (M, p.post_ops_attr)).1)
    (for_loop (row_group_6xN_shared cfg ext A B p nodes) (p.m0 / 6) (M, p.post_ops_attr)).1
    (for_loop (row_group_6xN_shared cfg ext A B p nodes) (p.m0 / 6) (M, p.post_ops_attr)).2
  refine ⟨res, hres, ha.trans hattr, ?_⟩
  intro x hx
  rw [hfr x hx]
  exact m_loop_6xN_shared_frame cfg ext A B p nodes M x
    (fun h => hx (in_tile_mono _ _ _ _ _ _ (Nat.mul_div_le _ _) h))

/-- A block of the chain whose kernel returns and writes inside its tile of `m0` rows:
the block returns, advances the pointers and the cursor column index, and leaves every
element outside the set `W`, which contains that tile, as it was. -/
theorem n_fringe_block_frame (name : NFringeName)
    (ker : NArgs α → Mem α → Option (KernelResult α)) (w nr_cur : Nat) (p : MainArgs α)
    (s : NChain α) (W : Nat → Prop) (M : Mem α)
    (hker : ∀ q M', ∃ res, ker q M' = some res
      ∧ ∀ x, ¬ in_tile q.c q.rs_c q.m0 w x → res.c x = M' x)
    (hW : ∀ x, in_tile s.cij p.rs_c p.m0 w x → W x)
    (hs : ∀ x, ¬ W x → s.C x = M x) :
    ∃ s', n_fringe_block name ker nr_cur p s = some s'
      ∧ s'.cij = s.cij + nr_cur * p.cs_c
      ∧ s'.n_left = s.n_left - nr_cur
      ∧ s'.post_ops_attr
          = { s.post_ops_attr with post_op_c_j := s.post_ops_attr.post_op_c_j + nr_cur }
      ∧ ∀ x, ¬ W x → s'.C x = M x := by
  obtain ⟨res, hres, hfr⟩ := hker (n_fringe_args p s) s.C
  refine ⟨_, by rw [n_fringe_block, hres], rfl, rfl, rfl, ?_⟩
  intro x hx
  show res.c x = M x
  rw [hfr x (fun h => hx (hW x h))]
  exact hs x hx

theorem n_fringe_last_frame (name : NFringeName)
    (ker : NArgs α → Mem α → Option (KernelResult α)) (w : Nat) (p : MainArgs α)
    (s : NChain α) (W : Nat → Prop) (M : Mem α)
    (hker : ∀ q M', ∃ res, ker q M' = some res
      ∧ ∀ x, ¬ in_tile q.c q.rs_c q.m0 w x → res.c x = M' x)
    (hW : ∀ x, in_tile s.cij p.rs_c p.m0 w x → W x)
    (hs : ∀ x, ¬ W x → s.C x = M x) :
    ∃ s', n_fringe_last name ker p s = some s'
      ∧ s'.post_ops_attr = s.post_ops_attr
      ∧ ∀ x, ¬ W x → s'.C x = M x := by
  obtain ⟨res, hres, hfr⟩ := hker (n_fringe_args p s) s.C
  refine ⟨{ s with C := res.c, calls := s.calls ++ [Call.n_fringe name (n_fringe_args p s)] },
    by rw [n_fringe_last, hres], rfl, ?_⟩
  intro x hx
  show res.c x = M x
  rw [hfr x (fun h => hx (hW x h))]
  exact hs x hx

/-- One of the first three blocks of the chain on the shared memory, taken or not. -/
theorem shared_chain_step (cfg : NFringeCfg) (name : NFringeName) (ext : Externals α)
    (hext : MFringeFrame ext) (A B : Mem α) (p : MainArgs α)
    (nodes : List lpgemm_post_op_ptr) (W : Nat → Prop) (M : Mem α) (n off off' : Nat)
    (s : NChain α)
    (hyes : cfg.nr ≤ n - off → off + cfg.nr = off' ∧ off' ≤ n
      ∧ ∀ x, in_tile (p.c + off * p.cs_c) p.rs_c p.m0 cfg.nr x → W x)
    (hno : ¬ cfg.nr ≤ n - off → off' = off)
    (hinv : SharedChainInv p W M n off s) :
    ∃ s', (if cfg.nr ≤ s.n_left then
            n_fringe_block name
              (fun q M' => lpgemm_rowvar_6xNm_shared cfg ext A B q nodes M') cfg.nr p s
          else some s) = some s'
      ∧ SharedChainInv p W M n off' s' := by
  obtain ⟨hcij, hnl, hattr, hs⟩ := hinv
  by_cases hc : cfg.nr ≤ n - off
  · obtain ⟨ho, hle, hW⟩ := hyes hc
    obtain ⟨s', he, hcij', hnl', hattr', hs'⟩ := n_fringe_block_frame name
      (fun q M' => lpgemm_rowvar_6xNm_shared cfg ext A B q nodes M') cfg.nr cfg.nr p s W M
      (fun q M' => by
        obtain ⟨res, hres, _, hfr⟩ := lpgemm_rowvar_6xNm_shared_result cfg ext hext A B q
          nodes M'
        exact ⟨res, hres, hfr⟩)
      (by rw [hcij]; exact hW) hs
    refine ⟨s', by rw [hnl, if_pos hc]; exact he, ?_, ?_, ?_, hs'⟩
    · rw [hcij', hcij, ← ho]; ring
    · rw [hnl', hnl]; omega
    · rw [hattr', hattr, ← ho]
      simp only [lpgemm_post_op_attr.mk.injEq, true_and]
      ring
  · have ho := hno hc
    subst ho
    exact ⟨s, by rw [hnl, if_neg hc], hcij, hnl, hattr, hs⟩

/-- The last block of the chain on the shared memory, taken or not. -/
theorem shared_chain_last (ext : Externals α)
    (hext : MFringeFrame ext) (A B : Mem α) (p : MainArgs α)
    (nodes : List lpgemm_post_op_ptr) (W : Nat → Prop) (M : Mem α) (n off : Nat)
    (s : NChain α)
    (hyes : 1 = n - off →
      ∀ x, in_tile (p.c + off * p.cs_c) p.rs_c p.m0 1 x → W x)
    (hinv : SharedChainInv p W M n off s) :
    ∃ s', (if 1 = s.n_left then
            n_fringe_last ⟨1⟩
              (fun q M' => lpgemm_rowvar_6xNm_shared cfg_6x1 ext A B q nodes M') p s
          else some s) = some s'
      ∧ s'.post_ops_attr
          = { post_op_c_i := p.post_ops_attr.post_op_c_i,
              post_op_c_j := p.post_ops_attr.post_op_c_j + off }
      ∧ ∀ x, ¬ W x → s'.C x = M x := by
  obtain ⟨hcij, hnl, hattr, hs⟩ := hinv
  by_cases hc : 1 = n - off
  · obtain ⟨s', he, hattr', hs'⟩ := n_fringe_last_frame ⟨1⟩
      (fun q M' => lpgemm_rowvar_6xNm_shared cfg_6x1 ext A B q nodes M') 1 p s W M
      (fun q M' => by
        obtain ⟨res, hres, _, hfr⟩ := lpgemm_rowvar_6xNm_shared_result cfg_6x1 ext hext A B q
          nodes M'
        exact ⟨res, hres, hfr⟩)
      (by rw [hcij]; exact hyes hc) hs
    exact ⟨s', by rw [hnl, if_pos hc]; exact he, hattr'.trans hattr, hs'⟩
  · exact ⟨s, by rw [hnl, if_neg hc], hattr, hs⟩

/-- The chunks of the binary expansion of `n < 16`, at the offsets the chain gives them. -/
theorem chain_chunks_mem : ∀ n, n < 16 →
    (8 ≤ n → (0, 8) ∈ chain_chunks 0 (binary_widths n))
    ∧ (4 ≤ n % 8 → (n - n % 8, 4) ∈ chain_chunks 0 (binary_widths n))
    ∧ (2 ≤ n % 4 → (n - n % 4, 2) ∈ chain_chunks 0 (binary_widths n))
    ∧ (1 = n % 2 → (n - n % 2, 1) ∈ chain_chunks 0 (binary_widths n)) := by
  intro n hn
  interval_cases n <;> decide

/-- Two memories that hold the same values in the floats the nodes point to give the
same sequence. -/
theorem read_nodes_congr (p : NArgs α) (nodes : List lpgemm_post_op_ptr) (M M' : Mem α)
    (h : ∀ node ∈ nodes, ∀ x, node.reads x → M' x = M x) :
    p.read_nodes nodes M' = p.read_nodes nodes M := by
  have hl : nodes.map (lpgemm_post_op_ptr.deref M')
      = nodes.map (lpgemm_post_op_ptr.deref M) := by
    refine List.map_congr_left (fun node hnode => ?_)
    have hn := h node hnode
    obtain ⟨code, a1, a2, ch, a3⟩ := node
    cases code
    case POST_OPS_BIAS =>
      have e : ∀ l, M' (a1 + l) = M (a1 + l) := fun l =>
        hn (a1 + l) (show a1 ≤ a1 + l from Nat.le_add_right _ _)
      simp [lpgemm_post_op_ptr.deref, e]
    case POST_OPS_RELU_SCALE =>
      have e : M' a2 = M a2 := hn a2 (show a2 = a2 from rfl)
      simp [lpgemm_post_op_ptr.deref, e]
    case POST_OPS_CLIP =>
      have e2 : M' a2 = M a2 := hn a2 (show a2 = a2 ∨ a2 = a3 from Or.inl rfl)
      have e3 : M' a3 = M a3 := hn a3 (show a3 = a2 ∨ a3 = a3 from Or.inr rfl)
      simp [lpgemm_post_op_ptr.deref, e2, e3]
    all_goals simp [lpgemm_post_op_ptr.deref]
  simp only [NArgs.read_nodes, hl]

theorem read_nodes_of_frame (p : NArgs α) (nodes : List lpgemm_post_op_ptr)
    (W : Nat → Prop) (hsep : NodesOutside W nodes) (M M' : Mem α)
    (h : ∀ x, ¬ W x → M' x = M x) :
    p.read_nodes nodes M' = p.read_nodes nodes M :=
  read_nodes_congr p nodes M M' (fun node hnode x hx => h x (hsep node hnode x hx))

theorem nodesOutside_mono (W W' : Nat → Prop) (nodes : List lpgemm_post_op_ptr)
    (h : ∀ x, W x → W' x) (hsep : NodesOutside W' nodes) : NodesOutside W nodes :=
  fun node hnode x hx hw => hsep node hnode x hx (h x hw)

theorem row_group_6x16_shared_eq (ext : Externals α) (A B : Mem α) (p : NArgs α)
    (nodes : List lpgemm_post_op_ptr) (m : Nat) (st : Mem α × lpgemm_post_op_attr) :
    row_group_6x16_shared ext A B p nodes m st
      = row_group_6x16 ext A B (p.read_nodes nodes st.1) m st := rfl

theorem row_group_6xN_shared_eq (cfg : NFringeCfg) (ext : Externals α) (A B : Mem α)
    (p : NArgs α) (nodes : List lpgemm_post_op_ptr) (m : Nat)
    (st : Mem α × lpgemm_post_op_attr) :
    row_group_6xN_shared cfg ext A B p nodes m st
      = row_group_6xN cfg ext A B (p.read_nodes nodes st.1) m st := rfl

/-- With the buffers of the nodes outside the row groups, the row-group loop of an
N-fringe kernel on the shared memory is the loop on the sequence as it reads on entry. -/
theorem m_loop_6xN_shared_eq (cfg : NFringeCfg) (ext : Externals α) (A B : Mem α)
    (p : NArgs α) (nodes : List lpgemm_post_op_ptr) (M : Mem α) (rows : Nat)
    (hsep : NodesOutside (in_tile p.c p.rs_c rows cfg.nr) nodes)
    (attr : lpgemm_post_op_attr) (n : Nat) (hn : 6 * n ≤ rows) :
    for_loop (row_group_6xN_shared cfg ext A B p nodes) n (M, attr)
      = for_loop (row_group_6xN cfg ext A B (p.read_nodes nodes M)) n (M, attr) := by
  induction n with
  | zero => rfl
  | succ n ih =>
    have e : p.read_nodes nodes
          (for_loop (row_group_6xN cfg ext A B (p.read_nodes nodes M)) n (M, attr)).1
        = p.read_nodes nodes M :=
      read_nodes_of_frame p nodes _ hsep M _ (fun x hx =>
        m_loop_frame cfg.nr p.rs_c p.c (row_group_6xN cfg ext A B (p.read_nodes nodes M))
          (fun m C' attr' y hy =>
            row_group_6xN_frame cfg ext A B (p.read_nodes nodes M) m C' attr' y hy)
          M attr n x
          ((not_in_tile _ _ _ _ _).1
            (fun h => hx (in_tile_mono _ _ _ _ _ _ (by omega) h))))
    rw [for_loop_succ, for_loop_succ, ih (by omega), row_group_6xN_shared_eq, e]

theorem m_loop_6x16_shared_eq (ext : Externals α) (A B : Mem α)
    (p : NArgs α) (nodes : List lpgemm_post_op_ptr) (M : Mem α) (rows : Nat)
    (hsep : NodesOutside (in_tile p.c p.rs_c rows 16) nodes)
    (attr : lpgemm_post_op_attr) (n : Nat) (hn : 6 * n ≤ rows) :
    for_loop (row_group_6x16_shared ext A B p nodes) n (M, attr)
      = for_loop (row_group_6x16 ext A B (p.read_nodes nodes M)) n (M, attr) := by
  induction n with
  | zero =>
    exact (rfl : for_loop (row_group_6x16_shared ext A B p nodes) 0 (M, attr) = (M, attr)).trans
      (rfl : (M, attr) = for_loop (row_group_6x16 ext A B (p.read_nodes nodes M)) 0 (M, attr))
  | succ n ih =>
    have e : p.read_nodes nodes
          (for_loop (row_group_6x16 ext A B (p.read_nodes nodes M)) n (M, attr)).1
        = p.read_nodes nodes M :=
      read_nodes_of_frame p nodes _ hsep M _ (fun x hx =>
        m_loop_frame 16 p.rs_c p.c (row_group_6x16 ext A B (p.read_nodes nodes M))
          (fun m C' attr' y hy =>
            row_group_6x16_frame ext A B (p.read_nodes nodes M) m C' attr' y hy)
          M attr n x
          ((not_in_tile _ _ _ _ _).1
            (fun h => hx (in_tile_mono _ _ _ _ _ _ (by omega) h))))
    rw [for_loop_succ, for_loop_succ, ih (by omega), row_group_6x16_shared_eq, e]

/-- With the buffers of the nodes outside its tile, an N-fringe kernel on the shared
memory is the kernel run on the sequence as it reads on entry. -/
theorem lpgemm_rowvar_6xNm_shared_eq (cfg : NFringeCfg) (ext : Externals α) (A B : Mem α)
    (p : NArgs α) (nodes : List lpgemm_post_op_ptr) (M : Mem α)
    (hsep : NodesOutside (in_tile p.c p.rs_c p.m0 cfg.nr) nodes) :
    lpgemm_rowvar_6xNm_shared cfg ext A B p nodes M
      = lpgemm_rowvar_6xNm cfg ext A B (p.read_nodes nodes M) M := by
  have hloop := m_loop_6xN_shared_eq cfg ext A B p nodes M p.m0 hsep p.post_ops_attr
    (p.m0 / 6) (Nat.mul_div_le _ _)
  have hfr : ∀ x, ¬ in_tile p.c p.rs_c p.m0 cfg.nr x →
      (for_loop (row_group_6xN_shared cfg ext A B p nodes) (p.m0 / 6)
        (M, p.post_ops_attr)).1 x = M x :=
    fun x hx => m_loop_6xN_shared_frame cfg ext A B p nodes M x
      (fun h => hx (in_tile_mono _ _ _ _ _ _ (Nat.mul_div_le _ _) h))
  unfold lpgemm_rowvar_6xNm_shared lpgemm_rowvar_6xNm
  simp only []
  rw [read_nodes_of_frame p nodes _ hsep M _ hfr, hloop]
  rfl

theorem read_nodes_self (q : NArgs α) (nodes : List lpgemm_post_op_ptr) (M : Mem α)
    (h : q.post_ops_list = nodes.map (lpgemm_post_op_ptr.deref M)) :
    q.read_nodes nodes M = q := by
  cases q
  simp only [NArgs.read_nodes] at h ⊢
  rw [← h]

/-- With the buffers of the nodes outside `W`, which contains the tile of the chunk, and
the memory outside `W` as on entry, the N-fringe kernel of a block of the chain on the
shared memory gives what the kernel gives on the sequence read on entry. -/
theorem chain_kernel_shared_eq (cfg : NFringeCfg) (ext : Externals α) (A B : Mem α)
    (p : MainArgs α) (nodes : List lpgemm_post_op_ptr) (W : Nat → Prop) (M : Mem α)
    (s : NChain α)
    (hW : ∀ x, in_tile s.cij p.rs_c p.m0 cfg.nr x → W x)
    (hs : ∀ x, ¬ W x → s.C x = M x)
    (hsep : NodesOutside W nodes)
    (hp : p.post_ops_list = nodes.map (lpgemm_post_op_ptr.deref M)) :
    lpgemm_rowvar_6xNm_shared cfg ext A B (n_fringe_args p s) nodes s.C
      = lpgemm_rowvar_6xNm cfg ext A B (n_fringe_args p s) s.C := by
  rw [lpgemm_rowvar_6xNm_shared_eq cfg ext A B (n_fringe_args p s) nodes s.C
      (nodesOutside_mono _ W nodes hW hsep),
    read_nodes_of_frame (n_fringe_args p s) nodes W hsep M s.C hs,
    read_nodes_self (n_fringe_args p s) nodes M hp]

theorem shared_chain_step_eq (cfg : NFringeCfg) (name : NFringeName) (ext : Externals α)
    (A B : Mem α) (p : MainArgs α)
    (nodes : List lpgemm_post_op_ptr) (W : Nat → Prop) (M : Mem α) (n off : Nat)
    (s : NChain α)
    (hyes : cfg.nr ≤ n - off →
      ∀ x, in_tile (p.c + off * p.cs_c) p.rs_c p.m0 cfg.nr x → W x)
    (hinv : SharedChainInv p W M n off s)
    (hsep : NodesOutside W nodes)
    (hp : p.post_ops_list = nodes.map (lpgemm_post_op_ptr.deref M)) :
    (if cfg.nr ≤ s.n_left then
        n_fringe_block name (lpgemm_rowvar_6xNm cfg ext A B) cfg.nr p s
      else some s)
    = (if cfg.nr ≤ s.n_left then
        n_fringe_block name
          (fun q M' => lpgemm_rowvar_6xNm_shared cfg ext A B q nodes M') cfg.nr p s
      else some s) := by
  obtain ⟨hcij, hnl, _, hs⟩ := hinv
  by_cases hc : cfg.nr ≤ n - off
  · rw [hnl, if_pos hc, if_pos hc]
    unfold n_fringe_block
    simp only []
    rw [chain_kernel_shared_eq cfg ext A B p nodes W M s (by rw [hcij]; exact hyes hc) hs
      hsep hp]
  · rw [hnl, if_neg hc, if_neg hc]

theorem shared_chain_last_eq (ext : Externals α)
    (A B : Mem α) (p : MainArgs α)
    (nodes : List lpgemm_post_op_ptr) (W : Nat → Prop) (M : Mem α) (n off : Nat)
    (s : NChain α)
    (hyes : 1 = n - off →
      ∀ x, in_tile (p.c + off * p.cs_c) p.rs_c p.m0 1 x → W x)
    (hinv : SharedChainInv p W M n off s)
    (hsep : NodesOutside W nodes)
    (hp : p.post_ops_list = nodes.map (lpgemm_post_op_ptr.deref M)) :
    (if 1 = s.n_left then
        n_fringe_last ⟨1⟩ (lpgemm_rowvar_6xNm cfg_6x1 ext A B) p s
      else some s)
    = (if 1 = s.n_left then
        n_fringe_last ⟨1⟩
          (fun q M' => lpgemm_rowvar_6xNm_shared cfg_6x1 ext A B q nodes M') p s
      else some s) := by
  obtain ⟨hcij, hnl, _, hs⟩ := hinv
  by_cases hc : 1 = n - off
  · rw [hnl, if_pos hc, if_pos hc]
    unfold n_fringe_last
    simp only []
    rw [chain_kernel_shared_eq cfg_6x1 ext A B p nodes W M s
      (by rw [hcij]; exact hyes hc) hs hsep hp]
  · rw [hnl, if_neg hc, if_neg hc]

/-- The N-fringe chain of the main kernel on the shared memory, for `1 ≤ n ≤ 15`: it
returns, the cursor row index is as received and the column index has advanced by
`n - n % 2`, and every element outside the tiles of the chunks is as it was. -/
theorem n_fringe_chain_shared_frame (ext : Externals α) (hext : MFringeFrame ext)
    (A B : Mem α) (p : MainArgs α) (nodes : List lpgemm_post_op_ptr) (M : Mem α)
    (n : Nat) (h15 : n < 16) :
    ∃ s, n_fringe_chain_shared ext A B p nodes M n = some s
      ∧ s.post_ops_attr
          = { post_op_c_i := p.post_ops_attr.post_op_c_i,
              post_op_c_j := p.post_ops_attr.post_op_c_j + (n - n % 2) }
      ∧ (∀ x, ¬ (∃ sw ∈ chain_chunks 0 (binary_widths n),
                  in_tile (p.c + sw.1 * p.cs_c) p.rs_c p.m0 sw.2 x) → s.C x = M x)
      ∧ (NodesOutside (fun x => ∃ sw ∈ chain_chunks 0 (binary_widths n),
            in_tile (p.c + sw.1 * p.cs_c) p.rs_c p.m0 sw.2 x) nodes →
          p.post_ops_list = nodes.map (lpgemm_post_op_ptr.deref M) →
          n_fringe_chain ext A B p M n = some s) := by
  obtain ⟨k8, k4, k2, k1⟩ := chain_chunks_mem n h15
  have h0 : SharedChainInv p
      (fun x => ∃ sw ∈ chain_chunks 0 (binary_widths n),
        in_tile (p.c + sw.1 * p.cs_c) p.rs_c p.m0 sw.2 x) M n 0 (n_fringe_init p M n) := by
    refine ⟨?_, ?_, ?_, fun _ _ => rfl⟩ <;> simp [n_fringe_init]
  obtain ⟨s1, he1, hi1⟩ := shared_chain_step cfg_6x8 ⟨8⟩ ext hext A B p nodes _ M n 0
    (n - n % 8) _
    (by
      intro hc
      have hc' : 8 ≤ n - 0 := hc
      refine ⟨by show 0 + 8 = _; omega, by omega, fun x hx => ⟨(0, 8), k8 (by omega), hx⟩⟩)
    (by
      intro hc
      have hc' : ¬ 8 ≤ n - 0 := hc
      omega)
    h0
  obtain ⟨s2, he2, hi2⟩ := shared_chain_step cfg_6x4 ⟨4⟩ ext hext A B p nodes _ M n
    (n - n % 8) (n - n % 4) s1
    (by
      intro hc
      have hc' : 4 ≤ n - (n - n % 8) := hc
      refine ⟨by show (n - n % 8) + 4 = _; omega, by omega,
        fun x hx => ⟨(n - n % 8, 4), k4 (by omega), hx⟩⟩)
    (by
      intro hc
      have hc' : ¬ 4 ≤ n - (n - n % 8) := hc
      omega)
    hi1
  obtain ⟨s3, he3, hi3⟩ := shared_chain_step cfg_6x2 ⟨2⟩ ext hext A B p nodes _ M n
    (n - n % 4) (n - n % 2) s2
    (by
      intro hc
      have hc' : 2 ≤ n - (n - n % 4) := hc
      refine ⟨by show (n - n % 4) + 2 = _; omega, by omega,
        fun x hx => ⟨(n - n % 4, 2), k2 (by omega), hx⟩⟩)
    (by
      intro hc
      have hc' : ¬ 2 ≤ n - (n - n % 4) := hc
      omega)
    hi2
  obtain ⟨s4, he4, ha4, hs4⟩ := shared_chain_last ext hext A B p nodes _ M n
    (n - n % 2) s3
    (by
      intro hc x hx
      exact ⟨(n - n % 2, 1), k1 (by omega), hx⟩)
    hi3
  have hW8 : 8 ≤ n - 0 → ∀ x, in_tile (p.c + 0 * p.cs_c) p.rs_c p.m0 8 x →
      ∃ sw ∈ chain_chunks 0 (binary_widths n),
        in_tile (p.c + sw.1 * p.cs_c) p.rs_c p.m0 sw.2 x :=
    fun hc x hx => ⟨(0, 8), k8 (by omega), hx⟩
  have hW4 : 4 ≤ n - (n - n % 8) →
      ∀ x, in_tile (p.c + (n - n % 8) * p.cs_c) p.rs_c p.m0 4 x →
      ∃ sw ∈ chain_chunks 0 (binary_widths n),
        in_tile (p.c + sw.1 * p.cs_c) p.rs_c p.m0 sw.2 x :=
    fun hc x hx => ⟨(n - n % 8, 4), k4 (by omega), hx⟩
  have hW2 : 2 ≤ n - (n - n % 4) →
      ∀ x, in_tile (p.c + (n - n % 4) * p.cs_c) p.rs_c p.m0 2 x →
      ∃ sw ∈ chain_chunks 0 (binary_widths n),
        in_tile (p.c + sw.1 * p.cs_c) p.rs_c p.m0 sw.2 x :=
    fun hc x hx => ⟨(n - n % 4, 2), k2 (by omega), hx⟩
  have hW1 : 1 = n - (n - n % 2) →
      ∀ x, in_tile (p.c + (n - n % 2) * p.cs_c) p.rs_c p.m0 1 x →
      ∃ sw ∈ chain_chunks 0 (binary_widths n),
        in_tile (p.c + sw.1 * p.cs_c) p.rs_c p.m0 sw.2 x :=
    fun hc x hx => ⟨(n - n % 2, 1), k1 (by omega), hx⟩
  refine ⟨s4, ?_, ha4, hs4, ?_⟩
  rotate_left
  · intro hsep hp
    have q1 : (if 8 ≤ (n_fringe_init p M n).n_left then
        n_fringe_block ⟨8⟩ (lpgemm_rowvar_f32f32f32of32_6x8m ext A B) 8 p
          (n_fringe_init p M n)
      else some (n_fringe_init p M n)) = some s1 :=
      (shared_chain_step_eq cfg_6x8 ⟨8⟩ ext A B p nodes _ M n 0 _ hW8 h0 hsep hp).trans he1
    have q2 : (if 4 ≤ s1.n_left then
        n_fringe_block ⟨4⟩ (lpgemm_rowvar_f32f32f32of32_6x4m ext A B) 4 p s1
      else some s1) = some s2 :=
      (shared_chain_step_eq cfg_6x4 ⟨4⟩ ext A B p nodes _ M n _ _ hW4 hi1 hsep hp).trans he2
    have q3 : (if 2 ≤ s2.n_left then
        n_fringe_block ⟨2⟩ (lpgemm_rowvar_f32f32f32of32_6x2m ext A B) 2 p s2
      else some s2) = some s3 :=
      (shared_chain_step_eq cfg_6x2 ⟨2⟩ ext A B p nodes _ M n _ _ hW2 hi2 hsep hp).trans he3
    have q4 : (if 1 = s3.n_left then
        n_fringe_last ⟨1⟩ (lpgemm_rowvar_f32f32f32of32_6x1m ext A B) p s3
      else some s3) = some s4 :=
      (shared_chain_last_eq ext A B p nodes _ M n _ _ hW1 hi3 hsep hp).trans he4
    unfold n_fringe_chain
    simp only []
    rw [q1, Option.some_bind, q2, Option.some_bind, q3, Option.some_bind]
    exact q4
  have he1' : (if 8 ≤ (n_fringe_init p M n).n_left then
      n_fringe_block ⟨8⟩
        (fun q M' => lpgemm_rowvar_6xNm_shared cfg_6x8 ext A B q nodes M') 8 p
        (n_fringe_init p M n)
    else some (n_fringe_init p M n)) = some s1 := he1
  have he2' : (if 4 ≤ s1.n_left then
      n_fringe_block ⟨4⟩
        (fun q M' => lpgemm_rowvar_6xNm_shared cfg_6x4 ext A B q nodes M') 4 p s1
    else some s1) = some s2 := he2
  have he3' : (if 2 ≤ s2.n_left then
      n_fringe_block ⟨2⟩
        (fun q M' => lpgemm_rowvar_6xNm_shared cfg_6x2 ext A B q nodes M') 2 p s2
    else some s2) = some s3 := he3
  unfold n_fringe_chain_shared
  simp only []
  rw [he1', Option.some_bind, he2', Option.some_bind, he3', Option.some_bind]
  exact he4

/-- The main kernel on the shared memory, on any input: it returns, every element
outside its output tile is as it was, and its cursor is the one it received with the
row index advanced by 6 per row group (full-width path) or the column index advanced
by the chunks other than the last 1-column one (N-fringe chain). -/
theorem lpgemm_rowvar_6x16m_shared_result (ext : Externals α) (hext : MFringeFrame ext)
    (A B : Mem α) (p : MainArgs α) (nodes : List lpgemm_post_op_ptr) (M : Mem α) :
    ∃ res, lpgemm_rowvar_6x16m_shared ext A B p nodes M = some res
      ∧ (∀ x, ¬ tile_6x16m p x → res.c x = M x)
      ∧ (p.n0 % 16 = 0 →
          res.post_ops_attr
            = { post_op_c_i := p.post_ops_attr.post_op_c_i + 6 * (p.m0 / 6),
                post_op_c_j := p.post_ops_attr.post_op_c_j })
      ∧ (p.n0 % 16 ≠ 0 →
          res.post_ops_attr
            = { post_op_c_i := p.post_ops_attr.post_op_c_i,
                post_op_c_j := p.post_ops_attr.post_op_c_j
                  + (p.n0 % 16 - p.n0 % 16 % 2) }) := by
  by_cases hn : p.n0 % 16 = 0
  · have hattr := m_loop_attr (row_group_6x16_shared ext A B p.toNArgs nodes)
      (fun _ _ => rfl) M p.post_ops_attr (p.m0 / 6)
    obtain ⟨res, hres, ha, hfr⟩ := consider_edge_cases_frame ext hext 16 A B
      (p.toNArgs.read_nodes nodes
        (for_loop (row_group_6x16_shared ext A B p.toNArgs nodes) (p.m0 / 6)
          (M, p.post_ops_attr)).1)
      (for_loop (row_group_6x16_shared ext A B p.toNArgs nodes) (p.m0 / 6)
        (M, p.post_ops_attr)).1
      (for_loop (row_group_6x16_shared ext A B p.toNArgs nodes) (p.m0 / 6)
        (M, p.post_ops_attr)).2
    refine ⟨res, ?_, ?_, fun _ => ha.trans hattr, fun h => absurd hn h⟩
    · rw [lpgemm_rowvar_6x16m_shared]
      simp only [hn, ne_eq, not_true_eq_false, if_false]
      exact hres
    · intro x hx
      have hx' : ¬ in_tile p.c p.rs_c p.m0 16 x := by
        simpa only [tile_6x16m, hn, if_true] using hx
      rw [hfr x hx']
      exact m_loop_6x16_shared_frame ext A B p.toNArgs nodes M x
        (fun h => hx' (in_tile_mono _ _ _ _ _ _ (Nat.mul_div_le _ _) h))
  · obtain ⟨s, hs, hattr, hfr, _⟩ := n_fringe_chain_shared_frame ext hext A B p nodes M
      (p.n0 % 16) (Nat.mod_lt _ (by decide))
    refine ⟨{ c := s.C, post_ops_attr := s.post_ops_attr, calls := s.calls }, ?_, ?_,
      fun h => absurd h hn, fun _ => hattr⟩
    · rw [lpgemm_rowvar_6x16m_shared]
      simp only [hn, ne_eq, not_false_eq_true, if_true, hs, Option.map_some']
    · intro x hx
      refine hfr x ?_
      simpa only [tile_6x16m, hn, if_false] using hx


theorem lpgemm_rowvar_6x16m_shared_eq_aux (ext : Externals α) (hext : MFringeFrame ext)
    (A B : Mem α) (q : MainArgs α) (nodes : List lpgemm_post_op_ptr) (M : Mem α)
    (hq : q.post_ops_list = nodes.map (lpgemm_post_op_ptr.deref M))
    (hsep : NodesOutside (tile_6x16m q) nodes) :
    lpgemm_rowvar_6x16m_shared ext A B q nodes M
      = lpgemm_rowvar_f32f32f32of32_6x16m ext A B q M := by
  by_cases hn : q.n0 % 16 = 0
  · have hsep' : NodesOutside (in_tile q.c q.rs_c q.m0 16) nodes :=
      nodesOutside_mono _ _ nodes
        (fun x hx => by simpa only [tile_6x16m, hn, if_true] using hx) hsep
    have hself : q.toNArgs.read_nodes nodes M = q.toNArgs := read_nodes_self _ nodes M hq
    have hloop := m_loop_6x16_shared_eq ext A B q.toNArgs nodes M q.m0
      hsep' q.post_ops_attr (q.m0 / 6) (Nat.mul_div_le _ _)
    rw [hself] at hloop
    have hfr : ∀ x, ¬ in_tile q.c q.rs_c q.m0 16 x →
        (for_loop (row_group_6x16_shared ext A B q.toNArgs nodes)
          (q.m0 / 6) (M, q.post_ops_attr)).1 x = M x :=
      fun x hx => m_loop_6x16_shared_frame ext A B q.toNArgs nodes M x
        (fun h => hx (in_tile_mono _ _ _ _ _ _ (Nat.mul_div_le _ _) h))
    rw [lpgemm_rowvar_6x16m_shared, lpgemm_rowvar_f32f32f32of32_6x16m]
    simp only [hn, ne_eq, not_true_eq_false, if_false]
    rw [read_nodes_of_frame q.toNArgs nodes _ hsep' M _ hfr, hself]
    exact congrArg (fun st : Mem α × lpgemm_post_op_attr =>
      consider_edge_cases ext 16 A B q.toNArgs st.1 st.2) hloop
  · obtain ⟨s, hs, _, _, heq⟩ := n_fringe_chain_shared_frame ext hext A B
      q nodes M (q.n0 % 16) (Nat.mod_lt _ (by decide))
    have hsep' : NodesOutside (fun x => ∃ sw ∈ chain_chunks 0 (binary_widths (q.n0 % 16)),
        in_tile (q.c + sw.1 * q.cs_c) q.rs_c q.m0 sw.2 x) nodes :=
      nodesOutside_mono _ _ nodes
        (fun x hx => by simpa only [tile_6x16m, hn, if_false] using hx) hsep
    have heq' := heq hsep' hq
    rw [lpgemm_rowvar_6x16m_shared, lpgemm_rowvar_f32f32f32of32_6x16m]
    simp only [hn, ne_eq, not_false_eq_true, if_true, hs, heq']

/-- With the floats that the nodes point to outside its output tile, the main kernel on
the shared memory is the main kernel run on the sequence as it reads on entry. -/
theorem lpgemm_rowvar_6x16m_shared_eq (ext : Externals α) (hext : MFringeFrame ext)
    (A B : Mem α) (p : MainArgs α) (nodes : List lpgemm_post_op_ptr) (M : Mem α)
    (hsep : NodesOutside (tile_6x16m p) nodes) :
    lpgemm_rowvar_6x16m_shared ext A B (p.read_nodes nodes M) nodes M
      = lpgemm_rowvar_f32f32f32of32_6x16m ext A B (p.read_nodes nodes M) M :=
  lpgemm_rowvar_6x16m_shared_eq_aux ext hext A B (p.read_nodes nodes M) nodes M rfl hsep

/-- Claim C16. No kernel writes to the post-op sequence. The kernels are run on one float
memory `M` that holds the output tile and the floats the nodes point to (bias vector,
scale, bounds); the node records and the layout flag are not floats and no float store
reaches them. For every input, each of the five kernels (the main kernel and, for
every width, the N-fringe kernel) returns and leaves every address outside its output
tile with the value it had: so every float that a node points to and that lies outside
the tile is the same after the call as before it, and when all of them lie outside the
tile, the sequence as it reads after the call is the sequence as it read before, and
the run is the run of the kernel on that sequence, every row group and every callee
having read the same values. The post-op state a kernel changes is its cursor: the row
index, advanced by 6 per row group (N-fringe kernels, full-width path of the main
kernel), and the column index, advanced in the N-fringe chain of the main kernel. The
M-fringe kernels, which are not among the sources, are assumed to write inside their
tile. -/
theorem C16_post_ops_sequence_unchanged (ext : Externals α) (hext : MFringeFrame ext)
    (A B M : Mem α) (p : MainArgs α) (nodes : List lpgemm_post_op_ptr) :
    (∃ res, lpgemm_rowvar_6x16m_shared ext A B p nodes M = some res
      ∧ (∀ x, ¬ tile_6x16m p x → res.c x = M x)
      ∧ (∀ node ∈ nodes, ∀ x, node.reads x → ¬ tile_6x16m p x → res.c x = M x)
      ∧ (NodesOutside (tile_6x16m p) nodes →
          nodes.map (lpgemm_post_op_ptr.deref res.c)
            = nodes.map (lpgemm_post_op_ptr.deref M))
      ∧ (p.n0 % 16 = 0 →
          res.post_ops_attr
            = { post_op_c_i := p.post_ops_attr.post_op_c_i + 6 * (p.m0 / 6),
                post_op_c_j := p.post_ops_attr.post_op_c_j })
      ∧ (p.n0 % 16 ≠ 0 →
          res.post_ops_attr
            = { post_op_c_i := p.post_ops_attr.post_op_c_i,
                post_op_c_j := p.post_ops_attr.post_op_c_j
                  + (p.n0 % 16 - p.n0 % 16 % 2) }))
    ∧ (NodesOutside (tile_6x16m p) nodes →
        lpgemm_rowvar_6x16m_shared ext A B (p.read_nodes nodes M) nodes M
          = lpgemm_rowvar_f32f32f32of32_6x16m ext A B (p.read_nodes nodes M) M)
    ∧ (∀ cfg : NFringeCfg,
        (∃ res, lpgemm_rowvar_6xNm_shared cfg ext A B p.toNArgs nodes M = some res
          ∧ (∀ x, ¬ in_tile p.c p.rs_c p.m0 cfg.nr x → res.c x = M x)
          ∧ (∀ node ∈ nodes, ∀ x, node.reads x →
              ¬ in_tile p.c p.rs_c p.m0 cfg.nr x → res.c x = M x)
          ∧ (NodesOutside (in_tile p.c p.rs_c p.m0 cfg.nr) nodes →
              nodes.map (lpgemm_post_op_ptr.deref res.c)
                = nodes.map (lpgemm_post_op_ptr.deref M))
          ∧ res.post_ops_attr
              = { post_op_c_i := p.post_ops_attr.post_op_c_i + 6 * (p.m0 / 6),
                  post_op_c_j := p.post_ops_attr.post_op_c_j })
        ∧ (NodesOutside (in_tile p.c p.rs_c p.m0 cfg.nr) nodes →
            lpgemm_rowvar_6xNm_shared cfg ext A B p.toNArgs nodes M
              = lpgemm_rowvar_6xNm cfg ext A B (p.toNArgs.read_nodes nodes M) M)) := by
  refine ⟨?_, fun hsep => lpgemm_rowvar_6x16m_shared_eq ext hext A B p nodes M hsep, ?_⟩
  · obtain ⟨res, hres, hfr, h0, h1⟩ := lpgemm_rowvar_6x16m_shared_result ext hext A B p
      nodes M
    refine ⟨res, hres, hfr, fun _ _ x _ hx => hfr x hx, fun hsep => ?_, h0, h1⟩
    have e := read_nodes_of_frame p.toNArgs nodes _ hsep M res.c hfr
    exact congrArg NArgs.post_ops_list e
  · intro cfg
    refine ⟨?_, fun hsep => lpgemm_rowvar_6xNm_shared_eq cfg ext A B p.toNArgs nodes M hsep⟩
    obtain ⟨res, hres, hattr, hfr⟩ := lpgemm_rowvar_6xNm_shared_result cfg ext hext A B
      p.toNArgs nodes M
    refine ⟨res, hres, hfr, fun _ _ x _ hx => hfr x hx, fun hsep => ?_, hattr⟩
    have e := read_nodes_of_frame p.toNArgs nodes _ hsep M res.c hfr
    exact congrArg NArgs.post_ops_list e

end Claims

/-- Counterexample to C6 as stated: called with `m0 = 7` (one row left over) and
`n0 = 10`, the main kernel returns having made two calls, to the 6x8m and the 6x2m
kernel, and no M-fringe call of its own. -/
theorem C6_counterexample :
    (lpgemm_rowvar_f32f32f32of32_6x16m ext_example A_example B_example
        (args_example 7 10 3 2 3 [] 0 0) C_example).map
      (fun res => (res.calls.length, (m_fringe_calls res.calls).length)) = some (2, 0) := by
  decide


/-! ### Witnesses and concrete runs -/

/-- Witness of C2 over the poisoned scalars: `beta = 0`, a 7x10 tile with a bias node,
M-fringe kernels that leave C alone. -/
theorem C2_witness :
    (args_poisoned 7 10 3 (Poisoned.val 2) 0 [bias_node_poisoned 'r'] 0 0).beta = 0
    ∧ IgnoresOldC (lpgemm_rowvar_f32f32f32of32_6x16m ext_poisoned A_poisoned B_poisoned
        (args_poisoned 7 10 3 (Poisoned.val 2) 0 [bias_node_poisoned 'r'] 0 0))
    ∧ IgnoresOldC (lpgemm_rowvar_f32f32f32of32_6x8m ext_poisoned A_poisoned B_poisoned
        (args_poisoned 7 10 3 (Poisoned.val 2) 0 [bias_node_poisoned 'r'] 0 0).toNArgs)
    ∧ IgnoresOldC (lpgemm_rowvar_f32f32f32of32_6x4m ext_poisoned A_poisoned B_poisoned
        (args_poisoned 7 10 3 (Poisoned.val 2) 0 [bias_node_poisoned 'r'] 0 0).toNArgs)
    ∧ IgnoresOldC (lpgemm_rowvar_f32f32f32of32_6x2m ext_poisoned A_poisoned B_poisoned
        (args_poisoned 7 10 3 (Poisoned.val 2) 0 [bias_node_poisoned 'r'] 0 0).toNArgs)
    ∧ IgnoresOldC (lpgemm_rowvar_f32f32f32of32_6x1m ext_poisoned A_poisoned B_poisoned
        (args_poisoned 7 10 3 (Poisoned.val 2) 0 [bias_node_poisoned 'r'] 0 0).toNArgs) :=
  ⟨rfl, C2_beta_zero_ignores_old_C ext_poisoned (fun _ _ _ _ _ => oblivious_id)
    A_poisoned B_poisoned
    (args_poisoned 7 10 3 (Poisoned.val 2) 0 [bias_node_poisoned 'r'] 0 0) rfl⟩

/-- Concrete runs for C2 over the poisoned scalars (`k0 = 3`, `alpha = 2`, `beta = 0`): on
an output buffer filled with `nan` the main kernel stores `2 * 627 = 1254` at `c[0]`, on
the full-width path and through the N-fringe chain alike, and the 1-column kernel
stores it too; the elements outside the tile still hold `nan`. The last two lines show
what the guard `beta != 0` avoids: the macro `F32_C_BNZ` on this buffer with `beta = 0`
gives `nan`, because `nan * 0` is not `0`. -/
theorem C2_concrete_run :
    (lpgemm_rowvar_f32f32f32of32_6x16m ext_poisoned A_poisoned B_poisoned
        (args_poisoned 6 16 3 (Poisoned.val 2) 0 [] 0 0) C_nan).map
      (fun res => (res.c 0, res.c (6 * 16))) = some (Poisoned.val 1254, Poisoned.nan)
    ∧ (lpgemm_rowvar_f32f32f32of32_6x16m ext_poisoned A_poisoned B_poisoned
        (args_poisoned 6 10 3 (Poisoned.val 2) 0 [] 0 0) C_nan).map
      (fun res => (res.c 0, res.c 10)) = some (Poisoned.val 1254, Poisoned.nan)
    ∧ (lpgemm_rowvar_f32f32f32of32_6x1m ext_poisoned A_poisoned B_poisoned
        (args_poisoned 6 16 3 (Poisoned.val 2) 0 [] 0 0).toNArgs C_nan).map
      (fun res => (res.c 0, res.c 1)) = some (Poisoned.val 1254, Poisoned.nan)
    ∧ F32_C_BNZ 8 C_nan 0 (_mm256_set1_ps 0) (_mm256_set1_ps (Poisoned.val 1254)) 0
        = Poisoned.nan
    ∧ (beta_6x16 C_nan 0 16 0 (zero_acc_6x16 : Acc6x16 Poisoned)).ymm4 0 = Poisoned.nan := by
  refine ⟨by decide, by decide, by decide, by decide, by decide⟩

/-- Witness of C3: a 12x10 tile (`n0 = 10`), `k0 = 3`, `alpha = 2`, `beta = 3`. -/
theorem C3_witness :
    (args_example 12 10 3 2 3 [] 0 0).m0 % 6 = 0
    ∧ 1 ≤ (args_example 12 10 3 2 3 [] 0 0).n0
    ∧ (args_example 12 10 3 2 3 [] 0 0).n0 ≤ 15
    ∧ (args_example 12 10 3 2 3 [] 0 0).n0 ≤ (args_example 12 10 3 2 3 [] 0 0).rs_c
    ∧ ∃ res, lpgemm_rowvar_f32f32f32of32_6x16m ext_example A_example B_example
          (args_example 12 10 3 2 3 [] 0 0) C_example = some res
        ∧ ∀ i, i < 12 → ∀ j, j < 10 →
          res.c (0 + i * 16 + j)
            = 2 * (∑ k ∈ Finset.range 3,
                A_example (0 + (i / 6) * (6 * 3) + (i % 6) * 1 + k * 6)
                  * B_example (0 + k * 16 + j))
              + 3 * C_example (0 + i * 16 + j) :=
  ⟨by decide, by decide, by decide, by decide,
    C3_n_fringe_matches_reference ext_example A_example B_example C_example
      (args_example 12 10 3 2 3 [] 0 0) rfl rfl rfl (by decide) (by decide) (by decide)
      (by decide)⟩

/-- Witness of C4: `n0 = 10`, the calls are 6x8m at offset 0 and 6x2m at offset 8. -/
theorem C4_witness :
    1 ≤ (args_example 7 10 3 2 3 [] 0 0).n0
    ∧ (args_example 7 10 3 2 3 [] 0 0).n0 ≤ 15
    ∧ ∃ res, lpgemm_rowvar_f32f32f32of32_6x16m ext_example A_example B_example
          (args_example 7 10 3 2 3 [] 0 0) C_example = some res
        ∧ res.calls = [chain_call (args_example 7 10 3 2 3 [] 0 0) 0 8,
                       chain_call (args_example 7 10 3 2 3 [] 0 0) 8 2] :=
  ⟨by decide, by decide,
    (C4_n_fringe_chain_calls ext_example A_example B_example C_example
      (args_example 7 10 3 2 3 [] 0 0) (by decide) (by decide)).2.1⟩

/-- Witness of C5: the 2-column kernel against the main kernel on a 12-row tile with
the sequence bias, relu. -/
theorem C5_witness :
    ∃ r16 rw, lpgemm_rowvar_f32f32f32of32_6x16m ext_example A_example B_example
          (args_example 12 16 3 2 3 [bias_node_example 'r', relu_node_example] 0 0)
          C_example = some r16
      ∧ lpgemm_rowvar_6xNm cfg_6x2 ext_example A_example B_example
          (args_example 12 16 3 2 3 [bias_node_example 'r', relu_node_example] 0 0).toNArgs
          C_example = some rw
      ∧ ∀ i, i < 12 → ∀ j, j < 2 →
          rw.c (0 + i * 16 + j) = r16.c (0 + i * 16 + j) :=
  C5_n_fringe_kernel_agrees_with_main cfg_6x2 (Or.inr (Or.inr (Or.inl rfl))) ext_example
    A_example B_example B_example C_example C_example
    (args_example 12 16 3 2 3 [bias_node_example 'r', relu_node_example] 0 0)
    (by decide) rfl (by decide)
    (by
      intro node hn
      have hn' : node ∈ [bias_node_example 'r', relu_node_example] := hn
      rcases List.mem_cons.1 hn' with h | h
      · rw [h]; exact Or.inl rfl
      · rw [List.mem_singleton.1 h]; exact Or.inr (Or.inl rfl))
    (fun _ _ _ _ => rfl) (fun _ _ _ _ => rfl)

/-- Witness of C6 as amended: `m0 = 7`, `n0 = 16`; the main kernel makes the one call
to `lpgemm_rowvar_f32f32f32of32_1x16`. -/
theorem C6_witness :
    (args_example 7 16 3 2 3 [] 0 0).m0 % 6 ≠ 0
    ∧ ∃ res, lpgemm_rowvar_f32f32f32of32_6x16m ext_example A_example B_example
          (args_example 7 16 3 2 3 [] 0 0) C_example = some res
        ∧ res.calls = [Call.m_fringe ⟨1, 16⟩
            (m_fringe_args (args_example 7 16 3 2 3 [] 0 0).toNArgs)] :=
  ⟨by decide,
    (C6_m_fringe_dispatch ext_example A_example B_example C_example
      (args_example 7 16 3 2 3 [] 0 0) (by decide)).1 rfl⟩

/-- Claim C8. The pipeline order is observable: on an all-ones 6x16 product with `k0 = 1`,
`alpha = 1`, `beta = 0` (every accumulator element is 1) and a bias vector that is `-2`
everywhere, the main kernel stores 0 for the sequence bias, relu and -1 for the
sequence relu, bias. -/
theorem C8_order_observable :
    ∃ r1 r2,
      lpgemm_rowvar_f32f32f32of32_6x16m ext_example ones_example ones_example
          (args_example 6 16 1 1 0 [bias_node_example 'r', relu_node_example] 0 0)
          C_example = some r1
      ∧ lpgemm_rowvar_f32f32f32of32_6x16m ext_example ones_example ones_example
          (args_example 6 16 1 1 0 [relu_node_example, bias_node_example 'r'] 0 0)
          C_example = some r2
      ∧ r1.c 0 = 0 ∧ r2.c 0 = -1 ∧ r1.c 0 ≠ r2.c 0 := by
  have h1 : (lpgemm_rowvar_f32f32f32of32_6x16m ext_example ones_example ones_example
      (args_example 6 16 1 1 0 [bias_node_example 'r', relu_node_example] 0 0)
      C_example).map (fun r => r.c 0) = some 0 := by decide
  have h2 : (lpgemm_rowvar_f32f32f32of32_6x16m ext_example ones_example ones_example
      (args_example 6 16 1 1 0 [relu_node_example, bias_node_example 'r'] 0 0)
      C_example).map (fun r => r.c 0) = some (-1) := by decide
  obtain ⟨r1, hr1, hv1⟩ := Option.map_eq_some'.1 h1
  obtain ⟨r2, hr2, hv2⟩ := Option.map_eq_some'.1 h2
  exact ⟨r1, r2, hr1, hr2, hv1, hv2, by rw [hv1, hv2]; decide⟩

/-- Witness of C9: `n0 = 10`, cursor column index 3, the sequence relu, bias. -/
theorem C9_witness :
    ∃ res res', lpgemm_rowvar_f32f32f32of32_6x16m ext_example A_example B_example
          (args_example 6 10 2 1 0 [relu_node_example, bias_ramp_example 'r'] 0 3)
          C_example = some res
      ∧ lpgemm_rowvar_f32f32f32of32_6x16m ext_example A_example B_example
          { args_example 6 10 2 1 0 [relu_node_example, bias_ramp_example 'r'] 0 3 with
            post_ops_list := [relu_node_example] }
          C_example = some res'
      ∧ ∀ i, i < 6 → ∀ j, j < 10 →
          res.c (0 + i * 16 + j)
            = res'.c (0 + i * 16 + j) + (bias_ramp_example 'r').op_args1 (3 + j) :=
  C9_column_bias ext_example A_example B_example C_example
    (args_example 6 10 2 1 0 [relu_node_example, bias_ramp_example 'r'] 0 3)
    [relu_node_example] (bias_ramp_example 'r') rfl
    (by
      intro n hn
      rw [List.mem_singleton.1 hn]
      decide)
    rfl (Or.inl rfl) rfl rfl (by decide) (by decide) (by decide) (by decide)

/-- Witness of C10: layout flag `'c'`, cursor row index 4, row group 1. -/
theorem C10_witness :
    ¬ ((bias_ramp_example 'c').op_args2_char = 'r'
        ∨ (bias_ramp_example 'c').op_args2_char = 'R')
    ∧ ∀ (r : Acc6x16 ℤ) (i j : Nat), i < 6 → j < 16 →
        (POST_OPS_BIAS_6x16F (bias_ramp_example 'c')
            (for_loop (row_group_6x16 ext_example A_example B_example
                (args_example 12 16 2 1 0 [bias_ramp_example 'c'] 4 0).toNArgs) 1
              (C_example,
                (args_example 12 16 2 1 0 [bias_ramp_example 'c'] 4 0).post_ops_attr)).2
            r).row i j
          = r.row i j + (bias_ramp_example 'c').op_args1 (4 + 6 * 1 + i) :=
  ⟨by decide,
    (C10_row_bias ext_example A_example B_example C_example
      (args_example 12 16 2 1 0 [bias_ramp_example 'c'] 4 0).toNArgs
      (bias_ramp_example 'c') (by decide) 1).1⟩

/-! ### The registry -/

/-- Claim C17 on the code: the table of the AVX2 tier assigns `NULL`, not a reference
kernel, to the operations `U8S8S32OS32`, `BF16BF16F32OF32` and `S8S8S32OS32`; these are
the only null kernel handles (the three AVX-512 tiers have a kernel for each of the six
operations). -/
theorem C17_avx2_null_kernel_handles :
    kern_fun_ptr ISA_TIER.AVX2 AOCL_OPERATION_TYPE.U8S8S32OS32 = none
    ∧ kern_fun_ptr ISA_TIER.AVX2 AOCL_OPERATION_TYPE.BF16BF16F32OF32 = none
    ∧ kern_fun_ptr ISA_TIER.AVX2 AOCL_OPERATION_TYPE.S8S8S32OS32 = none
    ∧ ∀ (tier : ISA_TIER) (op : AOCL_OPERATION_TYPE),
        kern_fun_ptr tier op = none ↔
          tier = ISA_TIER.AVX2
          ∧ (op = AOCL_OPERATION_TYPE.U8S8S32OS32
              ∨ op = AOCL_OPERATION_TYPE.BF16BF16F32OF32
              ∨ op = AOCL_OPERATION_TYPE.S8S8S32OS32) := by
  refine ⟨by decide, by decide, by decide, ?_⟩
  intro tier op
  cases tier <;> cases op <;> decide

/-- Counterexample to C19 as stated, with `m0 = 12` (two row groups) and a cursor row
index 0 on entry: the main kernel (`n0 = 16`) and the 6x8m kernel end with the row index
12 in their own copy of the cursor, but the block of the main kernel (`n0 = 10`) that
has called the 6x8m kernel still holds the row index 0 after the call, and passes 0 to
both kernels of the chain. -/
theorem C19_counterexample :
    (lpgemm_rowvar_f32f32f32of32_6x16m ext_example A_example B_example
        (args_example 12 16 3 2 3 [] 0 0) C_example).map
      (fun res => res.post_ops_attr.post_op_c_i) = some 12
    ∧ (lpgemm_rowvar_f32f32f32of32_6x8m ext_example A_example B_example
        (n_fringe_args (args_example 12 10 3 2 3 [] 0 0)
          (n_fringe_init (args_example 12 10 3 2 3 [] 0 0) C_example 10)) C_example).map
      (fun res => res.post_ops_attr.post_op_c_i) = some 12
    ∧ (n_fringe_block ⟨8⟩
        (lpgemm_rowvar_f32f32f32of32_6x8m ext_example A_example B_example) 8
        (args_example 12 10 3 2 3 [] 0 0)
        (n_fringe_init (args_example 12 10 3 2 3 [] 0 0) C_example 10)).map
      (fun s => s.post_ops_attr.post_op_c_i) = some 0
    ∧ (lpgemm_rowvar_f32f32f32of32_6x16m ext_example A_example B_example
        (args_example 12 10 3 2 3 [] 0 0) C_example).map
      (fun res => res.calls.map (fun c => c.post_ops_attr.post_op_c_i)) = some [0, 0] := by
  refine ⟨by decide, by decide, by decide, by decide⟩

/-- Witness of C11: the sequence bias, relu. -/
theorem C11_witness :
    relu_node_example.op_code = LPGEMM_POST_OP_CODE.POST_OPS_RELU
    ∧ 16 ≤ (args_example 6 16 2 1 0 [bias_node_example 'r', relu_node_example] 0 0).rs_c
    ∧ ∀ (m : Nat) (C : Mem ℤ) (attr : lpgemm_post_op_attr) (i j : Nat), i < 6 → j < 16 →
      0 ≤ (row_group_6x16 ext_example A_example B_example
            (args_example 6 16 2 1 0 [bias_node_example 'r', relu_node_example] 0 0).toNArgs
            m (C, attr)).1 (0 + (6 * m + i) * 16 + j) :=
  ⟨rfl, by decide,
    (C11_relu_nonneg ext_example A_example B_example
      (args_example 6 16 2 1 0 [bias_node_example 'r', relu_node_example] 0 0).toNArgs
      [bias_node_example 'r'] relu_node_example rfl rfl).2.2.2.2.1 (by decide)⟩

/-- A concrete run for C12: with scale 3 the accumulator element `-5` (first row,
`k0 = 1`, `alpha = 1`, `beta = 0`) is stored as `-15`, and the element 1 of an all-ones
product is stored unchanged. -/
theorem C12_concrete_run :
    (lpgemm_rowvar_f32f32f32of32_6x16m ext_example ones_example B_example
        (args_example 6 16 1 1 0 [relu_scale_node_example] 0 0) C_example).map
      (fun res => res.c 0) = some (-15)
    ∧ (lpgemm_rowvar_f32f32f32of32_6x16m ext_example ones_example ones_example
        (args_example 6 16 1 1 0 [relu_scale_node_example] 0 0) C_example).map
      (fun res => res.c 0) = some 1 := by
  refine ⟨by decide, by decide⟩

/-- Witness of C13: the bounds `[-1, 4]`. -/
theorem C13_witness :
    clip_node_example.op_args2_f32 ≤ clip_node_example.op_args3_f32
    ∧ ∀ (r : Acc6x16 ℤ) (i j : Nat), i < 6 →
        (POST_OPS_CLIP_6x16F clip_node_example r).row i j = min (max (r.row i j) (-1)) 4
        ∧ -1 ≤ (POST_OPS_CLIP_6x16F clip_node_example r).row i j
        ∧ (POST_OPS_CLIP_6x16F clip_node_example r).row i j ≤ 4
        ∧ (-1 ≤ r.row i j → r.row i j ≤ 4 →
            (POST_OPS_CLIP_6x16F clip_node_example r).row i j = r.row i j) :=
  ⟨by decide, (C13_clip clip_node_example (by decide)).1⟩

/-- Witness of C14: `k0 = 64`. -/
theorem C14_witness :
    (args_example 6 16 64 1 0 [] 0 0).m0 = 6
    ∧ (args_example 6 16 64 1 0 [] 0 0).n0 = 16
    ∧ ∃ res, lpgemm_rowvar_f32f32f32of32_6x16m ext_example A_example B_example
          (args_example 6 16 64 1 0 [] 0 0) C_example = some res
        ∧ res.calls = []
        ∧ ∀ i, i < 6 → ∀ j, j < 16 →
            res.c (0 + i * 16 + j)
              = ∑ k ∈ Finset.range 64,
                  A_example (0 + i * 1 + k * 6) * B_example (0 + k * 16 + j) := by
  obtain ⟨_, _, _, res, hres, _, hcalls, hval⟩ :=
    C14_single_tile ext_example A_example B_example C_example
      (args_example 6 16 64 1 0 [] 0 0) rfl rfl
  exact ⟨rfl, rfl, res, hres, hcalls, hval rfl rfl rfl (by decide)⟩

/-- Witness of C15: 12 rows, the reduction split as `2 + 3`, `alpha = 2`, `beta = 3`. -/
theorem C15_witness :
    ∃ r1 r2 r12,
      lpgemm_rowvar_f32f32f32of32_6x16m ext_example A_example B_example
          (k_block_first (args_example 12 16 5 2 3 [] 0 0) 2) C_example = some r1
      ∧ lpgemm_rowvar_f32f32f32of32_6x16m ext_example A_example B_example
          (k_block_second (args_example 12 16 5 2 3 [] 0 0) 2 3) r1.c = some r2
      ∧ lpgemm_rowvar_f32f32f32of32_6x16m ext_example A_example B_example
          (k_block_whole (args_example 12 16 5 2 3 [] 0 0) 2 3) C_example = some r12
      ∧ ∀ x, r2.c x = r12.c x :=
  C15_k_blocking ext_example A_example B_example C_example
    (args_example 12 16 5 2 3 [] 0 0) 2 3 (by decide) rfl rfl (by decide)

/-- Witness of C19 as amended: `m0 = 13`, `n0 = 16`, cursor row index 5 on entry; the
local cursor and the cursor of the M-fringe call have row index 17. -/
theorem C19_witness :
    ∃ res, lpgemm_rowvar_f32f32f32of32_6x16m ext_example A_example B_example
          (args_example 13 16 3 2 3 [] 5 0) C_example = some res
      ∧ res.post_ops_attr.post_op_c_i = 5 + 6 * (13 / 6)
      ∧ ∀ c ∈ res.calls, c.post_ops_attr.post_op_c_i = 5 + 6 * (13 / 6) :=
  (C19_cursor_row_index ext_example A_example B_example C_example
    (args_example 13 16 3 2 3 [] 5 0)).1 rfl

/-! ### The pack handles of the registry -/

/-- Claim C26. In every ISA tier, for each of the five operation types that have pack
entries, the pack-B handle is null exactly when the kernel handle is null, and the
pack-A handle is non-null only when the kernel handle is non-null. -/
theorem C26_pack_handles (tier : ISA_TIER) (op : AOCL_OPERATION_TYPE)
    (hop : op ∈ pack_operation_types) :
    (packb_fun_ptr tier op = none ↔ kern_fun_ptr tier op = none)
    ∧ (packa_fun_ptr tier op ≠ none → kern_fun_ptr tier op ≠ none) := by
  revert hop
  cases tier <;> cases op <;> decide

/-- Witness of C26: the AVX2 tier and `U8S8S32OS32`, where all three handles are null,
and the AVX-512 tier and `S8S8S32OS32`, where all three are set. -/
theorem C26_witness :
    AOCL_OPERATION_TYPE.U8S8S32OS32 ∈ pack_operation_types
    ∧ ((packb_fun_ptr ISA_TIER.AVX2 AOCL_OPERATION_TYPE.U8S8S32OS32 = none
          ↔ kern_fun_ptr ISA_TIER.AVX2 AOCL_OPERATION_TYPE.U8S8S32OS32 = none)
        ∧ (packa_fun_ptr ISA_TIER.AVX2 AOCL_OPERATION_TYPE.U8S8S32OS32 ≠ none
          → kern_fun_ptr ISA_TIER.AVX2 AOCL_OPERATION_TYPE.U8S8S32OS32 ≠ none))
    ∧ packb_fun_ptr ISA_TIER.AVX2 AOCL_OPERATION_TYPE.U8S8S32OS32 = none
    ∧ packa_fun_ptr ISA_TIER.AVX512 AOCL_OPERATION_TYPE.S8S8S32OS32
        = some PackAFn.packa_k64_s8s8s32os32 :=
  ⟨by decide,
    C26_pack_handles ISA_TIER.AVX2 AOCL_OPERATION_TYPE.U8S8S32OS32 (by decide),
    by decide, by decide⟩

/-! ### The her2 front ends -/

/-- Claim C27. Each her2 front end generated by `GENFRONT` passes to the typed
implementation only values derived from `conjh`, `alpha`, `x`, `y`, `c` and `cntx`: two
invocations that differ only in `alpha_conj` or `cntl` make the same call, of the
function queried for the data type of `c`, with the same arguments: uplo of `c`, conj of
`x`, conj of `y`, `conjh`, length of `c`, alpha buffer, `x` buffer and increment, `y`
buffer and increment, `c` buffer and strides, `cntx`, in that order. -/
theorem C27_her2_front_end {obj_t : Type} (api : Her2Api obj_t) (varname : Her2Var)
    (conjh : Nat) (alpha x y c : obj_t) (cntx : Nat) :
    (∀ (alpha_conj alpha_conj' : obj_t) (cntl cntl' : Nat),
      GENFRONT api varname conjh alpha alpha_conj x y c cntx cntl
        = GENFRONT api varname conjh alpha alpha_conj' x y c cntx cntl')
    ∧ (∀ (alpha_conj : obj_t) (cntl : Nat),
      GENFRONT api varname conjh alpha alpha_conj x y c cntx cntl
        = { f := api.qfp varname (api.bli_obj_dt c),
            uplo := api.bli_obj_uplo c,
            conjx := api.bli_obj_conj_status x,
            conjy := api.bli_obj_conj_status y,
            conjh := conjh,
            m := api.bli_obj_length c,
            buf_alpha := api.bli_obj_buffer_for_1x1 (api.bli_obj_dt c) alpha,
            buf_x := api.bli_obj_buffer_at_off x,
            incx := api.bli_obj_vector_inc x,
            buf_y := api.bli_obj_buffer_at_off y,
            incy := api.bli_obj_vector_inc y,
            buf_c := api.bli_obj_buffer_at_off c,
            rs_c := api.bli_obj_row_stride c,
            cs_c := api.bli_obj_col_stride c,
            cntx := cntx }) :=
  ⟨fun _ _ _ _ => rfl, fun _ _ => rfl⟩

/-- A concrete run for C27: two invocations of `bli_her2_unf_var4` that differ in
`alpha_conj` and `cntl` make the same call. -/
theorem C27_concrete_run :
    GENFRONT her2_api_example Her2Var.her2_unf_var4 1 [3, 0, 0, 0, 70] [9, 9, 9, 9, 9]
        [3, 0, 1, 8, 10, 2] [3, 0, 0, 8, 20, 1] [3, 1, 0, 8, 30, 0, 1, 8] 5 6
      = GENFRONT her2_api_example Her2Var.her2_unf_var4 1 [3, 0, 0, 0, 70] []
        [3, 0, 1, 8, 10, 2] [3, 0, 0, 8, 20, 1] [3, 1, 0, 8, 30, 0, 1, 8] 5 0
    ∧ GENFRONT her2_api_example Her2Var.her2_unf_var4 1 [3, 0, 0, 0, 70] [9, 9, 9, 9, 9]
        [3, 0, 1, 8, 10, 2] [3, 0, 0, 8, 20, 1] [3, 1, 0, 8, 30, 0, 1, 8] 5 6
      = { f := 1003, uplo := 1, conjx := 1, conjy := 0, conjh := 1, m := 8,
          buf_alpha := 73, buf_x := 10, incx := 2, buf_y := 20, incy := 1,
          buf_c := 30, rs_c := 1, cs_c := 8, cntx := 5 } := by
  refine ⟨by decide, by decide⟩

/-! ### The benchmark driver -/

/-- The timed loop makes copies of `c_save` and GEMM calls with the data type and the
transposes of the line, nothing else. -/
theorem bench_loop_mem {R : Type} (dt : num_t) (transa transb : trans_t) (n : Nat)
    (e : BenchEvent R)
    (h : e ∈ for_loop (fun _ es => es ++
        [ BenchEvent.bli_copym BenchObj.c_save BenchObj.c,
          BenchEvent.gemm dt transa transb ]) n []) :
    e = BenchEvent.bli_copym BenchObj.c_save BenchObj.c
      ∨ e = BenchEvent.gemm dt transa transb := by
  induction n with
  | zero => exact absurd h (List.not_mem_nil e)
  | succ n ih =>
    rw [for_loop_succ] at h
    rcases List.mem_append.1 h with h1 | h1
    · exact ih h1
    · simpa using h1

/-- The events after the objects exist: no object is created, and every GEMM call has
the data type and the transposes of the line. -/
theorem bench_run_gemm_mem {R : Type} (cblas : Bool) (n_repeats p_inc : Nat)
    (l : BenchLine R) (dt : num_t) (transa transb : trans_t) (cs_c : Int)
    (e : BenchEvent R)
    (h : e ∈ (bench_run_gemm cblas n_repeats p_inc l dt transa transb cs_c).1) :
    e.is_create = false
    ∧ ∀ dt' ta tb, e = BenchEvent.gemm dt' ta tb → dt' = dt ∧ ta = transa ∧ tb = transb := by
  unfold bench_run_gemm at h
  split_ifs at h
  · simp only [List.mem_singleton] at h
    subst h
    exact ⟨rfl, fun _ _ _ he => by cases he⟩
  · simp only [List.mem_append, List.mem_cons, List.mem_singleton, List.not_mem_nil,
      or_false] at h
    rcases h with (h | h) | h
    · rcases h with h | h | h | h | h | h | h | h <;> subst h <;>
        exact ⟨rfl, fun _ _ _ he => by cases he⟩
    · rcases bench_loop_mem dt transa transb n_repeats e h with h | h <;> subst h
      · exact ⟨rfl, fun _ _ _ he => by cases he⟩
      · exact ⟨rfl, fun _ _ _ he => by cases he; exact ⟨rfl, rfl, rfl⟩⟩
    · rcases h with h | h | h | h | h | h | h | h | h <;> subst h <;>
        exact ⟨rfl, fun _ _ _ he => by cases he⟩

/-- For a line that passes the three character checks: every object is created with
the data type of the line and every GEMM call has its data type and transposes. -/
theorem bench_line_valid_mem {R : Type} (cblas : Bool) (stor : Char)
    (n_repeats p_inc : Nat) (l : BenchLine R) (dt : num_t) (transa transb : trans_t)
    (hd : bench_dt l.dt_ch = some dt) (hA : bench_trans l.transA_c = some transa)
    (hB : bench_trans l.transB_c = some transb) (e : BenchEvent R)
    (h : e ∈ (bench_line cblas stor n_repeats p_inc l).1) :
    (∀ obj dt' m n rs cs, e = BenchEvent.bli_obj_create obj dt' m n rs cs → dt' = dt)
    ∧ ∀ dt' ta tb, e = BenchEvent.gemm dt' ta tb → dt' = dt ∧ ta = transa ∧ tb = transb := by
  simp only [bench_line, hd, hA, hB] at h
  split_ifs at h
  · simp only [List.mem_append, List.mem_cons, List.mem_singleton, List.not_mem_nil,
      or_false] at h
    rcases h with (h | h) | h
    · rcases h with h | h <;> subst h <;>
        exact ⟨fun _ _ _ _ _ _ he => by cases he; rfl, fun _ _ _ he => by cases he⟩
    · rcases h with h | h | h | h <;> subst h <;>
        exact ⟨fun _ _ _ _ _ _ he => by cases he; rfl, fun _ _ _ he => by cases he⟩
    · obtain ⟨h1, h2⟩ := bench_run_gemm_mem cblas n_repeats p_inc l dt transa transb _ e h
      refine ⟨fun _ _ _ _ _ _ he => ?_, h2⟩
      subst he
      cases h1
  · simp only [List.mem_cons, List.mem_singleton, List.not_mem_nil, or_false] at h
    rcases h with h | h <;> subst h <;>
      exact ⟨fun _ _ _ _ _ _ he => by cases he; rfl, fun _ _ _ he => by cases he⟩
  · simp only [List.mem_append, List.mem_cons, List.mem_singleton, List.not_mem_nil,
      or_false] at h
    rcases h with (h | h) | h
    · rcases h with h | h <;> subst h <;>
        exact ⟨fun _ _ _ _ _ _ he => by cases he; rfl, fun _ _ _ he => by cases he⟩
    · rcases h with h | h | h | h <;> subst h <;>
        exact ⟨fun _ _ _ _ _ _ he => by cases he; rfl, fun _ _ _ he => by cases he⟩
    · obtain ⟨h1, h2⟩ := bench_run_gemm_mem cblas n_repeats p_inc l dt transa transb _ e h
      refine ⟨fun _ _ _ _ _ _ he => ?_, h2⟩
      subst he
      cases h1
  · simp only [List.mem_append, List.mem_cons, List.mem_singleton, List.not_mem_nil,
      or_false] at h
    rcases h with (h | h) | h <;> subst h <;>
      exact ⟨fun _ _ _ _ _ _ he => by cases he <;> rfl, fun _ _ _ he => by cases he⟩

/-- Claim C28. The benchmark driver maps the data-type character of an input line
case-insensitively: `S`, `s` to float, `D`, `d` to double, `C`, `c` to single complex,
`Z`, `z` to double complex (the objects are created and GEMM is called with that data
type). For every other character the iteration reports the invalid data type and ends:
no object is created, GEMM is not called, no row is written, and the line counter is
unchanged. -/
theorem C28_bench_data_type {R : Type} (cblas : Bool) (stor : Char)
    (n_repeats p_inc : Nat) (l : BenchLine R) :
    (∀ c : Char,
      (c = 'S' ∨ c = 's' → bench_dt c = some num_t.BLIS_FLOAT)
      ∧ (c = 'D' ∨ c = 'd' → bench_dt c = some num_t.BLIS_DOUBLE)
      ∧ (c = 'C' ∨ c = 'c' → bench_dt c = some num_t.BLIS_SCOMPLEX)
      ∧ (c = 'Z' ∨ c = 'z' → bench_dt c = some num_t.BLIS_DCOMPLEX)
      ∧ (c ≠ 'S' ∧ c ≠ 's' ∧ c ≠ 'D' ∧ c ≠ 'd' ∧ c ≠ 'C' ∧ c ≠ 'c' ∧ c ≠ 'Z' ∧ c ≠ 'z' →
          bench_dt c = none))
    ∧ (bench_dt l.dt_ch = none →
        bench_line cblas stor n_repeats p_inc l
          = ([BenchEvent.printf_invalid_data_type l.dt_ch], p_inc))
    ∧ (bench_dt l.dt_ch = none →
        ∀ e ∈ (bench_line cblas stor n_repeats p_inc l).1,
          e.is_create = false ∧ e.is_gemm = false ∧ e.is_row = false)
    ∧ (∀ (dt : num_t) (transa transb : trans_t),
        bench_dt l.dt_ch = some dt → bench_trans l.transA_c = some transa →
        bench_trans l.transB_c = some transb →
        ∀ e ∈ (bench_line cblas stor n_repeats p_inc l).1,
          (∀ obj dt' m n rs cs, e = BenchEvent.bli_obj_create obj dt' m n rs cs → dt' = dt)
          ∧ (∀ dt' ta tb, e = BenchEvent.gemm dt' ta tb → dt' = dt)) := by
  have hnone : bench_dt l.dt_ch = none →
      bench_line cblas stor n_repeats p_inc l
        = ([BenchEvent.printf_invalid_data_type l.dt_ch], p_inc) := by
    intro h
    simp only [bench_line, h]
  refine ⟨?_, hnone, ?_, ?_⟩
  · intro c
    refine ⟨?_, ?_, ?_, ?_, ?_⟩
    · rintro (rfl | rfl) <;> decide
    · rintro (rfl | rfl) <;> decide
    · rintro (rfl | rfl) <;> decide
    · rintro (rfl | rfl) <;> decide
    · rintro ⟨h1, h2, h3, h4, h5, h6, h7, h8⟩
      simp [bench_dt, h1, h2, h3, h4, h5, h6, h7, h8]
  · intro h e he
    rw [hnone h] at he
    rw [List.mem_singleton.1 he]
    exact ⟨rfl, rfl, rfl⟩
  · intro dt transa transb hd hA hB e he
    obtain ⟨h1, h2⟩ :=
      bench_line_valid_mem cblas stor n_repeats p_inc l dt transa transb hd hA hB e he
    exact ⟨h1, fun dt' ta tb heq => (h2 dt' ta tb heq).1⟩

/-- Claim C29. The benchmark driver maps each of the two transpose characters of an
input line case-insensitively: `N`, `n` to no-transpose, `T`, `t` to transpose, `C`, `c`
to conjugate-transpose (GEMM is called with these). When either character is anything
else the iteration ends after one message: GEMM is not called, no row is written to
the output file, no object is created and the line counter is unchanged. -/
theorem C29_bench_transpose {R : Type} (cblas : Bool) (stor : Char)
    (n_repeats p_inc : Nat) (l : BenchLine R) :
    (∀ c : Char,
      (c = 'N' ∨ c = 'n' → bench_trans c = some trans_t.BLIS_NO_TRANSPOSE)
      ∧ (c = 'T' ∨ c = 't' → bench_trans c = some trans_t.BLIS_TRANSPOSE)
      ∧ (c = 'C' ∨ c = 'c' → bench_trans c = some trans_t.BLIS_CONJ_TRANSPOSE)
      ∧ (c ≠ 'N' ∧ c ≠ 'n' ∧ c ≠ 'T' ∧ c ≠ 't' ∧ c ≠ 'C' ∧ c ≠ 'c' →
          bench_trans c = none))
    ∧ (bench_trans l.transA_c = none ∨ bench_trans l.transB_c = none →
        (bench_line cblas stor n_repeats p_inc l).2 = p_inc
        ∧ (bench_line cblas stor n_repeats p_inc l).1.length = 1
        ∧ ∀ e ∈ (bench_line cblas stor n_repeats p_inc l).1,
            e.is_gemm = false ∧ e.is_row = false ∧ e.is_create = false)
    ∧ (∀ dt : num_t, bench_dt l.dt_ch = some dt → bench_trans l.transA_c = none →
        bench_line cblas stor n_repeats p_inc l
          = ([BenchEvent.printf_invalid_transA], p_inc))
    ∧ (∀ (dt : num_t) (transa : trans_t), bench_dt l.dt_ch = some dt →
        bench_trans l.transA_c = some transa → bench_trans l.transB_c = none →
        bench_line cblas stor n_repeats p_inc l
          = ([BenchEvent.printf_invalid_transB], p_inc))
    ∧ (∀ (dt : num_t) (transa transb : trans_t),
        bench_dt l.dt_ch = some dt → bench_trans l.transA_c = some transa →
        bench_trans l.transB_c = some transb →
        ∀ e ∈ (bench_line cblas stor n_repeats p_inc l).1,
          ∀ dt' ta tb, e = BenchEvent.gemm dt' ta tb → ta = transa ∧ tb = transb) := by
  refine ⟨?_, ?_, ?_, ?_, ?_⟩
  · intro c
    refine ⟨?_, ?_, ?_, ?_⟩
    · rintro (rfl | rfl) <;> decide
    · rintro (rfl | rfl) <;> decide
    · rintro (rfl | rfl) <;> decide
    · rintro ⟨h1, h2, h3, h4, h5, h6⟩
      simp [bench_trans, h1, h2, h3, h4, h5, h6]
  · intro h
    have hone : ∃ ev : BenchEvent R,
        bench_line cblas stor n_repeats p_inc l = ([ev], p_inc)
        ∧ ev.is_gemm = false ∧ ev.is_row = false ∧ ev.is_create = false := by
      cases hd : bench_dt l.dt_ch with
      | none =>
        exact ⟨BenchEvent.printf_invalid_data_type l.dt_ch,
          by simp only [bench_line, hd], rfl, rfl, rfl⟩
      | some dt =>
        cases hA : bench_trans l.transA_c with
        | none =>
          exact ⟨BenchEvent.printf_invalid_transA,
            by simp only [bench_line, hd, hA], rfl, rfl, rfl⟩
        | some transa =>
          rcases h with h | h
          · rw [hA] at h
            cases h
          · exact ⟨BenchEvent.printf_invalid_transB,
              by simp only [bench_line, hd, hA, h], rfl, rfl, rfl⟩
    obtain ⟨ev, hev, h1, h2, h3⟩ := hone
    rw [hev]
    refine ⟨rfl, rfl, ?_⟩
    intro e he
    rw [List.mem_singleton.1 he]
    exact ⟨h1, h2, h3⟩
  · intro dt hd hA
    simp only [bench_line, hd, hA]
  · intro dt transa hd hA hB
    simp only [bench_line, hd, hA, hB]
  · intro dt transa transb hd hA hB e he dt' ta tb heq
    exact ((bench_line_valid_mem cblas stor n_repeats p_inc l dt transa transb hd hA hB
      e he).2 dt' ta tb heq).2

/-- Concrete runs of the driver loop body (`CBLAS` undefined, `N_REPEAT = 2`): a line
with data type `x` only reports the invalid data type; a line with data type `s` and
transposes `n`, `q` only reports the invalid `transB`; a line with `d`, `T`, `c` creates
the six objects as double, calls GEMM twice with transpose and conjugate-transpose,
and writes its row. -/
theorem C28_concrete_run :
    bench_line false stor_scheme 2 0 (bench_line_example 'x' 'n' 'n')
      = ([BenchEvent.printf_invalid_data_type 'x'], 0)
    ∧ bench_line false stor_scheme 2 0 (bench_line_example 's' 'n' 'q')
      = ([BenchEvent.printf_invalid_transB], 0)
    ∧ ((bench_line false stor_scheme 2 0 (bench_line_example 'd' 'T' 'c')).1.filter
        (fun e => e.is_create || e.is_gemm || e.is_row))
      = [ BenchEvent.bli_obj_create BenchObj.alpha num_t.BLIS_DOUBLE 1 1 0 0,
          BenchEvent.bli_obj_create BenchObj.beta num_t.BLIS_DOUBLE 1 1 0 0,
          BenchEvent.bli_obj_create BenchObj.a num_t.BLIS_DOUBLE 6 4 1 4,
          BenchEvent.bli_obj_create BenchObj.b num_t.BLIS_DOUBLE 5 6 1 6,
          BenchEvent.bli_obj_create BenchObj.c num_t.BLIS_DOUBLE 4 5 1 4,
          BenchEvent.bli_obj_create BenchObj.c_save num_t.BLIS_DOUBLE 4 5 1 4,
          BenchEvent.gemm num_t.BLIS_DOUBLE trans_t.BLIS_TRANSPOSE
            trans_t.BLIS_CONJ_TRANSPOSE,
          BenchEvent.gemm num_t.BLIS_DOUBLE trans_t.BLIS_TRANSPOSE
            trans_t.BLIS_CONJ_TRANSPOSE,
          BenchEvent.fprintf_row (bench_line_example 'd' 'T' 'c') ] := by
  refine ⟨by decide, by decide, by decide⟩

/-! ### Concrete runs of the kernels -/

/-- Concrete runs for C22 (`k0 = 1`, `alpha = 1`, `beta = 0`, A and B all ones, so that
every stored element is 1, and `C_example x = 7 - x`): with `m0 = 5` the 16-column
kernel stores nothing; with `m0 = 6` the 2-column kernel stores elements 0 and 1 of
row 0 and leaves element 2 as it was, and the 1-column kernel stores element 0 only. -/
theorem C22_concrete_run :
    own_stores_6x16 ext_example ones_example ones_example
        (args_example 5 16 1 1 0 [] 0 0).toNArgs C_example 0 = 7
    ∧ own_stores_6xN cfg_6x2 ext_example ones_example ones_example
        (args_example 6 16 1 1 0 [] 0 0).toNArgs C_example 0 = 1
    ∧ own_stores_6xN cfg_6x2 ext_example ones_example ones_example
        (args_example 6 16 1 1 0 [] 0 0).toNArgs C_example 1 = 1
    ∧ own_stores_6xN cfg_6x2 ext_example ones_example ones_example
        (args_example 6 16 1 1 0 [] 0 0).toNArgs C_example 2 = 5
    ∧ own_stores_6xN cfg_6x1 ext_example ones_example ones_example
        (args_example 6 16 1 1 0 [] 0 0).toNArgs C_example 0 = 1
    ∧ own_stores_6xN cfg_6x1 ext_example ones_example ones_example
        (args_example 6 16 1 1 0 [] 0 0).toNArgs C_example 1 = 6 := by
  refine ⟨by decide, by decide, by decide, by decide, by decide, by decide⟩

/-- A concrete run for C23: with `m0 = 12` and the sequence bias (`-2` everywhere), relu
on an all-ones product, the first element of the second row group (row 6) is stored as
`max (1 - 2) 0 = 0`, like the first element of the first row group. -/
theorem C23_concrete_run :
    (lpgemm_rowvar_f32f32f32of32_6x16m ext_example ones_example ones_example
        (args_example 12 16 1 1 0 [bias_node_example 'r', relu_node_example] 0 0)
        C_example).map (fun res => (res.c 0, res.c (6 * 16))) = some (0, 0) := by
  decide

/-- A concrete run for C24: with cursor column index 0 the column-bias handler of the
2-column kernel reads the entries 0, 1, 2, 3 of the bias vector and that of the
1-column kernel reads the same four; for the bias vector `100 + 10*x` lane 2 of the
first accumulator of the 2-column kernel receives `bias[2] = 120`. -/
theorem C24_concrete_run :
    bias_reads_6xN cfg_6x2 { post_op_c_i := 0, post_op_c_j := 0 } = [0, 1, 2, 3]
    ∧ bias_reads_6xN cfg_6x1 { post_op_c_i := 0, post_op_c_j := 0 } = [0, 1, 2, 3]
    ∧ bias_reads_6xN cfg_6x4 { post_op_c_i := 0, post_op_c_j := 0 } = [0, 1, 2, 3]
    ∧ (POST_OPS_BIAS_6xNF cfg_6x2 (bias_ramp_example 'r')
        { post_op_c_i := 0, post_op_c_j := 0 } zero_acc_6xN).r0 2 = 120 := by
  refine ⟨by decide, by decide, by decide, by decide⟩

/-- A concrete run for C25: with `n0 = 20` the main kernel makes the calls of `n0 = 4`,
one call of the 4-column kernel, and with `n0 = 32` it makes no call, as with
`n0 = 16`. -/
theorem C25_concrete_run :
    (lpgemm_rowvar_f32f32f32of32_6x16m ext_example A_example B_example
        (args_example 6 20 3 2 3 [] 0 0) C_example).map
      (fun res => (res.calls.length, res.c 0, res.c 4)) = some (1, 1275, 3)
    ∧ (lpgemm_rowvar_f32f32f32of32_6x16m ext_example A_example B_example
        (args_example 6 4 3 2 3 [] 0 0) C_example).map
      (fun res => (res.calls.length, res.c 0, res.c 4)) = some (1, 1275, 3)
    ∧ (lpgemm_rowvar_f32f32f32of32_6x16m ext_example A_example B_example
        (args_example 6 32 3 2 3 [] 0 0) C_example).map
      (fun res => (res.calls.length, res.c 0)) = some (0, 1275) := by
  refine ⟨by decide, by decide, by decide⟩

/-- The floats that the nodes of `nodes_example` point to lie outside the 7x10 tile. -/
theorem nodes_example_outside :
    NodesOutside (tile_6x16m shared_args_example) nodes_example := by
  intro node hnode x hr ht
  have ht' : x < 200 := by
    simp only [tile_6x16m, shared_args_example, args_example] at ht
    obtain ⟨sw, hsw, i, hi, j, hj, e⟩ := ht
    have hsw' : sw = (0, 8) ∨ sw = (8, 2) := by
      have : chain_chunks 0 (binary_widths (10 % 16)) = [(0, 8), (8, 2)] := by decide
      rw [this] at hsw
      simpa using hsw
    rcases hsw' with h | h <;> subst h <;> simp only at e hj hi <;> omega
  simp only [nodes_example, List.mem_cons, List.mem_singleton, List.not_mem_nil,
    or_false] at hnode
  rcases hnode with h | h | h <;> subst h
  · have : 200 ≤ x := hr
    omega
  · exact hr
  · have : x = 300 ∨ x = 301 := hr
    omega

/-- Witness of C16: M-fringe kernels that leave the memory alone, the 7x10 tile of
`shared_args_example` and the sequence `nodes_example`, whose buffers lie outside the
tile. -/
theorem C16_witness :
    MFringeFrame ext_example
    ∧ NodesOutside (tile_6x16m shared_args_example) nodes_example
    ∧ ((∃ res, lpgemm_rowvar_6x16m_shared ext_example A_example B_example
            shared_args_example nodes_example M_shared_example = some res
        ∧ (∀ x, ¬ tile_6x16m shared_args_example x → res.c x = M_shared_example x)
        ∧ (∀ node ∈ nodes_example, ∀ x, node.reads x →
            ¬ tile_6x16m shared_args_example x → res.c x = M_shared_example x)
        ∧ (NodesOutside (tile_6x16m shared_args_example) nodes_example →
            nodes_example.map (lpgemm_post_op_ptr.deref res.c)
              = nodes_example.map (lpgemm_post_op_ptr.deref M_shared_example))
        ∧ (shared_args_example.n0 % 16 = 0 →
            res.post_ops_attr
              = { post_op_c_i := shared_args_example.post_ops_attr.post_op_c_i
                    + 6 * (shared_args_example.m0 / 6),
                  post_op_c_j := shared_args_example.post_ops_attr.post_op_c_j })
        ∧ (shared_args_example.n0 % 16 ≠ 0 →
            res.post_ops_attr
              = { post_op_c_i := shared_args_example.post_ops_attr.post_op_c_i,
                  post_op_c_j := shared_args_example.post_ops_attr.post_op_c_j
                    + (shared_args_example.n0 % 16 - shared_args_example.n0 % 16 % 2) }))
      ∧ (NodesOutside (tile_6x16m shared_args_example) nodes_example →
          lpgemm_rowvar_6x16m_shared ext_example A_example B_example
              (shared_args_example.read_nodes nodes_example M_shared_example)
              nodes_example M_shared_example
            = lpgemm_rowvar_f32f32f32of32_6x16m ext_example A_example B_example
                (shared_args_example.read_nodes nodes_example M_shared_example)
                M_shared_example)
      ∧ (∀ cfg : NFringeCfg,
          (∃ res, lpgemm_rowvar_6xNm_shared cfg ext_example A_example B_example
                shared_args_example.toNArgs nodes_example M_shared_example = some res
            ∧ (∀ x, ¬ in_tile shared_args_example.c shared_args_example.rs_c
                  shared_args_example.m0 cfg.nr x → res.c x = M_shared_example x)
            ∧ (∀ node ∈ nodes_example, ∀ x, node.reads x →
                ¬ in_tile shared_args_example.c shared_args_example.rs_c
                  shared_args_example.m0 cfg.nr x → res.c x = M_shared_example x)
            ∧ (NodesOutside (in_tile shared_args_example.c shared_args_example.rs_c
                  shared_args_example.m0 cfg.nr) nodes_example →
                nodes_example.map (lpgemm_post_op_ptr.deref res.c)
                  = nodes_example.map (lpgemm_post_op_ptr.deref M_shared_example))
            ∧ res.post_ops_attr
                = { post_op_c_i := shared_args_example.post_ops_attr.post_op_c_i
                      + 6 * (shared_args_example.m0 / 6),
                    post_op_c_j := shared_args_example.post_ops_attr.post_op_c_j })
          ∧ (NodesOutside (in_tile shared_args_example.c shared_args_example.rs_c
                shared_args_example.m0 cfg.nr) nodes_example →
              lpgemm_rowvar_6xNm_shared cfg ext_example A_example B_example
                  shared_args_example.toNArgs nodes_example M_shared_example
                = lpgemm_rowvar_6xNm cfg ext_example A_example B_example
                    (shared_args_example.toNArgs.read_nodes nodes_example M_shared_example)
                    M_shared_example))) :=
  ⟨fun _ _ _ _ _ _ _ => rfl, nodes_example_outside,
    C16_post_ops_sequence_unchanged ext_example (fun _ _ _ _ _ _ _ => rfl)
      A_example B_example M_shared_example shared_args_example nodes_example⟩

/-- Concrete runs for C16 on the memory `M_shared_example`: the main kernel on the 7x10
tile (chunks of 8 and 2 columns, one row left to the M-fringe kernel) and the 4-column
kernel store bias, relu and clip of `2*A*B + C` in the tile (`c[0]`, `c[9]` or `c[3]`,
`c[16]`), leave the element after the row (`c[10]`, `c[4]`), row 6 (`c[96]`), the bias
vector (200, 215) and the bounds (300, 301) as they were, and move the cursor; the
main kernel run on the sequence read on entry gives the same. -/
theorem C16_concrete_run :
    [0, 9, 10, 16, 96, 200, 215, 300, 301].map M_shared_example
      = [7, -2, -3, -9, -89, 0, 15, 0, 2000]
    ∧ (lpgemm_rowvar_6x16m_shared ext_example A_example B_example shared_args_example
        nodes_example M_shared_example).map
      (fun res => ([0, 9, 10, 16, 96, 200, 215, 300, 301].map res.c, res.post_ops_attr))
      = some ([1261, 1585, -3, 1407, -89, 0, 15, 0, 2000],
          { post_op_c_i := 0, post_op_c_j := 10 })
    ∧ (lpgemm_rowvar_f32f32f32of32_6x16m ext_example A_example B_example
        (shared_args_example.read_nodes nodes_example M_shared_example)
        M_shared_example).map
      (fun res => ([0, 9, 10, 16, 96, 200, 215, 300, 301].map res.c, res.post_ops_attr))
      = some ([1261, 1585, -3, 1407, -89, 0, 15, 0, 2000],
          { post_op_c_i := 0, post_op_c_j := 10 })
    ∧ (lpgemm_rowvar_6xNm_shared cfg_6x4 ext_example A_example B_example
        shared_args_example.toNArgs nodes_example M_shared_example).map
      (fun res => ([0, 3, 4, 16, 96, 200, 215, 300, 301].map res.c, res.post_ops_attr))
      = some ([1261, 1369, 3, 1407, -89, 0, 15, 0, 2000],
          { post_op_c_i := 6, post_op_c_j := 0 }) := by
  refine ⟨by decide, by decide, by decide, by decide⟩

end Lpgemm
